import Mathlib

/-!
# Framing protocol with ARQ (protothreads variant)

Shallow embedding of `src/protothreads/main.c`.

Conventions of the embedding.

* `uint8_t`, `uint16_t` and `unsigned long` values are natural numbers; where the
  C arithmetic can wrap the reduction modulo `2 ^ w` is written out.  `int` values
  (`pt_state`, `attempts`, `finished`, `result`, return codes) are integers.
* The global `channel` array together with `channel_write_index` is the list
  `Channel.buf` of the bytes written so far (`channel[0 .. channel_write_index)`),
  so that `channel_write_index = buf.length`; `channel_read_index` is `Channel.rd`.
  Slots at or beyond the write index are never read by the program.
* The fixed-size buffers `transmitter_t.frame` and `receiver_t.out` are lists that
  are updated in place with `List.set`.
* The global `ticks` is passed explicitly to the functions that read it.
-/

namespace Protothreads

/-! ## Protocol constants -/

def STX : Nat := 0x02
def ETX : Nat := 0x03
def ACK : Nat := 0x06
def NACK : Nat := 0x15
def MAX_LEN : Nat := 255
def CHANNEL_SIZE : Nat := 1024
def TIMEOUT_TICKS : Nat := 5
def MAX_RETRIES : Int := 3

/-- Number of values of an `unsigned long` (LP64). -/
def ULONG_MOD : Nat := 18446744073709551616

/-- Size of `transmitter_t.frame`, that is `3 + MAX_LEN + 1`. -/
def FRAME_SIZE : Nat := 3 + MAX_LEN + 1

/-! ## Simulated channel -/

/-- The simulated channel: `buf` is `channel[0 .. channel_write_index)` and `rd` is
`channel_read_index`. -/
structure Channel where
  buf : List Nat
  rd : Nat
deriving DecidableEq

/-- `reset_channel`: both indices go back to zero. -/
def reset_channel : Channel := { buf := [], rd := 0 }

/-- `send_byte`: appends `b` unless the channel is full, in which case the byte is
dropped. -/
def send_byte (c : Channel) (b : Nat) : Channel :=
  if c.buf.length < CHANNEL_SIZE then { c with buf := c.buf ++ [b] } else c

/-- `get_byte`: returns the next unread byte and advances the read index, or `none`
(the C function returns 0) when nothing is pending. -/
def get_byte (c : Channel) : Option Nat × Channel :=
  if c.rd < c.buf.length then (some (c.buf.getD c.rd 0), { c with rd := c.rd + 1 })
  else (none, c)

/-- `consume_incoming_byte` is `get_byte`. -/
def consume_incoming_byte (c : Channel) : Option Nat × Channel := get_byte c

/-- `tick`: `ticks++` on an `unsigned long`. -/
def tick (ticks : Nat) : Nat := (ticks + 1) % ULONG_MOD

/-! ## Frame construction -/

/-- Body of the `for` loop of `build_frame` for index `i`, acting on
`(dst, idx, chk)`. -/
def build_frame_body (data : List Nat) (s : List Nat × Nat × Nat) (i : Nat) :
    List Nat × Nat × Nat :=
  (s.1.set s.2.1 (data.getD i 0), s.2.1 + 1, (s.2.2 ^^^ data.getD i 0) % 256)

/-- `build_frame dst data len`: writes `STX LEN DATA... CHK ETX` into `dst` and
returns the updated buffer and the number of bytes written. -/
def build_frame (dst : List Nat) (data : List Nat) (len : Nat) : List Nat × Nat :=
  let dst1 := dst.set 0 STX
  let dst2 := dst1.set 1 len
  let chk0 := (0 ^^^ len) % 256
  let s := (List.range len).foldl (build_frame_body data) (dst2, 2, chk0)
  let dst3 := s.1.set s.2.1 s.2.2
  let dst4 := dst3.set (s.2.1 + 1) ETX
  (dst4, s.2.1 + 2)

/-! ## Transmitter -/

structure transmitter_t where
  pt_state : Int
  data : List Nat
  len : Nat
  frame : List Nat
  frame_len : Nat
  send_index : Nat
  attempts : Int
  wait_start_tick : Nat
  finished : Int
deriving DecidableEq

/-- `case 3` of `pt_transmitter` (AWAIT_RESPONSE). -/
def pt_transmitter_case3 (t : transmitter_t) (c : Channel) (ticks : Nat) :
    Int × transmitter_t × Channel :=
  let timeout (c1 : Channel) : Int × transmitter_t × Channel :=
    if (ticks + ULONG_MOD - t.wait_start_tick) % ULONG_MOD ≥ TIMEOUT_TICKS then
      (0, { t with pt_state := 1 }, c1)
    else
      (0, t, c1)
  match consume_incoming_byte c with
  | (some b, c1) =>
    if b = ACK then
      (1, { t with finished := 1, pt_state := 99 }, c1)
    else if b = NACK then
      (0, { t with pt_state := 1 }, c1)
    else
      timeout c1
  | (none, c1) => timeout c1

/-- `case 2` of `pt_transmitter` (SENDING), falling through to `case 3`. -/
def pt_transmitter_case2 (t : transmitter_t) (c : Channel) (ticks : Nat) :
    Int × transmitter_t × Channel :=
  if t.send_index < t.frame_len then
    (0, { t with send_index := t.send_index + 1 },
      send_byte c (t.frame.getD t.send_index 0))
  else
    pt_transmitter_case3 { t with wait_start_tick := ticks, pt_state := 3 } c ticks

/-- `case 1` of `pt_transmitter` (BUILD_AND_ARM), falling through to `case 2`. -/
def pt_transmitter_case1 (t : transmitter_t) (c : Channel) (ticks : Nat) :
    Int × transmitter_t × Channel :=
  if t.attempts ≥ MAX_RETRIES then
    (1, { t with finished := -1, pt_state := 99 }, c)
  else
    pt_transmitter_case2
      { t with attempts := t.attempts + 1, send_index := 0, pt_state := 2 } c ticks

/-- `case 0` of `pt_transmitter` (INIT), falling through to `case 1`. -/
def pt_transmitter_case0 (t : transmitter_t) (c : Channel) (ticks : Nat) :
    Int × transmitter_t × Channel :=
  let bf := build_frame t.frame t.data t.len
  pt_transmitter_case1
    { t with attempts := 0, finished := 0, frame := bf.1, frame_len := bf.2, pt_state := 1 }
    c ticks

/-- `pt_transmitter`: one cooperative step of the transmitter; returns the C return
value, the updated context and the updated channel. -/
def pt_transmitter (t : transmitter_t) (c : Channel) (ticks : Nat) :
    Int × transmitter_t × Channel :=
  if t.pt_state = 0 then pt_transmitter_case0 t c ticks
  else if t.pt_state = 1 then pt_transmitter_case1 t c ticks
  else if t.pt_state = 2 then pt_transmitter_case2 t c ticks
  else if t.pt_state = 3 then pt_transmitter_case3 t c ticks
  else (1, t, c)

/-! ## Receiver -/

structure receiver_t where
  pt_state : Int
  out : List Nat
  out_len : Nat
  state : Nat
  expected_len : Nat
  chk : Nat
  i : Nat
  result : Int
deriving DecidableEq

/-- `pt_receiver`: consumes at most one byte and processes it; returns the C return
value (1 exactly when an ACK was produced), the updated context and the updated
channel.  In READ_DATA the store `out[i]` with `i = 255` would fall outside the C array;
`List.set` then leaves `out` unchanged.  No context reached from parse state 0 gets
there, since `i < expected_len ≤ 255` whenever a data byte is stored. -/
def pt_receiver (r : receiver_t) (c : Channel) : Int × receiver_t × Channel :=
  match get_byte c with
  | (none, c1) => (0, r, c1)
  | (some b, c1) =>
    if r.state = 0 then
      if b = STX then (0, { r with chk := 0, i := 0, state := 1 }, c1)
      else (0, r, c1)
    else if r.state = 1 then
      let r1 := { r with expected_len := b, chk := (r.chk ^^^ b) % 256 }
      if r1.expected_len > MAX_LEN then (0, { r1 with result := -1, state := 0 }, c1)
      else if r1.expected_len = 0 then (0, { r1 with state := 3 }, c1)
      else (0, { r1 with state := 2 }, c1)
    else if r.state = 2 then
      let r1 := { r with out := r.out.set r.i b, i := (r.i + 1) % 256,
                         chk := (r.chk ^^^ b) % 256 }
      if r1.i ≥ r1.expected_len then (0, { r1 with state := 3 }, c1)
      else (0, r1, c1)
    else if r.state = 3 then
      if b ≠ r.chk then (0, { r with result := -1, state := 0 }, c1)
      else (0, { r with state := 4 }, c1)
    else if r.state = 4 then
      if b = ETX then
        (1, { r with out_len := r.expected_len, result := 1, state := 0 },
          send_byte c1 ACK)
      else (0, { r with result := -1, state := 0 }, c1)
    else (0, { r with state := 0 }, c1)

/-! ## Scheduler -/

/-- The globals and the two contexts the scheduler works on. -/
structure Sys where
  tx : transmitter_t
  rx : receiver_t
  ch : Channel
  ticks : Nat
deriving DecidableEq

/-- One iteration of the body of the `while` loop of `run_scheduler`, up to and
including `tick()`. -/
def scheduler_round (s : Sys) : Sys :=
  let a := pt_receiver s.rx s.ch
  let b := pt_transmitter s.tx a.2.2 s.ticks
  { tx := b.2.1, rx := a.2.1, ch := b.2.2, ticks := tick s.ticks }

/-- `run_scheduler`: at most `max_iterations` rounds, leaving the loop after the
first round that ends with `tx->finished != 0`. -/
def run_scheduler : Nat → Sys → Sys
  | 0, s => s
  | max_iterations + 1, s =>
    let s1 := scheduler_round s
    if s1.tx.finished ≠ 0 then s1 else run_scheduler max_iterations s1

/-! ## Runs, fresh contexts and auxiliary notions used in the statements -/

/-- A list all of whose elements are bytes. -/
def IsBytes (p : List Nat) : Prop := ∀ b ∈ p, b < 256

instance (p : List Nat) : Decidable (IsBytes p) := by unfold IsBytes; infer_instance

/-- XOR of `len` and all bytes of `p` (the checksum of the wire format). -/
def xor_fold (len : Nat) (p : List Nat) : Nat := p.foldl (fun a b => a ^^^ b) len

/-- The bytes `build_frame` writes for the payload `p`: the first `idx` bytes of a
frame buffer of `FRAME_SIZE` bytes after the call, `idx` being the returned length. -/
def frame_of (p : List Nat) : List Nat :=
  (build_frame (List.replicate FRAME_SIZE 0) p p.length).1.take
    (build_frame (List.replicate FRAME_SIZE 0) p p.length).2

/-- A receiver context after `memset(&rx, 0, sizeof(rx))`. -/
def rx_fresh : receiver_t :=
  { pt_state := 0, out := List.replicate MAX_LEN 0, out_len := 0, state := 0,
    expected_len := 0, chk := 0, i := 0, result := 0 }

/-- A transmitter context after `memset(&tx, 0, sizeof(tx))` followed by the
assignments `tx.data = data; tx.len = len; tx.pt_state = 0; tx.finished = 0`. -/
def tx_fresh (data : List Nat) (len : Nat) : transmitter_t :=
  { pt_state := 0, data := data, len := len, frame := List.replicate FRAME_SIZE 0,
    frame_len := 0, send_index := 0, attempts := 0, wait_start_tick := 0, finished := 0 }

/-- One call of `pt_receiver`, the return value dropped. -/
def recv_step (s : receiver_t × Channel) : receiver_t × Channel :=
  ((pt_receiver s.1 s.2).2.1, (pt_receiver s.1 s.2).2.2)

/-- The receiver stepped `n` times in a row. -/
def recv_steps (n : Nat) (s : receiver_t × Channel) : receiver_t × Channel :=
  Nat.iterate recv_step n s

/-- Receiver context reached from `r` (in parse state 0) after the first `m` bytes of
the frame of payload `p` have been consumed. -/
def rx_after (r : receiver_t) (p : List Nat) (m : Nat) : receiver_t :=
  if m = 0 then r
  else if m = 1 then { r with chk := 0, i := 0, state := 1 }
  else if m ≤ p.length + 2 then
    { r with expected_len := p.length, chk := xor_fold p.length (p.take (m - 2)),
             i := m - 2, out := p.take (m - 2) ++ r.out.drop (m - 2),
             state := if m = p.length + 2 then 3 else 2 }
  else if m = p.length + 3 then
    { r with expected_len := p.length, chk := xor_fold p.length p, i := p.length,
             out := p ++ r.out.drop p.length, state := 4 }
  else
    { r with expected_len := p.length, chk := xor_fold p.length p, i := p.length,
             out := p ++ r.out.drop p.length, state := 0, out_len := p.length,
             result := 1 }

/-- The corruption applied by `teste_checksum_error` to a frame `f` lying at the end of
the channel, `channel[channel_write_index - 2] ^= mask` (the test uses `mask = 0xFF`):
the checksum byte, second to last, is XORed with `mask`. -/
def corrupt_chk (f : List Nat) (mask : Nat) : List Nat :=
  f.set (f.length - 2) ((f.getD (f.length - 2) 0 ^^^ mask) % 256)

/-- Transmitter context while the frame of payload `p` is being sent for the `a`-th
time, `k` bytes of it already on the channel; `w` is the recorded wait-start tick. -/
def tx_sending (t : transmitter_t) (p : List Nat) (a : Int) (k w : Nat) : transmitter_t :=
  { t with attempts := a, finished := 0, frame := (build_frame t.frame p p.length).1,
           frame_len := p.length + 4, send_index := k, wait_start_tick := w, pt_state := 2 }

/-- System state while the first transmission of the frame of `p` is in flight under
the scheduler: `m + 1` bytes sent, `m` of them consumed by the receiver. -/
def sched_mid (t : transmitter_t) (r : receiver_t) (p : List Nat) (m ticks : Nat) : Sys :=
  { tx := tx_sending t p 1 (m + 1) t.wait_start_tick, rx := rx_after r p m,
    ch := { buf := (frame_of p).take (m + 1), rd := m }, ticks := ticks }

/-- System state when the scheduler stops after a first transmission that was
acknowledged; `w` is the tick at which the transmitter started to wait. -/
def sched_done (t : transmitter_t) (r : receiver_t) (p : List Nat) (w ticks : Nat) : Sys :=
  { tx := { tx_sending t p 1 (p.length + 4) w with finished := 1, pt_state := 99 },
    rx := rx_after r p (p.length + 4),
    ch := { buf := frame_of p ++ [ACK], rd := p.length + 5 }, ticks := ticks }

/-- The system at the start of the tests: reset channel, fresh transmitter holding
`data`, fresh receiver. -/
def sys_fresh (data : List Nat) (len ticks : Nat) : Sys :=
  { tx := tx_fresh data len, rx := rx_fresh, ch := reset_channel, ticks := ticks }

/-- The transmitter stepped once per element of `envs`, each step seeing the channel
and the clock value given by that element (whatever the rest of the system did in
between). -/
def tx_run (t : transmitter_t) : List (Channel × Nat) → transmitter_t
  | [] => t
  | e :: envs => tx_run (pt_transmitter t e.1 e.2).2.1 envs

/-- A transmitter that has sent the frame of the empty payload once (four bytes,
`attempts = 1`) and has been waiting for a response since tick 4. -/
def tx_waiting_example : transmitter_t :=
  { tx_sending (tx_fresh [] 0) [] 1 4 4 with pt_state := 3 }

/-- A full channel (`CHANNEL_SIZE = 1024` bytes written): the frame of the empty
payload, 1019 further bytes, and a final NACK, which is the only unread byte. -/
def full_channel_nack : Channel :=
  { buf := frame_of [] ++ List.replicate 1019 0 ++ [NACK], rd := 1023 }

/-- One iteration of the transmitter-only loop of `teste_retransmit_on_missing_ack`:
`pt_transmitter(&tx); tick();`. -/
def tx_only_round (s : Sys) : Sys :=
  let b := pt_transmitter s.tx s.ch s.ticks
  { tx := b.2.1, rx := s.rx, ch := b.2.2, ticks := tick s.ticks }

/-- The transmitter stepped alone `n` times, each step followed by one clock tick. -/
def tx_only (n : Nat) (s : Sys) : Sys := Nat.iterate tx_only_round n s

/-- Transmitter context back in BUILD_AND_ARM after the `a`-th transmission. -/
def tx_armed (t : transmitter_t) (p : List Nat) (a : Int) (w : Nat) : transmitter_t :=
  { tx_sending t p a (p.length + 4) w with pt_state := 1 }

/-- Transmitter context in AWAIT_RESPONSE after the `a`-th transmission. -/
def tx_waiting (t : transmitter_t) (p : List Nat) (a : Int) (w : Nat) : transmitter_t :=
  { tx_sending t p a (p.length + 4) w with pt_state := 3 }

/-- Transmitter context after the retry budget is exhausted. -/
def tx_failed (t : transmitter_t) (p : List Nat) (w : Nat) : transmitter_t :=
  { tx_sending t p 3 (p.length + 4) w with finished := -1, pt_state := 99 }

/-- The scenario of `teste_retransmit_on_missing_ack` for the one-byte message `[x]`,
started at clock value `ticks0`: the transmitter runs alone for `TIMEOUT_TICKS + 2`
ticks, then receiver and transmitter run together for at most 200 rounds, the loop being
left as soon as `tx.finished != 0` (the second loop of the test is the loop of
`run_scheduler` with `max_iterations = 200`). -/
def teste_retransmit_on_missing_ack (x ticks0 : Nat) : Sys :=
  run_scheduler 200 (tx_only (TIMEOUT_TICKS + 2) (sys_fresh [x] 1 ticks0))

/-- Two system states that differ only by a shift `d` of the clock (modulo
`ULONG_MOD`), the recorded wait-start tick being shifted along whenever the transmitter
is waiting. -/
def ClockShift (d : Nat) (s u : Sys) : Prop :=
  ∃ W, u = { s with tx := { s.tx with wait_start_tick := W },
                    ticks := (s.ticks + d) % ULONG_MOD } ∧
    s.ticks < ULONG_MOD ∧
    (s.tx.pt_state = 3 →
      s.tx.wait_start_tick < ULONG_MOD ∧ W = (s.tx.wait_start_tick + d) % ULONG_MOD)

/-- The scheduler round run unconditionally `n` times. -/
def rounds (n : Nat) (s : Sys) : Sys := Nat.iterate scheduler_round n s

/-- The number of rounds the loop of `run_scheduler` executes: the loop body is entered
while `iter++ < max_iterations` and left by `break` after the first round that ends with
`tx->finished != 0`. -/
def run_scheduler_rounds : Nat → Sys → Nat
  | 0, _ => 0
  | max_iterations + 1, s =>
    let s1 := scheduler_round s
    if s1.tx.finished ≠ 0 then 1 else run_scheduler_rounds max_iterations s1 + 1

/-- The transmitter of the two-byte message `[0x55, 0x55]` (a frame of six bytes) run
alone for eleven steps from the start of a test: six steps send the frame, five more
wait and read five frame bytes back. -/
def tx_late_wait_example : Sys := tx_only 11 (sys_fresh [0x55, 0x55] 2 0)

/-- A full channel (`CHANNEL_SIZE = 1024` bytes written): 1017 bytes that have been
read already, then, unread, three stray bytes and the frame of the empty payload. -/
def full_channel_stray_frame : Channel :=
  { buf := List.replicate 1017 0 ++ [0x00, 0x03, 0x06] ++ frame_of [], rd := 1017 }

/-- The bytes a transmitter in AWAIT_RESPONSE consumes during one wait in which nothing
is written to the channel; `polls` is the number of polls left before the timeout ends
the wait and `pending` are the unread bytes.  Each poll consumes one byte; the wait ends
when an ACK or a NACK has been consumed, and a poll that finds nothing to read consumes
nothing. -/
def wait_reads : Nat → List Nat → List Nat
  | 0, _ => []
  | _ + 1, [] => []
  | polls + 1, b :: pending =>
    if b = ACK ∨ b = NACK then [b] else b :: wait_reads polls pending

/-- The bytes a transmitter running alone reads back from the channel, `f` being its
frame: a wait is made of `TIMEOUT_TICKS + 1` polls (elapsed ticks 0 to `TIMEOUT_TICKS`),
the first wait finds one copy of the frame on the channel, the second two, the third
three, each wait going on where the one before stopped reading; an ACK ends the
exchange. -/
def lone_reads (f : List Nat) : List Nat :=
  if ACK ∈ wait_reads (TIMEOUT_TICKS + 1) f then wait_reads (TIMEOUT_TICKS + 1) f
  else if ACK ∈ wait_reads (TIMEOUT_TICKS + 1)
      ((f ++ f).drop (wait_reads (TIMEOUT_TICKS + 1) f).length) then
    wait_reads (TIMEOUT_TICKS + 1) f ++
      wait_reads (TIMEOUT_TICKS + 1) ((f ++ f).drop (wait_reads (TIMEOUT_TICKS + 1) f).length)
  else
    wait_reads (TIMEOUT_TICKS + 1) f ++
      wait_reads (TIMEOUT_TICKS + 1)
        ((f ++ f).drop (wait_reads (TIMEOUT_TICKS + 1) f).length) ++
      wait_reads (TIMEOUT_TICKS + 1)
        ((f ++ f ++ f).drop ((wait_reads (TIMEOUT_TICKS + 1) f).length +
          (wait_reads (TIMEOUT_TICKS + 1)
            ((f ++ f).drop (wait_reads (TIMEOUT_TICKS + 1) f).length)).length))

/-- Transmitter context after an ACK was read during the wait that followed the `a`-th
transmission. -/
def tx_acked (t : transmitter_t) (p : List Nat) (a : Int) (w : Nat) : transmitter_t :=
  { tx_sending t p a (p.length + 4) w with finished := 1, pt_state := 99 }

end Protothreads

/-!
# Framing protocol, table-driven FSM variant

Shallow embedding of `src/FSM-SwitchPonteiros/main.c`.  The channel code of that file
(`channel`, `reset_channel`, `send_byte`, `get_byte`, `STX`, `ETX`, `MAX_LEN`,
`CHANNEL_SIZE`) is the same, character for character, as in the protothreads file; the
definitions of the namespace `Protothreads` are used for both.

The handlers are `void` functions acting on a context and on the channel; they are
functions from context and channel to context and channel.  The dispatch tables
`tx_table` and `rx_table` are functions of the state.  The two `while` loops take the
number of iterations they may run as a fuel argument and return `none` when it does not
suffice.
-/

namespace FSM

open Protothreads

/-! ## Transmitter -/

inductive TxState where
  | TX_SEND_STX
  | TX_SEND_LEN
  | TX_SEND_DATA
  | TX_SEND_CHK
  | TX_SEND_ETX
  | TX_DONE
deriving DecidableEq

structure TxContext where
  state : TxState
  data : List Nat
  len : Nat
  i : Nat
  chk : Nat
deriving DecidableEq

def tx_send_stx (ctx : TxContext) (c : Channel) : TxContext × Channel :=
  ({ ctx with state := TxState.TX_SEND_LEN }, send_byte c STX)

def tx_send_len (ctx : TxContext) (c : Channel) : TxContext × Channel :=
  ({ ctx with chk := (ctx.chk ^^^ ctx.len) % 256,
              state := if ctx.len > 0 then TxState.TX_SEND_DATA else TxState.TX_SEND_CHK },
    send_byte c ctx.len)

def tx_send_data (ctx : TxContext) (c : Channel) : TxContext × Channel :=
  let ctx1 := { ctx with chk := (ctx.chk ^^^ ctx.data.getD ctx.i 0) % 256,
                         i := (ctx.i + 1) % 256 }
  (if ctx1.i ≥ ctx1.len then { ctx1 with state := TxState.TX_SEND_CHK } else ctx1,
    send_byte c (ctx.data.getD ctx.i 0))

def tx_send_chk (ctx : TxContext) (c : Channel) : TxContext × Channel :=
  ({ ctx with state := TxState.TX_SEND_ETX }, send_byte c ctx.chk)

def tx_send_etx (ctx : TxContext) (c : Channel) : TxContext × Channel :=
  ({ ctx with state := TxState.TX_DONE }, send_byte c ETX)

def tx_done (ctx : TxContext) (c : Channel) : TxContext × Channel := (ctx, c)

/-- The table `tx_table`, indexed by the state. -/
def tx_table : TxState → TxContext → Channel → TxContext × Channel
  | TxState.TX_SEND_STX => tx_send_stx
  | TxState.TX_SEND_LEN => tx_send_len
  | TxState.TX_SEND_DATA => tx_send_data
  | TxState.TX_SEND_CHK => tx_send_chk
  | TxState.TX_SEND_ETX => tx_send_etx
  | TxState.TX_DONE => tx_done

/-- The loop `while (ctx.state != TX_DONE) tx_table[ctx.state](&ctx);` with fuel. -/
def transmitter_fsm_loop : Nat → TxContext × Channel → Option (TxContext × Channel)
  | 0, s => if s.1.state = TxState.TX_DONE then some s else none
  | fuel + 1, s =>
    if s.1.state = TxState.TX_DONE then some s
    else transmitter_fsm_loop fuel (tx_table s.1.state s.1 s.2)

/-- `transmitter_fsm data len`: the channel after the frame has been sent. -/
def transmitter_fsm (fuel : Nat) (data : List Nat) (len : Nat) (c : Channel) :
    Option Channel :=
  (transmitter_fsm_loop fuel
    ({ state := TxState.TX_SEND_STX, data := data, len := len, i := 0, chk := 0 }, c)).map
    (fun s => s.2)

/-- The loop of `transmitter_fsm` once more, counting the handler invocations
`tx_table[ctx.state](&ctx)` it makes: the count comes with the final context and
channel. -/
def transmitter_fsm_loop_calls :
    Nat → TxContext × Channel → Option (Nat × (TxContext × Channel))
  | 0, s => if s.1.state = TxState.TX_DONE then some (0, s) else none
  | fuel + 1, s =>
    if s.1.state = TxState.TX_DONE then some (0, s)
    else (transmitter_fsm_loop_calls fuel (tx_table s.1.state s.1 s.2)).map
      (fun r => (r.1 + 1, r.2))

/-! ## Receiver -/

inductive RxState where
  | RX_WAIT_STX
  | RX_READ_LEN
  | RX_READ_DATA
  | RX_READ_CHK
  | RX_READ_ETX
  | RX_DONE
  | RX_ERROR
deriving DecidableEq

/-- `RxContext`; `out` and `out_len` hold what the pointers `out` and `out_len` of the
C structure point to. -/
structure RxContext where
  state : RxState
  out : List Nat
  out_len : Nat
  len : Nat
  chk : Nat
  recv_chk : Nat
  i : Nat
  b : Nat
  result : Int
deriving DecidableEq

def rx_wait_stx (ctx : RxContext) (c : Channel) : RxContext × Channel :=
  match get_byte c with
  | (none, c1) => (ctx, c1)
  | (some b, c1) =>
    let ctx1 := { ctx with b := b }
    if ctx1.b = STX then ({ ctx1 with chk := 0, i := 0, state := RxState.RX_READ_LEN }, c1)
    else (ctx1, c1)

def rx_read_len (ctx : RxContext) (c : Channel) : RxContext × Channel :=
  match get_byte c with
  | (none, c1) => (ctx, c1)
  | (some b, c1) =>
    let ctx1 := { ctx with b := b, len := b, chk := (ctx.chk ^^^ b) % 256 }
    if ctx1.len > MAX_LEN then ({ ctx1 with state := RxState.RX_ERROR, result := -1 }, c1)
    else if ctx1.len = 0 then ({ ctx1 with state := RxState.RX_READ_CHK }, c1)
    else ({ ctx1 with state := RxState.RX_READ_DATA }, c1)

def rx_read_data (ctx : RxContext) (c : Channel) : RxContext × Channel :=
  match get_byte c with
  | (none, c1) => (ctx, c1)
  | (some b, c1) =>
    let ctx1 := { ctx with b := b, out := ctx.out.set ctx.i b, i := (ctx.i + 1) % 256,
                           chk := (ctx.chk ^^^ b) % 256 }
    if ctx1.i ≥ ctx1.len then ({ ctx1 with state := RxState.RX_READ_CHK }, c1)
    else (ctx1, c1)

def rx_read_chk (ctx : RxContext) (c : Channel) : RxContext × Channel :=
  match get_byte c with
  | (none, c1) => (ctx, c1)
  | (some b, c1) =>
    let ctx1 := { ctx with b := b, recv_chk := b }
    if ctx1.recv_chk ≠ ctx1.chk then
      ({ ctx1 with state := RxState.RX_ERROR, result := -1 }, c1)
    else ({ ctx1 with state := RxState.RX_READ_ETX }, c1)

def rx_read_etx (ctx : RxContext) (c : Channel) : RxContext × Channel :=
  match get_byte c with
  | (none, c1) => (ctx, c1)
  | (some b, c1) =>
    let ctx1 := { ctx with b := b }
    if ctx1.b = ETX then
      ({ ctx1 with out_len := ctx1.len, state := RxState.RX_DONE, result := 1 }, c1)
    else ({ ctx1 with state := RxState.RX_ERROR, result := -1 }, c1)

def rx_done (ctx : RxContext) (c : Channel) : RxContext × Channel := (ctx, c)

def rx_error (ctx : RxContext) (c : Channel) : RxContext × Channel := (ctx, c)

/-- The table `rx_table`, indexed by the state. -/
def rx_table : RxState → RxContext → Channel → RxContext × Channel
  | RxState.RX_WAIT_STX => rx_wait_stx
  | RxState.RX_READ_LEN => rx_read_len
  | RxState.RX_READ_DATA => rx_read_data
  | RxState.RX_READ_CHK => rx_read_chk
  | RxState.RX_READ_ETX => rx_read_etx
  | RxState.RX_DONE => rx_done
  | RxState.RX_ERROR => rx_error

/-- The loop of `receiver_fsm`, with fuel: it ends in `RX_DONE` or `RX_ERROR`, and a
channel found empty at the top of an iteration is a protocol error. -/
def receiver_fsm_loop : Nat → RxContext × Channel → Option (RxContext × Channel)
  | 0, s =>
    if s.1.state = RxState.RX_DONE ∨ s.1.state = RxState.RX_ERROR then some s else none
  | fuel + 1, s =>
    if s.1.state = RxState.RX_DONE ∨ s.1.state = RxState.RX_ERROR then some s
    else if s.2.rd ≥ s.2.buf.length then
      some ({ s.1 with state := RxState.RX_ERROR, result := -1 }, s.2)
    else receiver_fsm_loop fuel (rx_table s.1.state s.1 s.2)

/-- The context `receiver_fsm` starts from. -/
def rx_initial (out : List Nat) (out_len : Nat) : RxContext :=
  { state := RxState.RX_WAIT_STX, out := out, out_len := out_len, len := 0, chk := 0,
    recv_chk := 0, i := 0, b := 0, result := 0 }

/-- `receiver_fsm out out_len`: the returned `ctx.result`, the caller's `out` buffer and
`out_len` variable after the call, and the channel. -/
def receiver_fsm (fuel : Nat) (out : List Nat) (out_len : Nat) (c : Channel) :
    Option (Int × List Nat × Nat × Channel) :=
  (receiver_fsm_loop fuel (rx_initial out out_len, c)).map
    (fun s => (s.1.result, s.1.out, s.1.out_len, s.2))

/-! ## Auxiliary notions used in the statements -/

/-- The list begins with a complete well-formed frame: STX, a length byte `len`, `len`
data bytes, a checksum byte equal to the XOR of `len` and the data bytes, ETX. -/
def BeginsWithFrame (l : List Nat) : Prop :=
  ∃ len data tail,
    l = STX :: len :: (data ++ xor_fold len data :: ETX :: tail) ∧ data.length = len

/-- The list with the bytes before its first STX skipped. -/
def skip_to_stx (l : List Nat) : List Nat := l.dropWhile (fun b => b != STX)

/-- What a receiver handler does to the context when the byte it reads is `b`. -/
def rx_on_byte (ctx : RxContext) (b : Nat) : RxContext :=
  (rx_table ctx.state ctx { buf := [b], rd := 0 }).1

/-- The receiver loop run on the list of unread bytes. -/
def rx_feed : RxContext → List Nat → RxContext
  | ctx, [] =>
    if ctx.state = RxState.RX_DONE ∨ ctx.state = RxState.RX_ERROR then ctx
    else { ctx with state := RxState.RX_ERROR, result := -1 }
  | ctx, b :: l =>
    if ctx.state = RxState.RX_DONE ∨ ctx.state = RxState.RX_ERROR then ctx
    else rx_feed (rx_on_byte ctx b) l

/-- Transmitter context after the start marker, the length byte and `i` bytes of the
payload `p` have been sent. -/
def tx_ctx_at (p : List Nat) (i : Nat) : TxContext :=
  { state := if i < p.length then TxState.TX_SEND_DATA else TxState.TX_SEND_CHK,
    data := p, len := p.length, i := i, chk := xor_fold p.length (p.take i) }

end FSM

namespace Protothreads

/-! ## Bytes and checksums -/

theorem xor_byte_lt {a b : Nat} (ha : a < 256) (hb : b < 256) : a ^^^ b < 256 :=
  Nat.xor_lt_two_pow (n := 8) ha hb

theorem xor_byte_mod {a b : Nat} (ha : a < 256) (hb : b < 256) : (a ^^^ b) % 256 = a ^^^ b :=
  Nat.mod_eq_of_lt (xor_byte_lt ha hb)

theorem isBytes_take {p : List Nat} (hp : IsBytes p) (k : Nat) : IsBytes (p.take k) :=
  fun b hb => hp b (List.mem_of_mem_take hb)

theorem xor_fold_lt {p : List Nat} (hp : IsBytes p) :
    ∀ {a : Nat}, a < 256 → xor_fold a p < 256 := by
  induction p with
  | nil => intro a ha; simpa [xor_fold] using ha
  | cons x xs ih =>
    intro a ha
    have hx : x < 256 := hp x (by simp)
    have hxs : IsBytes xs := fun b hb => hp b (by simp [hb])
    have := ih hxs (xor_byte_lt ha hx)
    simpa [xor_fold] using this

theorem xor_fold_snoc (a : Nat) (l : List Nat) (b : Nat) :
    xor_fold a (l ++ [b]) = xor_fold a l ^^^ b := by
  unfold xor_fold
  rw [List.foldl_append]
  rfl

theorem take_succ_getElem (p : List Nat) (k : Nat) (hk : k < p.length) :
    p.take (k + 1) = p.take k ++ [p[k]] := by
  rw [List.take_succ]; simp [hk]

theorem set_append_drop (pre dst : List Nat) (v n : Nat) (hn : pre.length = n)
    (h : n < dst.length) :
    (pre ++ dst.drop n).set n v = (pre ++ [v]) ++ dst.drop (n + 1) := by
  subst hn
  simp only [List.set_append, lt_self_iff_false, if_false, Nat.sub_self, List.append_assoc,
    List.singleton_append]
  rw [List.drop_eq_getElem_cons h, List.set_cons_zero]

/-! ## `build_frame` -/

/-- State of the loop of `build_frame` after `k` iterations. -/
theorem build_frame_loop (data : List Nat) (hd : IsBytes data) (pre dst : List Nat) (n c0 : Nat)
    (hn : pre.length = n) (hc0 : c0 < 256) :
    ∀ k, k ≤ data.length → n + k < dst.length →
      (List.range k).foldl (build_frame_body data) (pre ++ dst.drop n, n, c0)
        = ((pre ++ data.take k) ++ dst.drop (n + k), n + k, xor_fold c0 (data.take k)) := by
  intro k
  induction k with
  | zero => intro _ _; simp [xor_fold]
  | succ k ih =>
    intro hk hlen
    have hk' : k < data.length := hk
    rw [List.range_succ, List.foldl_append, ih (by omega) (by omega)]
    have hb : data.getD k 0 = data[k] := by simp [List.getD_eq_getElem?_getD, hk']
    have hlt : data[k] < 256 := hd _ (List.getElem_mem _)
    have hx : xor_fold c0 (data.take k) < 256 := xor_fold_lt (isBytes_take hd k) hc0
    have h1 := set_append_drop (pre ++ data.take k) dst data[k] (n + k)
      (by simp [List.length_take, hn]; omega) (by omega)
    simp only [List.foldl_cons, List.foldl_nil, build_frame_body, hb, h1, xor_byte_mod hx hlt]
    rw [take_succ_getElem data k hk', xor_fold_snoc, List.append_assoc pre, Nat.add_assoc]

/-- Bytes, return value and untouched tail of `build_frame`. -/
theorem build_frame_spec (dst p : List Nat) (hp : IsBytes p) (hlen : p.length ≤ 255)
    (hdst : p.length + 4 ≤ dst.length) :
    build_frame dst p p.length
      = ([STX, p.length] ++ p ++ [xor_fold p.length p, ETX] ++ dst.drop (p.length + 4),
          p.length + 4) := by
  have h0 : (dst.set 0 STX).set 1 p.length = [STX, p.length] ++ dst.drop 2 := by
    match dst, hdst with
    | a :: b :: rest, _ => simp
  have hm : (0 ^^^ p.length) % 256 = p.length := by
    simp; omega
  have hl := build_frame_loop p hp [STX, p.length] dst 2 p.length rfl (by omega)
    p.length le_rfl (by omega)
  rw [List.take_length] at hl
  have hx : xor_fold p.length p < 256 := xor_fold_lt hp (by omega)
  have h1 := set_append_drop ([STX, p.length] ++ p) dst (xor_fold p.length p) (2 + p.length)
    (by simp; omega) (by omega)
  have h2 := set_append_drop ([STX, p.length] ++ p ++ [xor_fold p.length p]) dst ETX
    (2 + p.length + 1) (by simp; omega) (by omega)
  unfold build_frame
  simp only [h0, hm, hl, h1, h2]
  have e : 2 + p.length + 1 + 1 = p.length + 4 := by omega
  simp only [List.append_assoc, List.singleton_append, List.cons_append, List.nil_append,
    Prod.mk.injEq, List.cons.injEq, true_and, List.append_cancel_left_eq]
  exact ⟨by rw [e], by omega⟩

theorem frame_size_eq : FRAME_SIZE = 259 := rfl

/-- The frame of a payload in wire order. -/
theorem frame_of_eq (p : List Nat) (hp : IsBytes p) (hlen : p.length ≤ 255) :
    frame_of p = [STX, p.length] ++ p ++ [xor_fold p.length p, ETX] := by
  unfold frame_of
  rw [build_frame_spec _ p hp hlen (by rw [List.length_replicate, frame_size_eq]; omega)]
  simp only []
  rw [List.take_append_of_le_length (by simp), List.take_of_length_le (by simp)]

theorem frame_of_length (p : List Nat) (hp : IsBytes p) (hlen : p.length ≤ 255) :
    (frame_of p).length = p.length + 4 := by
  rw [frame_of_eq p hp hlen]; simp

/-- The cached frame of any frame buffer agrees with `frame_of`. -/
theorem build_frame_take (dst p : List Nat) (hp : IsBytes p) (hlen : p.length ≤ 255)
    (hdst : p.length + 4 ≤ dst.length) :
    (build_frame dst p p.length).2 = p.length + 4 ∧
    (build_frame dst p p.length).1.take (p.length + 4) = frame_of p ∧
    (build_frame dst p p.length).1.length = dst.length := by
  rw [build_frame_spec dst p hp hlen hdst, frame_of_eq p hp hlen]
  refine ⟨rfl, ?_, ?_⟩
  · rw [List.take_append_of_le_length (by simp), List.take_of_length_le (by simp)]
  · simp; omega

/-! ## Channel primitives -/

theorem get_byte_some {c : Channel} {b : Nat} (h : c.buf[c.rd]? = some b) :
    get_byte c = (some b, { c with rd := c.rd + 1 }) := by
  have hlt : c.rd < c.buf.length := by
    by_contra hn
    rw [List.getElem?_eq_none (by omega)] at h
    exact Option.noConfusion h
  unfold get_byte
  rw [if_pos hlt, List.getD_eq_getElem?_getD, h]
  rfl

theorem get_byte_none {c : Channel} (h : c.buf.length ≤ c.rd) : get_byte c = (none, c) := by
  unfold get_byte
  rw [if_neg (by omega)]

theorem send_byte_free {c : Channel} (b : Nat) (h : c.buf.length < CHANNEL_SIZE) :
    send_byte c b = { c with buf := c.buf ++ [b] } := by
  unfold send_byte
  rw [if_pos h]

theorem send_byte_full {c : Channel} (b : Nat) (h : CHANNEL_SIZE ≤ c.buf.length) :
    send_byte c b = c := by
  unfold send_byte
  rw [if_neg (by omega)]

/-! ## Bytes of a frame by position -/

theorem frame_get_stx (p : List Nat) (hp : IsBytes p) (hlen : p.length ≤ 255) :
    (frame_of p)[0]? = some STX := by
  rw [frame_of_eq p hp hlen]; rfl

theorem frame_get_len (p : List Nat) (hp : IsBytes p) (hlen : p.length ≤ 255) :
    (frame_of p)[1]? = some p.length := by
  rw [frame_of_eq p hp hlen]; simp

theorem frame_get_data (p : List Nat) (hp : IsBytes p) (hlen : p.length ≤ 255) (k : Nat)
    (hk : k < p.length) : (frame_of p)[k + 2]? = some p[k] := by
  rw [frame_of_eq p hp hlen]
  simp [List.getElem?_append, hk]

theorem frame_get_chk (p : List Nat) (hp : IsBytes p) (hlen : p.length ≤ 255) :
    (frame_of p)[p.length + 2]? = some (xor_fold p.length p) := by
  rw [frame_of_eq p hp hlen]
  show (STX :: p.length :: (p ++ [xor_fold p.length p, ETX]))[p.length + 1 + 1]? = _
  rw [List.getElem?_cons_succ, List.getElem?_cons_succ,
    List.getElem?_append_right (le_refl _), Nat.sub_self]
  rfl

theorem frame_get_etx (p : List Nat) (hp : IsBytes p) (hlen : p.length ≤ 255) :
    (frame_of p)[p.length + 3]? = some ETX := by
  rw [frame_of_eq p hp hlen]
  show (STX :: p.length :: (p ++ [xor_fold p.length p, ETX]))[p.length + 1 + 1 + 1]? = _
  rw [List.getElem?_cons_succ, List.getElem?_cons_succ,
    List.getElem?_append_right (by omega), Nat.add_sub_cancel_left]
  rfl

/-! ## Single steps of the receiver, state by state -/

theorem pt_receiver_none (r : receiver_t) {c : Channel} (h : c.buf.length ≤ c.rd) :
    pt_receiver r c = (0, r, c) := by
  simp [pt_receiver, get_byte_none h]

theorem pt_receiver_stx (r : receiver_t) {c : Channel} (hs : r.state = 0)
    (hb : c.buf[c.rd]? = some STX) :
    pt_receiver r c = (0, { r with chk := 0, i := 0, state := 1 }, { c with rd := c.rd + 1 }) := by
  simp [pt_receiver, get_byte_some hb, hs]

theorem pt_receiver_stray (r : receiver_t) {c : Channel} {b : Nat} (hs : r.state = 0)
    (hb : c.buf[c.rd]? = some b) (hne : b ≠ STX) :
    pt_receiver r c = (0, r, { c with rd := c.rd + 1 }) := by
  simp [pt_receiver, get_byte_some hb, hs, hne]

theorem pt_receiver_len (r : receiver_t) {c : Channel} {b : Nat} (hs : r.state = 1)
    (hb : c.buf[c.rd]? = some b) (hle : b ≤ 255) :
    pt_receiver r c
      = (0, { r with expected_len := b, chk := (r.chk ^^^ b) % 256,
                     state := if b = 0 then 3 else 2 }, { c with rd := c.rd + 1 }) := by
  have hgt : ¬ 255 < b := by omega
  by_cases h0 : b = 0 <;> simp [pt_receiver, get_byte_some hb, hs, MAX_LEN, h0, hgt]

theorem pt_receiver_data (r : receiver_t) {c : Channel} {b : Nat} (hs : r.state = 2)
    (hb : c.buf[c.rd]? = some b) :
    pt_receiver r c
      = (0, { r with out := r.out.set r.i b, i := (r.i + 1) % 256, chk := (r.chk ^^^ b) % 256,
                     state := if (r.i + 1) % 256 ≥ r.expected_len then 3 else 2 },
          { c with rd := c.rd + 1 }) := by
  by_cases h0 : (r.i + 1) % 256 ≥ r.expected_len <;>
    simp [pt_receiver, get_byte_some hb, hs, h0]

theorem pt_receiver_chk_ok (r : receiver_t) {c : Channel} (hs : r.state = 3)
    (hb : c.buf[c.rd]? = some r.chk) :
    pt_receiver r c = (0, { r with state := 4 }, { c with rd := c.rd + 1 }) := by
  simp [pt_receiver, get_byte_some hb, hs]

theorem pt_receiver_chk_bad (r : receiver_t) {c : Channel} {b : Nat} (hs : r.state = 3)
    (hb : c.buf[c.rd]? = some b) (hne : b ≠ r.chk) :
    pt_receiver r c = (0, { r with result := -1, state := 0 }, { c with rd := c.rd + 1 }) := by
  simp [pt_receiver, get_byte_some hb, hs, hne]

theorem pt_receiver_etx_ok (r : receiver_t) {c : Channel} (hs : r.state = 4)
    (hb : c.buf[c.rd]? = some ETX) :
    pt_receiver r c
      = (1, { r with out_len := r.expected_len, result := 1, state := 0 },
          send_byte { c with rd := c.rd + 1 } ACK) := by
  simp [pt_receiver, get_byte_some hb, hs]

theorem pt_receiver_etx_bad (r : receiver_t) {c : Channel} {b : Nat} (hs : r.state = 4)
    (hb : c.buf[c.rd]? = some b) (hne : b ≠ ETX) :
    pt_receiver r c = (0, { r with result := -1, state := 0 }, { c with rd := c.rd + 1 }) := by
  simp [pt_receiver, get_byte_some hb, hs, hne]

/-! ## The receiver along a frame -/

theorem rx_after_zero (r : receiver_t) (p : List Nat) : rx_after r p 0 = r := by
  simp [rx_after]

theorem rx_after_one (r : receiver_t) (p : List Nat) :
    rx_after r p 1 = { r with chk := 0, i := 0, state := 1 } := by
  simp [rx_after]

theorem rx_after_data (r : receiver_t) (p : List Nat) (k : Nat) (hk : k ≤ p.length) :
    rx_after r p (k + 2)
      = { r with expected_len := p.length, chk := xor_fold p.length (p.take k), i := k,
                 out := p.take k ++ r.out.drop k, state := if k = p.length then 3 else 2 } := by
  have h1 : ¬ k + 2 = 0 := by omega
  have h2 : ¬ k + 2 = 1 := by omega
  have h3 : k + 2 ≤ p.length + 2 := by omega
  simp only [rx_after, h1, h2, h3, if_true, if_false, Nat.add_sub_cancel,
    Nat.add_right_cancel_iff]

theorem rx_after_etx (r : receiver_t) (p : List Nat) :
    rx_after r p (p.length + 3)
      = { r with expected_len := p.length, chk := xor_fold p.length p, i := p.length,
                 out := p ++ r.out.drop p.length, state := 4 } := by
  have h1 : ¬ p.length + 3 = 0 := by omega
  have h2 : ¬ p.length + 3 = 1 := by omega
  have h3 : ¬ p.length + 3 ≤ p.length + 2 := by omega
  simp only [rx_after, h1, h2, h3, if_true, if_false]

theorem rx_after_done (r : receiver_t) (p : List Nat) :
    rx_after r p (p.length + 4)
      = { r with expected_len := p.length, chk := xor_fold p.length p, i := p.length,
                 out := p ++ r.out.drop p.length, state := 0, out_len := p.length,
                 result := 1 } := by
  have h1 : ¬ p.length + 4 = 0 := by omega
  have h2 : ¬ p.length + 4 = 1 := by omega
  have h3 : ¬ p.length + 4 ≤ p.length + 2 := by omega
  have h4 : ¬ p.length + 4 = p.length + 3 := by omega
  simp only [rx_after, h1, h2, h3, h4, if_true, if_false]

/-- One receiver step at position `m` of a frame, before the end marker: the context
moves from `rx_after r p m` to `rx_after r p (m + 1)` and nothing is sent. -/
theorem rx_step_frame (r : receiver_t) (hr : r.state = 0) (hout : r.out.length = MAX_LEN)
    (p : List Nat) (hp : IsBytes p) (hlen : p.length ≤ 255) (m : Nat) (hm : m < p.length + 3)
    (c : Channel) (hb : c.buf[c.rd]? = (frame_of p)[m]?) :
    pt_receiver (rx_after r p m) c = (0, rx_after r p (m + 1), { c with rd := c.rd + 1 }) := by
  have hout2 : r.out.length = 255 := hout
  rcases Nat.lt_or_ge m 2 with h2 | h2
  · rcases Nat.lt_or_ge m 1 with h1 | h1
    · -- start marker
      have hm0 : m = 0 := by omega
      subst hm0
      rw [frame_get_stx p hp hlen] at hb
      rw [rx_after_zero, rx_after_one, pt_receiver_stx r hr hb]
    · -- length byte
      have hm1 : m = 1 := by omega
      subst hm1
      rw [frame_get_len p hp hlen] at hb
      rw [rx_after_one, pt_receiver_len _ rfl hb hlen, rx_after_data r p 0 (Nat.zero_le _)]
      have hx : (0 ^^^ p.length) % 256 = p.length := by
        rw [Nat.zero_xor]; exact Nat.mod_eq_of_lt (by omega)
      rw [hx]
      by_cases h0 : p.length = 0
      · have hnil : p = [] := List.length_eq_zero.mp h0
        subst hnil
        simp [xor_fold]
      · have h0b : ¬ 0 = p.length := fun h => h0 h.symm
        simp [xor_fold, h0, h0b]
  · rcases Nat.lt_or_ge m (p.length + 2) with h3 | h3
    · -- payload byte
      obtain ⟨k, rfl⟩ : ∃ k, m = k + 2 := ⟨m - 2, by omega⟩
      have hk : k < p.length := by omega
      rw [frame_get_data p hp hlen k hk] at hb
      have hx : xor_fold p.length (p.take k) < 256 :=
        xor_fold_lt (isBytes_take hp k) (by omega)
      have hpk : p[k] < 256 := hp _ (List.getElem_mem _)
      have hset := set_append_drop (p.take k) r.out p[k] k
        (by simp [List.length_take]; omega) (by omega)
      have hi : (k + 1) % 256 = k + 1 := Nat.mod_eq_of_lt (by omega)
      have e : k + 2 + 1 = (k + 1) + 2 := by omega
      have hkl : ¬ k = p.length := by omega
      rw [e, rx_after_data r p k (by omega), rx_after_data r p (k + 1) (by omega),
        if_neg hkl, pt_receiver_data _ rfl hb]
      simp only [hset, hi, xor_byte_mod hx hpk, take_succ_getElem p k hk, xor_fold_snoc]
      by_cases hl : k + 1 = p.length
      · have : k + 1 ≥ p.length := by omega
        simp [hl, this]
      · have : ¬ k + 1 ≥ p.length := by omega
        simp [hl, this]
    · -- checksum byte
      have hm2 : m = p.length + 2 := by omega
      subst hm2
      rw [frame_get_chk p hp hlen] at hb
      rw [rx_after_data r p p.length le_rfl, rx_after_etx, if_pos rfl, List.take_length]
      rw [pt_receiver_chk_ok _ rfl hb]

/-- The receiver step on the end marker of a frame delivers the payload and sends one
ACK. -/
theorem rx_step_frame_last (r : receiver_t) (p : List Nat) (hp : IsBytes p)
    (hlen : p.length ≤ 255) (c : Channel) (hb : c.buf[c.rd]? = (frame_of p)[p.length + 3]?) :
    pt_receiver (rx_after r p (p.length + 3)) c
      = (1, rx_after r p (p.length + 4), send_byte { c with rd := c.rd + 1 } ACK) := by
  rw [frame_get_etx p hp hlen] at hb
  rw [rx_after_etx, rx_after_done, pt_receiver_etx_ok _ rfl hb]

/-! ## Runs of the receiver -/

theorem recv_steps_zero (s : receiver_t × Channel) : recv_steps 0 s = s := rfl

theorem recv_steps_succ (n : Nat) (s : receiver_t × Channel) :
    recv_steps (n + 1) s = recv_step (recv_steps n s) :=
  Function.iterate_succ_apply' recv_step n s

theorem recv_steps_add (a b : Nat) (s : receiver_t × Channel) :
    recv_steps (a + b) s = recv_steps b (recv_steps a s) := by
  unfold recv_steps
  rw [Nat.add_comm, Function.iterate_add_apply]

/-- With nothing pending the receiver does not move. -/
theorem recv_steps_idle (r : receiver_t) (c : Channel) (h : c.buf.length ≤ c.rd) (n : Nat) :
    recv_steps n (r, c) = (r, c) := by
  induction n with
  | zero => rfl
  | succ n ih => rw [recv_steps_succ, ih, recv_step, pt_receiver_none r h]

/-- Pending bytes by position. -/
theorem pending_get {c : Channel} {f rest : List Nat} (hc : c.buf.drop c.rd = f ++ rest)
    (j : Nat) (hj : j < f.length) : c.buf[c.rd + j]? = f[j]? := by
  rw [← List.getElem?_drop, hc, List.getElem?_append_left hj]

/-- The receiver after the first `m` bytes of a frame, the end marker excluded. -/
theorem recv_steps_frame (r : receiver_t) (hr : r.state = 0) (hout : r.out.length = MAX_LEN)
    (p : List Nat) (hp : IsBytes p) (hlen : p.length ≤ 255) (c : Channel) :
    ∀ m, m ≤ p.length + 3 → (∀ j < m, c.buf[c.rd + j]? = (frame_of p)[j]?) →
      recv_steps m (r, c) = (rx_after r p m, { c with rd := c.rd + m }) := by
  intro m
  induction m with
  | zero => intro _ _; rw [recv_steps_zero, rx_after_zero]; rfl
  | succ m ih =>
    intro hm hpend
    rw [recv_steps_succ, ih (by omega) (fun j hj => hpend j (by omega)), recv_step,
      rx_step_frame r hr hout p hp hlen m (by omega) _ (hpend m (by omega))]
    rfl

/-- The receiver after a whole frame. -/
theorem recv_steps_frame_all (r : receiver_t) (hr : r.state = 0)
    (hout : r.out.length = MAX_LEN) (p : List Nat) (hp : IsBytes p) (hlen : p.length ≤ 255)
    (c : Channel) (hpend : ∀ j < p.length + 4, c.buf[c.rd + j]? = (frame_of p)[j]?) :
    recv_steps (p.length + 4) (r, c)
      = (rx_after r p (p.length + 4), send_byte { c with rd := c.rd + (p.length + 4) } ACK) := by
  rw [show p.length + 4 = (p.length + 3) + 1 from rfl, recv_steps_succ,
    recv_steps_frame r hr hout p hp hlen c (p.length + 3) le_rfl
      (fun j hj => hpend j (by omega)),
    recv_step, rx_step_frame_last r p hp hlen _ (hpend (p.length + 3) (by omega))]
  rfl

theorem rx_fresh_state : rx_fresh.state = 0 := rfl

theorem rx_fresh_out_length : rx_fresh.out.length = MAX_LEN := List.length_replicate _ _


theorem rx_after_result (r : receiver_t) (p : List Nat) (m : Nat) (hm : m ≤ p.length + 3) :
    (rx_after r p m).result = r.result ∧ (rx_after r p m).out_len = r.out_len := by
  unfold rx_after
  split_ifs <;> first | exact ⟨rfl, rfl⟩ | omega

theorem xor_mask_ne (a mask : Nat) (h : mask ≠ 0) : a ^^^ mask ≠ a := by
  intro he
  apply h
  have h1 : a ^^^ (a ^^^ mask) = mask := Nat.xor_cancel_left a mask
  rw [he, Nat.xor_self] at h1
  exact h1.symm

/-- A frame whose checksum byte was XORed with `mask`, in wire order. -/
theorem corrupt_chk_eq (p : List Nat) (hp : IsBytes p) (hlen : p.length ≤ 255) (mask : Nat)
    (hmask : mask < 256) :
    corrupt_chk (frame_of p) mask
      = [STX, p.length] ++ p ++ [xor_fold p.length p ^^^ mask, ETX] := by
  have hx : xor_fold p.length p < 256 := xor_fold_lt hp (by omega)
  unfold corrupt_chk
  rw [frame_of_length p hp hlen, show p.length + 4 - 2 = p.length + 2 from by omega,
    List.getD_eq_getElem?_getD, frame_get_chk p hp hlen, Option.getD_some,
    xor_byte_mod hx hmask, frame_of_eq p hp hlen]
  have h := set_append_drop ([STX, p.length] ++ p)
    ([STX, p.length] ++ p ++ [xor_fold p.length p, ETX]) (xor_fold p.length p ^^^ mask)
    (p.length + 2) (by simp) (by simp)
  have hd : ([STX, p.length] ++ p ++ [xor_fold p.length p, ETX]).drop (p.length + 2)
      = [xor_fold p.length p, ETX] := by
    rw [List.drop_append_of_le_length (by simp), List.drop_of_length_le (by simp)]
    rfl
  have hd2 : ([STX, p.length] ++ p ++ [xor_fold p.length p, ETX]).drop (p.length + 2 + 1)
      = [ETX] := by
    rw [show p.length + 2 + 1 = (p.length + 2) + 1 from rfl, ← List.drop_drop, hd]
    rfl
  rw [hd, hd2] at h
  rw [h]
  simp


theorem pending_length {c : Channel} {f : List Nat} (hc : c.buf.drop c.rd = f)
    (hf : 0 < f.length) : c.buf.length = c.rd + f.length := by
  have h := congrArg List.length hc
  rw [List.length_drop] at h
  omega

theorem pending_length_le {c : Channel} {f : List Nat} (hc : c.buf.drop c.rd = f) :
    c.buf.length ≤ c.rd + f.length := by
  have h := congrArg List.length hc
  rw [List.length_drop] at h
  omega

/-- The receiver on a strict initial segment of a frame: it follows `rx_after` as long
as bytes are pending and then stalls. -/
theorem recv_steps_truncated (r : receiver_t) (hr : r.state = 0)
    (hout : r.out.length = MAX_LEN) (p : List Nat) (hp : IsBytes p) (hlen : p.length ≤ 255)
    (c : Channel) (k : Nat) (hk : k ≤ p.length + 3)
    (hpend : ∀ j < k, c.buf[c.rd + j]? = (frame_of p)[j]?) (hend : c.buf.length ≤ c.rd + k)
    (n : Nat) :
    recv_steps n (r, c) = (rx_after r p (min n k), { c with rd := c.rd + min n k }) := by
  rcases Nat.le_total n k with h | h
  · rw [Nat.min_eq_left h]
    exact recv_steps_frame r hr hout p hp hlen c n (by omega) (fun j hj => hpend j (by omega))
  · rw [Nat.min_eq_right h]
    obtain ⟨d, rfl⟩ : ∃ d, n = k + d := ⟨n - k, by omega⟩
    rw [recv_steps_add, recv_steps_frame r hr hout p hp hlen c k hk hpend,
      recv_steps_idle _ _ (by simp only []; omega)]

/-! ## Single steps of the transmitter, state by state -/

theorem pt_transmitter_of_state0 (t : transmitter_t) (c : Channel) (ticks : Nat)
    (h : t.pt_state = 0) : pt_transmitter t c ticks = pt_transmitter_case0 t c ticks := by
  simp [pt_transmitter, h]

theorem pt_transmitter_of_state1 (t : transmitter_t) (c : Channel) (ticks : Nat)
    (h : t.pt_state = 1) : pt_transmitter t c ticks = pt_transmitter_case1 t c ticks := by
  simp [pt_transmitter, h]

theorem pt_transmitter_of_state2 (t : transmitter_t) (c : Channel) (ticks : Nat)
    (h : t.pt_state = 2) : pt_transmitter t c ticks = pt_transmitter_case2 t c ticks := by
  simp [pt_transmitter, h]

theorem pt_transmitter_of_state3 (t : transmitter_t) (c : Channel) (ticks : Nat)
    (h : t.pt_state = 3) : pt_transmitter t c ticks = pt_transmitter_case3 t c ticks := by
  simp [pt_transmitter, h]

theorem pt_transmitter_of_other (t : transmitter_t) (c : Channel) (ticks : Nat)
    (h0 : t.pt_state ≠ 0) (h1 : t.pt_state ≠ 1) (h2 : t.pt_state ≠ 2) (h3 : t.pt_state ≠ 3) :
    pt_transmitter t c ticks = (1, t, c) := by
  simp [pt_transmitter, h0, h1, h2, h3]

/-- AWAIT_RESPONSE reading an ACK. -/
theorem case3_ack (t : transmitter_t) {c : Channel} (ticks : Nat)
    (hb : c.buf[c.rd]? = some ACK) :
    pt_transmitter_case3 t c ticks
      = (1, { t with finished := 1, pt_state := 99 }, { c with rd := c.rd + 1 }) := by
  simp [pt_transmitter_case3, consume_incoming_byte, get_byte_some hb]

/-- AWAIT_RESPONSE reading a NACK. -/
theorem case3_nack (t : transmitter_t) {c : Channel} (ticks : Nat)
    (hb : c.buf[c.rd]? = some NACK) :
    pt_transmitter_case3 t c ticks
      = (0, { t with pt_state := 1 }, { c with rd := c.rd + 1 }) := by
  simp [pt_transmitter_case3, consume_incoming_byte, get_byte_some hb, NACK, ACK]

/-- AWAIT_RESPONSE reading a byte that is neither ACK nor NACK. -/
theorem case3_stray (t : transmitter_t) {c : Channel} {b : Nat} (ticks : Nat)
    (hb : c.buf[c.rd]? = some b) (h1 : b ≠ ACK) (h2 : b ≠ NACK) :
    pt_transmitter_case3 t c ticks
      = (0, if (ticks + ULONG_MOD - t.wait_start_tick) % ULONG_MOD ≥ TIMEOUT_TICKS
              then { t with pt_state := 1 } else t, { c with rd := c.rd + 1 }) := by
  by_cases h : (ticks + ULONG_MOD - t.wait_start_tick) % ULONG_MOD ≥ TIMEOUT_TICKS <;>
    simp [pt_transmitter_case3, consume_incoming_byte, get_byte_some hb, h1, h2, h]

/-- AWAIT_RESPONSE with nothing to read. -/
theorem case3_none (t : transmitter_t) {c : Channel} (ticks : Nat)
    (hc : c.buf.length ≤ c.rd) :
    pt_transmitter_case3 t c ticks
      = (0, if (ticks + ULONG_MOD - t.wait_start_tick) % ULONG_MOD ≥ TIMEOUT_TICKS
              then { t with pt_state := 1 } else t, c) := by
  by_cases h : (ticks + ULONG_MOD - t.wait_start_tick) % ULONG_MOD ≥ TIMEOUT_TICKS <;>
    simp [pt_transmitter_case3, consume_incoming_byte, get_byte_none hc, h]

/-- SENDING with bytes left. -/
theorem case2_send (t : transmitter_t) (c : Channel) (ticks : Nat)
    (h : t.send_index < t.frame_len) :
    pt_transmitter_case2 t c ticks
      = (0, { t with send_index := t.send_index + 1 },
          send_byte c (t.frame.getD t.send_index 0)) := by
  simp [pt_transmitter_case2, h]

/-- SENDING with the frame complete: the wait starts. -/
theorem case2_done (t : transmitter_t) (c : Channel) (ticks : Nat)
    (h : ¬ t.send_index < t.frame_len) :
    pt_transmitter_case2 t c ticks
      = pt_transmitter_case3 { t with wait_start_tick := ticks, pt_state := 3 } c ticks := by
  simp [pt_transmitter_case2, h]

/-- BUILD_AND_ARM with the retry budget used up. -/
theorem case1_exhausted (t : transmitter_t) (c : Channel) (ticks : Nat)
    (h : t.attempts ≥ MAX_RETRIES) :
    pt_transmitter_case1 t c ticks = (1, { t with finished := -1, pt_state := 99 }, c) := by
  simp [pt_transmitter_case1, h]

/-- BUILD_AND_ARM with attempts left. -/
theorem case1_arm (t : transmitter_t) (c : Channel) (ticks : Nat)
    (h : ¬ t.attempts ≥ MAX_RETRIES) :
    pt_transmitter_case1 t c ticks
      = pt_transmitter_case2
          { t with attempts := t.attempts + 1, send_index := 0, pt_state := 2 } c ticks := by
  simp [pt_transmitter_case1, h]

/-- Bytes of the cached frame by position. -/
theorem cached_frame_getD (dst p : List Nat) (hp : IsBytes p) (hlen : p.length ≤ 255)
    (hdst : p.length + 4 ≤ dst.length) (k : Nat) (hk : k < p.length + 4) :
    some ((build_frame dst p p.length).1.getD k 0) = (frame_of p)[k]? := by
  have h := (build_frame_take dst p hp hlen hdst).2.1
  rw [← h, List.getElem?_take, if_pos hk, List.getD_eq_getElem?_getD]
  have hl := (build_frame_take dst p hp hlen hdst).2.2
  have : k < (build_frame dst p p.length).1.length := by omega
  rw [List.getElem?_eq_getElem this]
  rfl

/-! ## The transmitter along a transmission -/

/-- INIT: the frame is built and cached and its first byte is sent. -/
theorem tx_step_init (t : transmitter_t) (p : List Nat) (hp : IsBytes p)
    (hlen : p.length ≤ 255) (ht : t.pt_state = 0) (hd : t.data = p) (hl : t.len = p.length)
    (hf : t.frame.length = FRAME_SIZE) (c : Channel) (ticks : Nat) :
    pt_transmitter t c ticks = (0, tx_sending t p 1 1 t.wait_start_tick, send_byte c STX) := by
  have hdst : p.length + 4 ≤ t.frame.length := by rw [hf, frame_size_eq]; omega
  have hb := build_frame_take t.frame p hp hlen hdst
  have h0 := cached_frame_getD t.frame p hp hlen hdst 0 (by omega)
  rw [frame_get_stx p hp hlen] at h0
  have h0' := Option.some.inj h0
  rw [pt_transmitter_of_state0 t c ticks ht, pt_transmitter_case0, hd, hl, case1_arm _ _ _
    (by simp [MAX_RETRIES]), case2_send _ _ _ (by simp only [hb.1]; omega)]
  simp only [h0', hb.1, tx_sending, hd, hl]
  rfl

/-- SENDING: one more byte of the cached frame goes out. -/
theorem tx_step_send (t : transmitter_t) (p : List Nat) (hp : IsBytes p)
    (hlen : p.length ≤ 255) (hf : t.frame.length = FRAME_SIZE) (a : Int) (k w x : Nat)
    (hx : (frame_of p)[k]? = some x) (c : Channel) (ticks : Nat) :
    pt_transmitter (tx_sending t p a k w) c ticks
      = (0, tx_sending t p a (k + 1) w, send_byte c x) := by
  have hdst : p.length + 4 ≤ t.frame.length := by rw [hf, frame_size_eq]; omega
  have hk : k < p.length + 4 := by
    by_contra hn
    rw [List.getElem?_eq_none (by rw [frame_of_length p hp hlen]; omega)] at hx
    exact Option.noConfusion hx
  have h0 := cached_frame_getD t.frame p hp hlen hdst k hk
  rw [hx] at h0
  have h0' := Option.some.inj h0
  rw [pt_transmitter_of_state2 _ c ticks rfl, case2_send _ _ _ hk]
  simp only [tx_sending, h0']

/-- SENDING with the frame complete and an ACK pending: success. -/
theorem tx_step_ack (t : transmitter_t) (p : List Nat) (a : Int) (w : Nat) (c : Channel)
    (ticks : Nat) (hb : c.buf[c.rd]? = some ACK) :
    pt_transmitter (tx_sending t p a (p.length + 4) w) c ticks
      = (1, { tx_sending t p a (p.length + 4) ticks with finished := 1, pt_state := 99 },
          { c with rd := c.rd + 1 }) := by
  rw [pt_transmitter_of_state2 _ c ticks rfl, case2_done _ _ _ (by simp [tx_sending]),
    case3_ack _ _ hb]
  rfl

/-! ## The scheduler -/

theorem run_scheduler_continue (n : Nat) (s : Sys) (h : (scheduler_round s).tx.finished = 0) :
    run_scheduler (n + 1) s = run_scheduler n (scheduler_round s) := by
  simp [run_scheduler, h]

theorem run_scheduler_stop (n : Nat) (s : Sys) (h : (scheduler_round s).tx.finished ≠ 0) :
    run_scheduler (n + 1) s = scheduler_round s := by
  simp [run_scheduler, h]

theorem frame_take_length (p : List Nat) (hp : IsBytes p) (hlen : p.length ≤ 255) (k : Nat)
    (hk : k ≤ p.length + 4) : ((frame_of p).take k).length = k := by
  rw [List.length_take, frame_of_length p hp hlen]; omega

/-- First round from an empty channel: the receiver idles, the transmitter initialises
and sends the start marker. -/
theorem round_first (t : transmitter_t) (r : receiver_t) (p : List Nat) (hp : IsBytes p)
    (hlen : p.length ≤ 255) (ht : t.pt_state = 0) (hd : t.data = p) (hl : t.len = p.length)
    (hf : t.frame.length = FRAME_SIZE) (ticks : Nat) :
    scheduler_round { tx := t, rx := r, ch := reset_channel, ticks := ticks }
      = sched_mid t r p 0 (tick ticks) := by
  have h1 : (frame_of p).take 1 = [STX] := by
    rw [frame_of_eq p hp hlen]; rfl
  unfold scheduler_round
  simp only []
  rw [pt_receiver_none r (c := reset_channel) (by simp [reset_channel]),
    tx_step_init t p hp hlen ht hd hl hf,
    send_byte_free _ (by simp [reset_channel, CHANNEL_SIZE])]
  simp only [sched_mid, rx_after_zero, h1, reset_channel]
  rfl

/-- A middle round: the receiver consumes byte `m` and the transmitter sends byte
`m + 1` of the frame. -/
theorem round_mid (t : transmitter_t) (r : receiver_t) (p : List Nat) (hp : IsBytes p)
    (hlen : p.length ≤ 255) (hf : t.frame.length = FRAME_SIZE) (hr : r.state = 0)
    (hout : r.out.length = MAX_LEN) (m : Nat) (hm : m < p.length + 3) (ticks : Nat) :
    scheduler_round (sched_mid t r p m ticks) = sched_mid t r p (m + 1) (tick ticks) := by
  have hfl := frame_of_length p hp hlen
  have hb : ((frame_of p).take (m + 1))[m]? = (frame_of p)[m]? := by
    rw [List.getElem?_take, if_pos (by omega)]
  have hx : (frame_of p)[m + 1]? = some ((frame_of p)[m + 1]) :=
    List.getElem?_eq_getElem (by omega)
  unfold scheduler_round
  simp only [sched_mid]
  rw [rx_step_frame r hr hout p hp hlen m hm _ hb,
    tx_step_send t p hp hlen hf 1 (m + 1) _ _ hx,
    send_byte_free _ (by
      simp only [frame_take_length p hp hlen (m + 1) (by omega), CHANNEL_SIZE]; omega),
    take_succ_getElem (frame_of p) (m + 1) (by omega)]

/-- The last round: the receiver consumes the end marker and acknowledges, the
transmitter finds the ACK at once. -/
theorem round_last (t : transmitter_t) (r : receiver_t) (p : List Nat) (hp : IsBytes p)
    (hlen : p.length ≤ 255) (ticks : Nat) :
    scheduler_round (sched_mid t r p (p.length + 3) ticks)
      = sched_done t r p ticks (tick ticks) := by
  have hfl := frame_of_length p hp hlen
  have htk : (frame_of p).take (p.length + 3 + 1) = frame_of p :=
    List.take_of_length_le (by omega)
  have hb : ((frame_of p).take (p.length + 3 + 1))[p.length + 3]?
      = (frame_of p)[p.length + 3]? := by rw [htk]
  have hack : (frame_of p ++ [ACK])[p.length + 3 + 1]? = some ACK := by
    rw [List.getElem?_append_right (by omega), hfl]
    simp
  unfold scheduler_round
  simp only [sched_mid]
  rw [rx_step_frame_last r p hp hlen _ hb,
    send_byte_free _ (by simp only [htk, hfl, CHANNEL_SIZE]; omega)]
  simp only [htk]
  rw [tx_step_ack t p 1 _ _ _ hack]
  rfl


/-- From any point of the first transmission the scheduler runs to the acknowledged
end, given enough iterations. -/
theorem run_scheduler_from_mid (t : transmitter_t) (r : receiver_t) (p : List Nat)
    (hp : IsBytes p) (hlen : p.length ≤ 255) (hf : t.frame.length = FRAME_SIZE)
    (hr : r.state = 0) (hout : r.out.length = MAX_LEN) :
    ∀ j m, m + j = p.length + 3 → ∀ n, j + 1 ≤ n → ∀ ticks,
      ∃ w tk, run_scheduler n (sched_mid t r p m ticks) = sched_done t r p w tk := by
  intro j
  induction j with
  | zero =>
    intro m hm n hn ticks
    obtain ⟨n', rfl⟩ : ∃ n', n = n' + 1 := ⟨n - 1, by omega⟩
    have hm' : m = p.length + 3 := by omega
    subst hm'
    refine ⟨ticks, tick ticks, ?_⟩
    rw [run_scheduler_stop _ _ (by rw [round_last t r p hp hlen]; simp [sched_done]),
      round_last t r p hp hlen]
  | succ j ih =>
    intro m hm n hn ticks
    obtain ⟨n', rfl⟩ : ∃ n', n = n' + 1 := ⟨n - 1, by omega⟩
    have hstep := round_mid t r p hp hlen hf hr hout m (by omega) ticks
    rw [run_scheduler_continue _ _ (by rw [hstep]; rfl), hstep]
    exact ih (m + 1) (by omega) n' (by omega) (tick ticks)

/-- The scheduler from an empty channel with a fresh transmitter and receiver. -/
theorem run_scheduler_fresh (t : transmitter_t) (r : receiver_t) (p : List Nat)
    (hp : IsBytes p) (hlen : p.length ≤ 255) (ht : t.pt_state = 0) (hd : t.data = p)
    (hl : t.len = p.length) (hf : t.frame.length = FRAME_SIZE) (hr : r.state = 0)
    (hout : r.out.length = MAX_LEN) (ticks n : Nat) (hn : p.length + 5 ≤ n) :
    ∃ w tk, run_scheduler n { tx := t, rx := r, ch := reset_channel, ticks := ticks }
      = sched_done t r p w tk := by
  obtain ⟨n', rfl⟩ : ∃ n', n = n' + 1 := ⟨n - 1, by omega⟩
  have h1 := round_first t r p hp hlen ht hd hl hf ticks
  rw [run_scheduler_continue _ _ (by rw [h1]; rfl), h1]
  exact run_scheduler_from_mid t r p hp hlen hf hr hout (p.length + 3) 0 (by omega) n'
    (by omega) (tick ticks)

theorem tx_fresh_frame_length (data : List Nat) (len : Nat) :
    (tx_fresh data len).frame.length = FRAME_SIZE := List.length_replicate _ _


/-! ## The attempt counter -/

theorem case3_attempts (t : transmitter_t) (c : Channel) (ticks : Nat) :
    (pt_transmitter_case3 t c ticks).2.1.attempts = t.attempts := by
  unfold pt_transmitter_case3 consume_incoming_byte
  rcases get_byte c with ⟨_ | b, c1⟩ <;> simp only [] <;> split_ifs <;> rfl

theorem case2_attempts (t : transmitter_t) (c : Channel) (ticks : Nat) :
    (pt_transmitter_case2 t c ticks).2.1.attempts = t.attempts := by
  unfold pt_transmitter_case2
  split_ifs
  · rfl
  · rw [case3_attempts]

theorem case1_attempts (t : transmitter_t) (c : Channel) (ticks : Nat)
    (h : 0 ≤ t.attempts) :
    0 ≤ (pt_transmitter_case1 t c ticks).2.1.attempts ∧
    (pt_transmitter_case1 t c ticks).2.1.attempts ≤ max t.attempts MAX_RETRIES := by
  have hM : MAX_RETRIES = 3 := rfl
  unfold pt_transmitter_case1
  split_ifs with h1
  · simp only []
    exact ⟨h, le_max_left _ _⟩
  · rw [case2_attempts]
    simp only []
    rw [hM] at h1 ⊢
    constructor
    · omega
    · rw [max_eq_right (by omega)]; omega

/-- No step of the transmitter takes the attempt counter out of `0 .. MAX_RETRIES`. -/
theorem pt_transmitter_attempts (t : transmitter_t) (c : Channel) (ticks : Nat)
    (h : 0 ≤ t.attempts ∧ t.attempts ≤ MAX_RETRIES) :
    0 ≤ (pt_transmitter t c ticks).2.1.attempts ∧
    (pt_transmitter t c ticks).2.1.attempts ≤ MAX_RETRIES := by
  unfold pt_transmitter
  split_ifs
  · unfold pt_transmitter_case0
    have h1 := case1_attempts
      { t with attempts := 0, finished := 0, frame := (build_frame t.frame t.data t.len).1,
               frame_len := (build_frame t.frame t.data t.len).2, pt_state := 1 }
      c ticks (le_refl _)
    exact ⟨h1.1, le_trans h1.2 (max_le (show (0 : Int) ≤ MAX_RETRIES by decide) (le_refl _))⟩
  · have h1 := case1_attempts t c ticks h.1
    exact ⟨h1.1, le_trans h1.2 (by rw [max_eq_right h.2])⟩
  · rw [case2_attempts]; exact h
  · rw [case3_attempts]; exact h
  · exact h


/-- The first step of a transmitter in INIT resets the attempt counter, whatever it
held before. -/
theorem pt_transmitter_init_attempts (t : transmitter_t) (c : Channel) (ticks : Nat)
    (ht : t.pt_state = 0) :
    0 ≤ (pt_transmitter t c ticks).2.1.attempts ∧
    (pt_transmitter t c ticks).2.1.attempts ≤ MAX_RETRIES := by
  rw [pt_transmitter_of_state0 t c ticks ht]
  unfold pt_transmitter_case0
  have h1 := case1_attempts
    { t with attempts := 0, finished := 0, frame := (build_frame t.frame t.data t.len).1,
             frame_len := (build_frame t.frame t.data t.len).2, pt_state := 1 }
    c ticks (le_refl _)
  exact ⟨h1.1, le_trans h1.2 (max_le (show (0 : Int) ≤ MAX_RETRIES by decide) (le_refl _))⟩

/-- The bound on the attempt counter is kept along any run. -/
theorem tx_run_attempts (envs : List (Channel × Nat)) :
    ∀ u : transmitter_t, 0 ≤ u.attempts ∧ u.attempts ≤ MAX_RETRIES →
      0 ≤ (tx_run u envs).attempts ∧ (tx_run u envs).attempts ≤ MAX_RETRIES := by
  induction envs with
  | nil => intro u hu; exact hu
  | cons e es ih => intro u hu; exact ih _ (pt_transmitter_attempts u e.1 e.2 hu)

/-! ## The transmitter running alone -/

theorem ulong_mod_eq : ULONG_MOD = 18446744073709551616 := rfl

theorem tick_lt (x : Nat) : tick x < ULONG_MOD := Nat.mod_lt _ (by decide)

theorem elapsed_eq (T e : Nat) (hT : T < ULONG_MOD) (he : e < ULONG_MOD) :
    ((T + e) % ULONG_MOD + ULONG_MOD - T) % ULONG_MOD = e := by
  rw [ulong_mod_eq] at *
  omega

theorem tick_add (T e : Nat) : tick ((T + e) % ULONG_MOD) = (T + (e + 1)) % ULONG_MOD := by
  unfold tick
  rw [ulong_mod_eq]
  omega

theorem tx_only_zero (s : Sys) : tx_only 0 s = s := rfl

theorem tx_only_succ (n : Nat) (s : Sys) : tx_only (n + 1) s = tx_only n (tx_only_round s) :=
  Function.iterate_succ_apply tx_only_round n s

theorem tx_only_add (a b : Nat) (s : Sys) : tx_only (a + b) s = tx_only b (tx_only a s) := by
  unfold tx_only
  rw [Nat.add_comm, Function.iterate_add_apply]


theorem iterate_tick_lt (k x : Nat) (hk : 0 < k) : Nat.iterate tick k x < ULONG_MOD := by
  obtain ⟨j, rfl⟩ : ∃ j, k = j + 1 := ⟨k - 1, by omega⟩
  rw [Function.iterate_succ_apply']
  exact tick_lt _

theorem tx_only_round_eq (s : Sys) (ret : Int) (t' : transmitter_t) (c' : Channel)
    (h : pt_transmitter s.tx s.ch s.ticks = (ret, t', c')) :
    tx_only_round s = { tx := t', rx := s.rx, ch := c', ticks := tick s.ticks } := by
  unfold tx_only_round
  simp only [h]

/-- A run of SENDING steps puts the next `k` bytes of the cached frame on the channel. -/
theorem send_run (t : transmitter_t) (p : List Nat) (hp : IsBytes p) (hlen : p.length ≤ 255)
    (hf : t.frame.length = FRAME_SIZE) (a : Int) (w : Nat) (rx : receiver_t) :
    ∀ k j (c : Channel) ticks, j + k ≤ p.length + 4 → c.buf.length + k ≤ CHANNEL_SIZE →
      tx_only k { tx := tx_sending t p a j w, rx := rx, ch := c, ticks := ticks }
        = { tx := tx_sending t p a (j + k) w, rx := rx,
            ch := { c with buf := c.buf ++ ((frame_of p).drop j).take k },
            ticks := Nat.iterate tick k ticks } := by
  intro k
  induction k with
  | zero => intro j c ticks _ _; simp [tx_only_zero]
  | succ k ih =>
    intro j c ticks hj hc
    have hfl := frame_of_length p hp hlen
    have hjl : j < (frame_of p).length := by omega
    have hx : (frame_of p)[j]? = some ((frame_of p)[j]) := List.getElem?_eq_getElem hjl
    rw [tx_only_succ, tx_only_round_eq _ _ _ _ (tx_step_send t p hp hlen hf a j w _ hx c ticks),
      send_byte_free _ (by omega), ih (j + 1) _ _ (by omega) (by simp; omega)]
    simp only [List.append_assoc, List.singleton_append]
    rw [List.drop_eq_getElem_cons hjl, List.take_succ_cons, Function.iterate_succ_apply,
      Nat.add_assoc, Nat.add_comm 1 k]

theorem frame_split (p : List Nat) (hp : IsBytes p) (hlen : p.length ≤ 255) :
    [STX] ++ ((frame_of p).drop 1).take (p.length + 3) = frame_of p := by
  rw [frame_of_eq p hp hlen]
  simp

/-- The first transmission: from INIT the whole frame is on the channel after
`len + 4` steps. -/
theorem attempt_first (t : transmitter_t) (p : List Nat) (hp : IsBytes p)
    (hlen : p.length ≤ 255) (ht : t.pt_state = 0) (hd : t.data = p) (hl : t.len = p.length)
    (hf : t.frame.length = FRAME_SIZE) (rx : receiver_t) (c : Channel) (ticks : Nat)
    (hc : c.buf.length + (p.length + 4) ≤ CHANNEL_SIZE) :
    tx_only (p.length + 4) { tx := t, rx := rx, ch := c, ticks := ticks }
      = { tx := tx_sending t p 1 (p.length + 4) t.wait_start_tick, rx := rx,
          ch := { c with buf := c.buf ++ frame_of p },
          ticks := Nat.iterate tick (p.length + 4) ticks } := by
  rw [show p.length + 4 = (p.length + 3) + 1 from rfl, tx_only_succ,
    tx_only_round_eq _ _ _ _ (tx_step_init t p hp hlen ht hd hl hf c ticks),
    send_byte_free _ (by omega),
    send_run t p hp hlen hf 1 _ rx (p.length + 3) 1 _ _ (by omega) (by simp; omega)]
  simp only [List.append_assoc, frame_split p hp hlen, Function.iterate_succ_apply,
    Nat.add_comm 1 (p.length + 3)]

/-- A retransmission: from BUILD_AND_ARM with attempts left the whole frame is appended
to the channel after `len + 4` steps. -/
theorem attempt_again (t : transmitter_t) (p : List Nat) (hp : IsBytes p)
    (hlen : p.length ≤ 255) (hf : t.frame.length = FRAME_SIZE) (a : Int)
    (ha : a < MAX_RETRIES) (w : Nat) (rx : receiver_t) (c : Channel) (ticks : Nat)
    (hc : c.buf.length + (p.length + 4) ≤ CHANNEL_SIZE) :
    tx_only (p.length + 4) { tx := tx_armed t p a w, rx := rx, ch := c, ticks := ticks }
      = { tx := tx_sending t p (a + 1) (p.length + 4) w, rx := rx,
          ch := { c with buf := c.buf ++ frame_of p },
          ticks := Nat.iterate tick (p.length + 4) ticks } := by
  have hx := frame_get_stx p hp hlen
  have hstep : pt_transmitter (tx_armed t p a w) c ticks
      = (0, tx_sending t p (a + 1) 1 w, send_byte c STX) := by
    have h2 := tx_step_send t p hp hlen hf (a + 1) 0 w STX hx c ticks
    rw [pt_transmitter_of_state2 _ _ _ rfl] at h2
    rw [pt_transmitter_of_state1 _ _ _ rfl, case1_arm _ _ _ (by simpa [tx_armed, tx_sending] using ha)]
    exact h2
  rw [show p.length + 4 = (p.length + 3) + 1 from rfl, tx_only_succ,
    tx_only_round_eq _ _ _ _ hstep, send_byte_free _ (by omega),
    send_run t p hp hlen hf (a + 1) _ rx (p.length + 3) 1 _ _ (by omega) (by simp; omega)]
  simp only [List.append_assoc, frame_split p hp hlen, Function.iterate_succ_apply,
    Nat.add_comm 1 (p.length + 3)]


/-- AWAIT_RESPONSE on a channel without ACK bytes: the step either returns to
BUILD_AND_ARM, or the timeout has not expired and the context is unchanged; only the read
index of the channel may move. -/
theorem case3_noack (t : transmitter_t) (c : Channel) (ticks : Nat)
    (h : ∀ b ∈ c.buf, b ≠ ACK) :
    ∃ rd',
      pt_transmitter_case3 t c ticks = (0, { t with pt_state := 1 }, { c with rd := rd' }) ∨
      (¬ (ticks + ULONG_MOD - t.wait_start_tick) % ULONG_MOD ≥ TIMEOUT_TICKS ∧
        pt_transmitter_case3 t c ticks = (0, t, { c with rd := rd' })) := by
  by_cases hlt : c.rd < c.buf.length
  · have hb : c.buf[c.rd]? = some (c.buf[c.rd]) := List.getElem?_eq_getElem hlt
    have hack : c.buf[c.rd] ≠ ACK := h _ (List.getElem_mem _)
    refine ⟨c.rd + 1, ?_⟩
    by_cases hn : c.buf[c.rd] = NACK
    · rw [hn] at hb
      exact Or.inl (case3_nack t ticks hb)
    · rw [case3_stray t ticks hb hack hn]
      by_cases he : (ticks + ULONG_MOD - t.wait_start_tick) % ULONG_MOD ≥ TIMEOUT_TICKS
      · rw [if_pos he]; exact Or.inl rfl
      · rw [if_neg he]; exact Or.inr ⟨he, rfl⟩
  · refine ⟨c.rd, ?_⟩
    rw [case3_none t ticks (by omega)]
    by_cases he : (ticks + ULONG_MOD - t.wait_start_tick) % ULONG_MOD ≥ TIMEOUT_TICKS
    · rw [if_pos he]; exact Or.inl rfl
    · rw [if_neg he]; exact Or.inr ⟨he, rfl⟩

theorem tx_only_one (s : Sys) : tx_only 1 s = tx_only_round s := rfl

/-- Waiting without an ACK in sight ends in BUILD_AND_ARM: `e` ticks after the wait
started at most `6 - e` more steps are needed. -/
theorem wait_state3 (t : transmitter_t) (p : List Nat) (a : Int) (T : Nat)
    (hT : T < ULONG_MOD) (rx : receiver_t) :
    ∀ fuel e (c : Channel), e + fuel = 5 → (∀ b ∈ c.buf, b ≠ ACK) →
      ∃ k, 1 ≤ k ∧ k ≤ fuel + 1 ∧ ∃ rd' tk,
        tx_only k { tx := tx_waiting t p a T, rx := rx, ch := c,
                    ticks := (T + e) % ULONG_MOD }
          = { tx := tx_armed t p a T, rx := rx, ch := { c with rd := rd' }, ticks := tk } := by
  intro fuel
  induction fuel with
  | zero =>
    intro e c he hno
    obtain ⟨rd', h | ⟨h1, _⟩⟩ := case3_noack (tx_waiting t p a T) c ((T + e) % ULONG_MOD) hno
    · have hpt : pt_transmitter (tx_waiting t p a T) c ((T + e) % ULONG_MOD)
          = (0, tx_armed t p a T, { c with rd := rd' }) := by
        rw [pt_transmitter_of_state3 _ _ _ rfl]; exact h
      exact ⟨1, le_refl _, le_refl _, rd', _,
        by rw [tx_only_one]; exact tx_only_round_eq _ _ _ _ hpt⟩
    · exfalso
      apply h1
      have : (tx_waiting t p a T).wait_start_tick = T := rfl
      rw [this, elapsed_eq T e hT (by rw [ulong_mod_eq]; omega)]
      show 5 ≤ e
      omega
  | succ fuel ih =>
    intro e c he hno
    obtain ⟨rd', h | ⟨_, h⟩⟩ := case3_noack (tx_waiting t p a T) c ((T + e) % ULONG_MOD) hno
    · have hpt : pt_transmitter (tx_waiting t p a T) c ((T + e) % ULONG_MOD)
          = (0, tx_armed t p a T, { c with rd := rd' }) := by
        rw [pt_transmitter_of_state3 _ _ _ rfl]; exact h
      exact ⟨1, le_refl _, by omega, rd', _,
        by rw [tx_only_one]; exact tx_only_round_eq _ _ _ _ hpt⟩
    · have hpt : pt_transmitter (tx_waiting t p a T) c ((T + e) % ULONG_MOD)
          = (0, tx_waiting t p a T, { c with rd := rd' }) := by
        rw [pt_transmitter_of_state3 _ _ _ rfl]; exact h
      obtain ⟨k, hk1, hk2, rd2, tk, hrun⟩ := ih (e + 1) { c with rd := rd' } (by omega) hno
      refine ⟨k + 1, by omega, by omega, rd2, tk, ?_⟩
      rw [tx_only_succ, tx_only_round_eq _ _ _ _ hpt]
      simp only [tick_add]
      exact hrun

/-- After the last byte of a transmission, on a channel without ACK bytes, the
transmitter is back in BUILD_AND_ARM within six steps; the channel contents are
unchanged. -/
theorem wait_phase (t : transmitter_t) (p : List Nat) (a : Int) (w T : Nat)
    (hT : T < ULONG_MOD) (rx : receiver_t) (c : Channel) (hno : ∀ b ∈ c.buf, b ≠ ACK) :
    ∃ k, 1 ≤ k ∧ k ≤ 6 ∧ ∃ rd' tk,
      tx_only k { tx := tx_sending t p a (p.length + 4) w, rx := rx, ch := c, ticks := T }
        = { tx := tx_armed t p a T, rx := rx, ch := { c with rd := rd' }, ticks := tk } := by
  have hstep : pt_transmitter (tx_sending t p a (p.length + 4) w) c T
      = pt_transmitter_case3 (tx_waiting t p a T) c T := by
    rw [pt_transmitter_of_state2 _ _ _ rfl, case2_done _ _ _ (by simp [tx_sending])]
    rfl
  obtain ⟨rd', h | ⟨_, h⟩⟩ := case3_noack (tx_waiting t p a T) c T hno
  · have hpt : pt_transmitter (tx_sending t p a (p.length + 4) w) c T
        = (0, tx_armed t p a T, { c with rd := rd' }) := by
      rw [hstep]; exact h
    exact ⟨1, le_refl _, by omega, rd', _,
      by rw [tx_only_one]; exact tx_only_round_eq _ _ _ _ hpt⟩
  · have hpt : pt_transmitter (tx_sending t p a (p.length + 4) w) c T
        = (0, tx_waiting t p a T, { c with rd := rd' }) := by
      rw [hstep]; exact h
    obtain ⟨k, hk1, hk2, rd2, tk, hrun⟩ :=
      wait_state3 t p a T hT rx 4 1 { c with rd := rd' } rfl hno
    refine ⟨k + 1, by omega, by omega, rd2, tk, ?_⟩
    rw [tx_only_succ, tx_only_round_eq _ _ _ _ hpt]
    exact hrun

/-- A finished transmitter and its channel are not changed by further steps. -/
theorem tx_only_finished (n : Nat) (s : Sys) (h : s.tx.pt_state = 99) :
    (tx_only n s).tx = s.tx ∧ (tx_only n s).ch = s.ch := by
  induction n generalizing s with
  | zero => exact ⟨rfl, rfl⟩
  | succ n ih =>
    have hstep : pt_transmitter s.tx s.ch s.ticks = (1, s.tx, s.ch) :=
      pt_transmitter_of_other _ _ _ (by rw [h]; decide) (by rw [h]; decide)
        (by rw [h]; decide) (by rw [h]; decide)
    rw [tx_only_succ, tx_only_round_eq _ _ _ _ hstep]
    exact ih _ h


theorem no_ack_append {f g : List Nat} (hf : ∀ b ∈ f, b ≠ ACK) (hg : ∀ b ∈ g, b ≠ ACK) :
    ∀ b ∈ f ++ g, b ≠ ACK := by
  intro b hb
  rcases List.mem_append.mp hb with h | h
  · exact hf b h
  · exact hg b h

/-- BUILD_AND_ARM with the retry budget used up: the transmitter gives up. -/
theorem tx_step_exhausted (t : transmitter_t) (p : List Nat) (w : Nat) (c : Channel)
    (ticks : Nat) :
    pt_transmitter (tx_armed t p 3 w) c ticks = (1, tx_failed t p w, c) := by
  rw [pt_transmitter_of_state1 _ _ _ rfl,
    case1_exhausted _ _ _ (show (3 : Int) ≥ MAX_RETRIES by decide)]
  rfl

/-- The transmitter alone, on a channel that only ever holds its own ACK-free frame:
three transmissions, then retry-exhausted, within `3 * len + 31` steps. -/
theorem tx_alone_exhausts (t : transmitter_t) (p : List Nat) (hp : IsBytes p)
    (hlen : p.length ≤ 255) (ht : t.pt_state = 0) (hd : t.data = p) (hl : t.len = p.length)
    (hf : t.frame.length = FRAME_SIZE) (rx : receiver_t) (ticks : Nat)
    (hack : ∀ b ∈ frame_of p, b ≠ ACK) :
    ∃ k, k ≤ 3 * p.length + 31 ∧ ∃ w rd tk,
      tx_only k { tx := t, rx := rx, ch := reset_channel, ticks := ticks }
        = { tx := tx_failed t p w, rx := rx,
            ch := { buf := frame_of p ++ frame_of p ++ frame_of p, rd := rd },
            ticks := tk } := by
  have hfl := frame_of_length p hp hlen
  have hcs : CHANNEL_SIZE = 1024 := rfl
  -- first transmission
  have hA1 := attempt_first t p hp hlen ht hd hl hf rx reset_channel ticks
    (by simp [reset_channel, hcs]; omega)
  have hb1 : reset_channel.buf ++ frame_of p = frame_of p := rfl
  rw [hb1] at hA1
  obtain ⟨k1, _, hk1, rd1, tk1, hW1⟩ := wait_phase t p 1 t.wait_start_tick
    (Nat.iterate tick (p.length + 4) ticks) (iterate_tick_lt _ _ (by omega)) rx
    { reset_channel with buf := frame_of p } hack
  -- second transmission
  have hA2 := attempt_again t p hp hlen hf 1 (by decide)
    (Nat.iterate tick (p.length + 4) ticks) rx
    { buf := frame_of p, rd := rd1 } tk1 (by simp only [hfl, hcs]; omega)
  obtain ⟨k2, _, hk2, rd2, tk2, hW2⟩ := wait_phase t p (1 + 1)
    (Nat.iterate tick (p.length + 4) ticks)
    (Nat.iterate tick (p.length + 4) tk1) (iterate_tick_lt _ _ (by omega)) rx
    { buf := frame_of p ++ frame_of p, rd := rd1 } (no_ack_append hack hack)
  -- third transmission
  have hA3 := attempt_again t p hp hlen hf (1 + 1) (by decide)
    (Nat.iterate tick (p.length + 4) tk1) rx
    { buf := frame_of p ++ frame_of p, rd := rd2 } tk2
    (by simp only [List.length_append, hfl, hcs]; omega)
  obtain ⟨k3, _, hk3, rd3, tk3, hW3⟩ := wait_phase t p (1 + 1 + 1)
    (Nat.iterate tick (p.length + 4) tk1)
    (Nat.iterate tick (p.length + 4) tk2) (iterate_tick_lt _ _ (by omega)) rx
    { buf := frame_of p ++ frame_of p ++ frame_of p, rd := rd2 }
    (no_ack_append (no_ack_append hack hack) hack)
  -- the retry budget is used up
  have hX := tx_only_round_eq
    { tx := tx_armed t p 3 (Nat.iterate tick (p.length + 4) tk2), rx := rx,
      ch := { buf := frame_of p ++ frame_of p ++ frame_of p, rd := rd3 }, ticks := tk3 }
    _ _ _ (tx_step_exhausted t p (Nat.iterate tick (p.length + 4) tk2)
      { buf := frame_of p ++ frame_of p ++ frame_of p, rd := rd3 } tk3)
  have e1 := (tx_only_add (p.length + 4) k1 _).trans ((congrArg (tx_only k1) hA1).trans hW1)
  have e2 := (tx_only_add _ (p.length + 4) _).trans
    ((congrArg (tx_only (p.length + 4)) e1).trans hA2)
  have e3 := (tx_only_add _ k2 _).trans ((congrArg (tx_only k2) e2).trans hW2)
  have e4 := (tx_only_add _ (p.length + 4) _).trans
    ((congrArg (tx_only (p.length + 4)) e3).trans hA3)
  have e5 := (tx_only_add _ k3 _).trans ((congrArg (tx_only k3) e4).trans hW3)
  have e6 := (tx_only_add _ 1 _).trans ((congrArg (tx_only 1) e5).trans hX)
  refine ⟨(p.length + 4) + k1 + (p.length + 4) + k2 + (p.length + 4) + k3 + 1, by omega,
    Nat.iterate tick (p.length + 4) tk2, rd3, tick tk3, ?_⟩
  exact e6


/-- AWAIT_RESPONSE on a channel without ACK and NACK bytes: only the timeout can end
the wait. -/
theorem case3_quiet (t : transmitter_t) (c : Channel) (ticks : Nat)
    (h : ∀ b ∈ c.buf, b ≠ ACK ∧ b ≠ NACK) :
    ∃ rd', pt_transmitter_case3 t c ticks
      = (0, if (ticks + ULONG_MOD - t.wait_start_tick) % ULONG_MOD ≥ TIMEOUT_TICKS
              then { t with pt_state := 1 } else t, { c with rd := rd' }) := by
  by_cases hlt : c.rd < c.buf.length
  · have hb : c.buf[c.rd]? = some (c.buf[c.rd]) := List.getElem?_eq_getElem hlt
    have hne := h _ (List.getElem_mem (h := hlt))
    exact ⟨c.rd + 1, case3_stray t ticks hb hne.1 hne.2⟩
  · exact ⟨c.rd, case3_none t ticks (by omega)⟩

/-- Waiting without ACK or NACK in sight lasts until the timeout: `e` ticks after the
wait started exactly `6 - e` more steps are needed. -/
theorem wait_state3_exact (t : transmitter_t) (p : List Nat) (a : Int) (T : Nat)
    (hT : T < ULONG_MOD) (rx : receiver_t) :
    ∀ fuel e (c : Channel), e + fuel = 5 → (∀ b ∈ c.buf, b ≠ ACK ∧ b ≠ NACK) →
      ∃ rd' tk,
        tx_only (fuel + 1) { tx := tx_waiting t p a T, rx := rx, ch := c,
                             ticks := (T + e) % ULONG_MOD }
          = { tx := tx_armed t p a T, rx := rx, ch := { c with rd := rd' }, ticks := tk } := by
  intro fuel
  induction fuel with
  | zero =>
    intro e c he hno
    obtain ⟨rd', h⟩ := case3_quiet (tx_waiting t p a T) c ((T + e) % ULONG_MOD) hno
    have hel : (tx_waiting t p a T).wait_start_tick = T := rfl
    rw [hel, elapsed_eq T e hT (by rw [ulong_mod_eq]; omega),
      if_pos (show TIMEOUT_TICKS ≤ e by rw [show TIMEOUT_TICKS = 5 from rfl]; omega)] at h
    have hpt : pt_transmitter (tx_waiting t p a T) c ((T + e) % ULONG_MOD)
        = (0, tx_armed t p a T, { c with rd := rd' }) := by
      rw [pt_transmitter_of_state3 _ _ _ rfl]; exact h
    exact ⟨rd', _, by rw [tx_only_one]; exact tx_only_round_eq _ _ _ _ hpt⟩
  | succ fuel ih =>
    intro e c he hno
    obtain ⟨rd', h⟩ := case3_quiet (tx_waiting t p a T) c ((T + e) % ULONG_MOD) hno
    have hel : (tx_waiting t p a T).wait_start_tick = T := rfl
    rw [hel, elapsed_eq T e hT (by rw [ulong_mod_eq]; omega),
      if_neg (show ¬ TIMEOUT_TICKS ≤ e by rw [show TIMEOUT_TICKS = 5 from rfl]; omega)] at h
    have hpt : pt_transmitter (tx_waiting t p a T) c ((T + e) % ULONG_MOD)
        = (0, tx_waiting t p a T, { c with rd := rd' }) := by
      rw [pt_transmitter_of_state3 _ _ _ rfl]; exact h
    obtain ⟨rd2, tk, hrun⟩ := ih (e + 1) { c with rd := rd' } (by omega) hno
    refine ⟨rd2, tk, ?_⟩
    rw [tx_only_succ, tx_only_round_eq _ _ _ _ hpt]
    simp only [tick_add]
    exact hrun

/-- After the last byte of a transmission, on a channel without ACK and NACK bytes, the
transmitter is back in BUILD_AND_ARM after exactly six steps: the step that starts the
wait and `TIMEOUT_TICKS` more. -/
theorem wait_phase_exact (t : transmitter_t) (p : List Nat) (a : Int) (w T : Nat)
    (hT : T < ULONG_MOD) (rx : receiver_t) (c : Channel)
    (hno : ∀ b ∈ c.buf, b ≠ ACK ∧ b ≠ NACK) :
    ∃ rd' tk,
      tx_only 6 { tx := tx_sending t p a (p.length + 4) w, rx := rx, ch := c, ticks := T }
        = { tx := tx_armed t p a T, rx := rx, ch := { c with rd := rd' }, ticks := tk } := by
  have hstep : pt_transmitter (tx_sending t p a (p.length + 4) w) c T
      = pt_transmitter_case3 (tx_waiting t p a T) c T := by
    rw [pt_transmitter_of_state2 _ _ _ rfl, case2_done _ _ _ (by simp [tx_sending])]
    rfl
  obtain ⟨rd', h⟩ := case3_quiet (tx_waiting t p a T) c T hno
  have hel : (tx_waiting t p a T).wait_start_tick = T := rfl
  have h0 : (T + ULONG_MOD - T) % ULONG_MOD = 0 := by rw [ulong_mod_eq]; omega
  rw [hel, h0, if_neg (by decide)] at h
  have hpt : pt_transmitter (tx_sending t p a (p.length + 4) w) c T
      = (0, tx_waiting t p a T, { c with rd := rd' }) := by
    rw [hstep]; exact h
  obtain ⟨rd2, tk, hrun⟩ :=
    wait_state3_exact t p a T hT rx 4 1 { c with rd := rd' } rfl hno
  refine ⟨rd2, tk, ?_⟩
  rw [show (6 : Nat) = (4 + 1) + 1 from rfl, tx_only_succ, tx_only_round_eq _ _ _ _ hpt]
  exact hrun

theorem quiet_append {f g : List Nat} (hf : ∀ b ∈ f, b ≠ ACK ∧ b ≠ NACK)
    (hg : ∀ b ∈ g, b ≠ ACK ∧ b ≠ NACK) : ∀ b ∈ f ++ g, b ≠ ACK ∧ b ≠ NACK := by
  intro b hb
  rcases List.mem_append.mp hb with h | h
  · exact hf b h
  · exact hg b h

/-- The transmitter alone with a frame free of ACK and NACK bytes: after
`3 * len + 30` steps the third wait has just timed out; the transmitter is in
BUILD_AND_ARM with its retry budget used up and has not reported anything yet. -/
theorem tx_alone_last_timeout (t : transmitter_t) (p : List Nat) (hp : IsBytes p)
    (hlen : p.length ≤ 255) (ht : t.pt_state = 0) (hd : t.data = p) (hl : t.len = p.length)
    (hf : t.frame.length = FRAME_SIZE) (rx : receiver_t) (ticks : Nat)
    (hq : ∀ b ∈ frame_of p, b ≠ ACK ∧ b ≠ NACK) :
    ∃ w rd tk,
      tx_only (3 * p.length + 30) { tx := t, rx := rx, ch := reset_channel, ticks := ticks }
        = { tx := tx_armed t p 3 w, rx := rx,
            ch := { buf := frame_of p ++ frame_of p ++ frame_of p, rd := rd },
            ticks := tk } := by
  have hfl := frame_of_length p hp hlen
  have hcs : CHANNEL_SIZE = 1024 := rfl
  have hA1 := attempt_first t p hp hlen ht hd hl hf rx reset_channel ticks
    (by simp [reset_channel, hcs]; omega)
  have hb1 : reset_channel.buf ++ frame_of p = frame_of p := rfl
  rw [hb1] at hA1
  obtain ⟨rd1, tk1, hW1⟩ := wait_phase_exact t p 1 t.wait_start_tick
    (Nat.iterate tick (p.length + 4) ticks) (iterate_tick_lt _ _ (by omega)) rx
    { reset_channel with buf := frame_of p } hq
  have hA2 := attempt_again t p hp hlen hf 1 (by decide)
    (Nat.iterate tick (p.length + 4) ticks) rx
    { buf := frame_of p, rd := rd1 } tk1 (by simp only [hfl, hcs]; omega)
  obtain ⟨rd2, tk2, hW2⟩ := wait_phase_exact t p (1 + 1)
    (Nat.iterate tick (p.length + 4) ticks)
    (Nat.iterate tick (p.length + 4) tk1) (iterate_tick_lt _ _ (by omega)) rx
    { buf := frame_of p ++ frame_of p, rd := rd1 } (quiet_append hq hq)
  have hA3 := attempt_again t p hp hlen hf (1 + 1) (by decide)
    (Nat.iterate tick (p.length + 4) tk1) rx
    { buf := frame_of p ++ frame_of p, rd := rd2 } tk2
    (by simp only [List.length_append, hfl, hcs]; omega)
  obtain ⟨rd3, tk3, hW3⟩ := wait_phase_exact t p (1 + 1 + 1)
    (Nat.iterate tick (p.length + 4) tk1)
    (Nat.iterate tick (p.length + 4) tk2) (iterate_tick_lt _ _ (by omega)) rx
    { buf := frame_of p ++ frame_of p ++ frame_of p, rd := rd2 }
    (quiet_append (quiet_append hq hq) hq)
  have e1 := (tx_only_add (p.length + 4) 6 _).trans ((congrArg (tx_only 6) hA1).trans hW1)
  have e2 := (tx_only_add _ (p.length + 4) _).trans
    ((congrArg (tx_only (p.length + 4)) e1).trans hA2)
  have e3 := (tx_only_add _ 6 _).trans ((congrArg (tx_only 6) e2).trans hW2)
  have e4 := (tx_only_add _ (p.length + 4) _).trans
    ((congrArg (tx_only (p.length + 4)) e3).trans hA3)
  have e5 := (tx_only_add _ 6 _).trans ((congrArg (tx_only 6) e4).trans hW3)
  have hN : 3 * p.length + 30
      = (p.length + 4) + 6 + (p.length + 4) + 6 + (p.length + 4) + 6 := by omega
  rw [hN]
  exact ⟨_, rd3, tk3, e5⟩

/-! ## The transmitter alone: what it reads back -/

theorem wait_reads_nil (n : Nat) : wait_reads n [] = [] := by
  cases n <;> rfl

theorem wait_reads_stop (n b : Nat) (l : List Nat) (h : b = ACK ∨ b = NACK) :
    wait_reads (n + 1) (b :: l) = [b] := by
  simp [wait_reads, h]

theorem wait_reads_go (n b : Nat) (l : List Nat) (h1 : b ≠ ACK) (h2 : b ≠ NACK) :
    wait_reads (n + 1) (b :: l) = b :: wait_reads n l := by
  simp [wait_reads, h1, h2]

theorem nack_ne_ack : NACK ≠ ACK := by decide

/-- One wait of a transmitter on a channel nothing else writes to: `e` ticks after the
wait started, with `fuel + 1` polls left, the wait ends within `fuel + 1` steps, by an
ACK or back in BUILD_AND_ARM, having consumed the bytes `wait_reads` lists; without an
ACK and a NACK among them it lasts until the timeout. -/
theorem wait_run (t : transmitter_t) (p : List Nat) (a : Int) (T : Nat)
    (hT : T < ULONG_MOD) (rx : receiver_t) :
    ∀ fuel e (c : Channel) (st : transmitter_t), e + fuel = 5 →
      pt_transmitter st c ((T + e) % ULONG_MOD)
        = pt_transmitter_case3 (tx_waiting t p a T) c ((T + e) % ULONG_MOD) →
      ∃ k tk, 1 ≤ k ∧ k ≤ fuel + 1 ∧
        (ACK ∉ wait_reads (fuel + 1) (c.buf.drop c.rd) →
          NACK ∉ wait_reads (fuel + 1) (c.buf.drop c.rd) → k = fuel + 1) ∧
        tx_only k { tx := st, rx := rx, ch := c, ticks := (T + e) % ULONG_MOD }
          = { tx := if ACK ∈ wait_reads (fuel + 1) (c.buf.drop c.rd) then tx_acked t p a T
                    else tx_armed t p a T,
              rx := rx,
              ch := { c with rd := c.rd + (wait_reads (fuel + 1) (c.buf.drop c.rd)).length },
              ticks := tk } := by
  intro fuel
  induction fuel with
  | zero =>
    intro e c st he hst
    have hel : ((T + e) % ULONG_MOD + ULONG_MOD - (tx_waiting t p a T).wait_start_tick)
        % ULONG_MOD = e := elapsed_eq T e hT (by rw [ulong_mod_eq]; omega)
    have hto : TIMEOUT_TICKS ≤ e := by rw [show TIMEOUT_TICKS = 5 from rfl]; omega
    by_cases hlt : c.rd < c.buf.length
    · have hb : c.buf[c.rd]? = some (c.buf[c.rd]) := List.getElem?_eq_getElem hlt
      rw [List.drop_eq_getElem_cons hlt]
      by_cases hA : c.buf[c.rd] = ACK
      · rw [wait_reads_stop _ _ _ (Or.inl hA)]
        rw [hA] at hb
        rw [case3_ack _ _ hb] at hst
        refine ⟨1, tick ((T + e) % ULONG_MOD), le_refl _, le_refl _, fun _ _ => rfl, ?_⟩
        rw [tx_only_one, tx_only_round_eq _ _ _ _ hst, hA,
          if_pos (List.mem_singleton.mpr rfl)]
        rfl
      · by_cases hN : c.buf[c.rd] = NACK
        · rw [wait_reads_stop _ _ _ (Or.inr hN)]
          rw [hN] at hb
          rw [case3_nack _ _ hb] at hst
          refine ⟨1, tick ((T + e) % ULONG_MOD), le_refl _, le_refl _, fun _ _ => rfl, ?_⟩
          rw [tx_only_one, tx_only_round_eq _ _ _ _ hst, hN,
            if_neg (fun h => nack_ne_ack (List.mem_singleton.mp h).symm)]
          rfl
        · rw [wait_reads_go _ _ _ hA hN]
          rw [case3_stray _ _ hb hA hN, hel, if_pos hto] at hst
          refine ⟨1, tick ((T + e) % ULONG_MOD), le_refl _, le_refl _, fun _ _ => rfl, ?_⟩
          rw [tx_only_one, tx_only_round_eq _ _ _ _ hst,
            if_neg (by simp [wait_reads, Ne.symm hA])]
          rfl
    · rw [List.drop_eq_nil_of_le (by omega), wait_reads_nil]
      rw [case3_none _ _ (by omega), hel, if_pos hto] at hst
      refine ⟨1, tick ((T + e) % ULONG_MOD), le_refl _, le_refl _, fun _ _ => rfl, ?_⟩
      rw [tx_only_one, tx_only_round_eq _ _ _ _ hst, if_neg (List.not_mem_nil _)]
      rfl
  | succ fuel ih =>
    intro e c st he hst
    have hel : ((T + e) % ULONG_MOD + ULONG_MOD - (tx_waiting t p a T).wait_start_tick)
        % ULONG_MOD = e := elapsed_eq T e hT (by rw [ulong_mod_eq]; omega)
    have hto : ¬ TIMEOUT_TICKS ≤ e := by rw [show TIMEOUT_TICKS = 5 from rfl]; omega
    by_cases hlt : c.rd < c.buf.length
    · have hb : c.buf[c.rd]? = some (c.buf[c.rd]) := List.getElem?_eq_getElem hlt
      rw [List.drop_eq_getElem_cons hlt]
      by_cases hA : c.buf[c.rd] = ACK
      · rw [wait_reads_stop _ _ _ (Or.inl hA)]
        rw [hA] at hb
        rw [case3_ack _ _ hb] at hst
        refine ⟨1, tick ((T + e) % ULONG_MOD), le_refl _, by omega, fun h _ => absurd ?_ h, ?_⟩
        · rw [hA]; exact List.mem_singleton.mpr rfl
        · rw [tx_only_one, tx_only_round_eq _ _ _ _ hst, hA,
            if_pos (List.mem_singleton.mpr rfl)]
          rfl
      · by_cases hN : c.buf[c.rd] = NACK
        · rw [wait_reads_stop _ _ _ (Or.inr hN)]
          rw [hN] at hb
          rw [case3_nack _ _ hb] at hst
          refine ⟨1, tick ((T + e) % ULONG_MOD), le_refl _, by omega, fun _ h => absurd ?_ h, ?_⟩
          · rw [hN]; exact List.mem_singleton.mpr rfl
          · rw [tx_only_one, tx_only_round_eq _ _ _ _ hst, hN,
              if_neg (fun h => nack_ne_ack (List.mem_singleton.mp h).symm)]
            rfl
        · rw [wait_reads_go _ _ _ hA hN]
          rw [case3_stray _ _ hb hA hN, hel, if_neg hto] at hst
          obtain ⟨k, tk, hk1, hk2, hex, hrun⟩ := ih (e + 1) { c with rd := c.rd + 1 }
            (tx_waiting t p a T) (by omega) (pt_transmitter_of_state3 _ _ _ rfl)
          refine ⟨k + 1, tk, by omega, by omega, fun h1 h2 => ?_, ?_⟩
          · rw [hex (fun h => h1 (List.mem_cons_of_mem _ h))
              (fun h => h2 (List.mem_cons_of_mem _ h))]
          · rw [tx_only_succ, tx_only_round_eq _ _ _ _ hst]
            simp only [tick_add]
            rw [hrun]
            simp only [List.mem_cons, Ne.symm hA, false_or, List.length_cons]
            rw [show c.rd + 1 + (wait_reads (fuel + 1) (c.buf.drop (c.rd + 1))).length
              = c.rd + ((wait_reads (fuel + 1) (c.buf.drop (c.rd + 1))).length + 1) from by omega]
    · rw [List.drop_eq_nil_of_le (by omega), wait_reads_nil]
      rw [case3_none _ _ (by omega), hel, if_neg hto] at hst
      obtain ⟨k, tk, hk1, hk2, hex, hrun⟩ := ih (e + 1) c
        (tx_waiting t p a T) (by omega) (pt_transmitter_of_state3 _ _ _ rfl)
      rw [List.drop_eq_nil_of_le (by omega), wait_reads_nil] at hex hrun
      refine ⟨k + 1, tk, by omega, by omega, fun h1 h2 => ?_, ?_⟩
      · rw [hex h1 h2]
      · rw [tx_only_succ, tx_only_round_eq _ _ _ _ hst]
        simp only [tick_add]
        exact hrun

/-- After the last byte of a transmission, on a channel nothing else writes to, the wait
ends within six steps, by an ACK or back in BUILD_AND_ARM, having consumed the bytes
`wait_reads` lists; without an ACK and a NACK among them it takes exactly six steps. -/
theorem wait_phase_reads (t : transmitter_t) (p : List Nat) (a : Int) (w T : Nat)
    (hT : T < ULONG_MOD) (rx : receiver_t) (c : Channel) :
    ∃ k tk, 1 ≤ k ∧ k ≤ 6 ∧
      (ACK ∉ wait_reads (TIMEOUT_TICKS + 1) (c.buf.drop c.rd) →
        NACK ∉ wait_reads (TIMEOUT_TICKS + 1) (c.buf.drop c.rd) → k = 6) ∧
      tx_only k { tx := tx_sending t p a (p.length + 4) w, rx := rx, ch := c, ticks := T }
        = { tx := if ACK ∈ wait_reads (TIMEOUT_TICKS + 1) (c.buf.drop c.rd)
                    then tx_acked t p a T else tx_armed t p a T,
            rx := rx,
            ch := { c with
              rd := c.rd + (wait_reads (TIMEOUT_TICKS + 1) (c.buf.drop c.rd)).length },
            ticks := tk } := by
  have hstep : pt_transmitter (tx_sending t p a (p.length + 4) w) c T
      = pt_transmitter_case3 (tx_waiting t p a T) c T := by
    rw [pt_transmitter_of_state2 _ _ _ rfl, case2_done _ _ _ (by simp [tx_sending])]
    rfl
  have h0 : (T + 0) % ULONG_MOD = T := Nat.mod_eq_of_lt hT
  have h := wait_run t p a T hT rx 5 0 c (tx_sending t p a (p.length + 4) w) rfl
    (by rw [h0]; exact hstep)
  rw [h0] at h
  exact h

theorem lone_reads_first (f : List Nat) (h : ACK ∈ wait_reads (TIMEOUT_TICKS + 1) f) :
    lone_reads f = wait_reads (TIMEOUT_TICKS + 1) f := by
  unfold lone_reads
  rw [if_pos h]

theorem lone_reads_second (f : List Nat) (h1 : ACK ∉ wait_reads (TIMEOUT_TICKS + 1) f)
    (h2 : ACK ∈ wait_reads (TIMEOUT_TICKS + 1)
      ((f ++ f).drop (wait_reads (TIMEOUT_TICKS + 1) f).length)) :
    lone_reads f = wait_reads (TIMEOUT_TICKS + 1) f ++
      wait_reads (TIMEOUT_TICKS + 1)
        ((f ++ f).drop (wait_reads (TIMEOUT_TICKS + 1) f).length) := by
  unfold lone_reads
  rw [if_neg h1, if_pos h2]

theorem lone_reads_third (f : List Nat) (h1 : ACK ∉ wait_reads (TIMEOUT_TICKS + 1) f)
    (h2 : ACK ∉ wait_reads (TIMEOUT_TICKS + 1)
      ((f ++ f).drop (wait_reads (TIMEOUT_TICKS + 1) f).length)) :
    lone_reads f = wait_reads (TIMEOUT_TICKS + 1) f ++
      wait_reads (TIMEOUT_TICKS + 1)
        ((f ++ f).drop (wait_reads (TIMEOUT_TICKS + 1) f).length) ++
      wait_reads (TIMEOUT_TICKS + 1)
        ((f ++ f ++ f).drop ((wait_reads (TIMEOUT_TICKS + 1) f).length +
          (wait_reads (TIMEOUT_TICKS + 1)
            ((f ++ f).drop (wait_reads (TIMEOUT_TICKS + 1) f).length)).length)) := by
  unfold lone_reads
  rw [if_neg h1, if_neg h2]

/-- The transmitter alone: up to three transmissions, each followed by a wait in which
it reads its own frame back.  An ACK among the bytes read ends the exchange with a
success; otherwise the third wait ends in BUILD_AND_ARM with the retry budget used up,
three copies of the frame on the channel, after at most `3 * len + 30` steps, and after
exactly that many when no NACK was read either. -/
theorem tx_alone_outcome (t : transmitter_t) (p : List Nat) (hp : IsBytes p)
    (hlen : p.length ≤ 255) (ht : t.pt_state = 0) (hd : t.data = p) (hl : t.len = p.length)
    (hf : t.frame.length = FRAME_SIZE) (rx : receiver_t) (ticks : Nat) :
    (ACK ∈ lone_reads (frame_of p) →
      ∃ k, k ≤ 3 * p.length + 30 ∧
        (tx_only k { tx := t, rx := rx, ch := reset_channel, ticks := ticks }).tx.pt_state
          = 99 ∧
        (tx_only k { tx := t, rx := rx, ch := reset_channel, ticks := ticks }).tx.finished
          = 1) ∧
    (ACK ∉ lone_reads (frame_of p) →
      ∃ k, k ≤ 3 * p.length + 30 ∧
        (NACK ∉ lone_reads (frame_of p) → k = 3 * p.length + 30) ∧
        ∃ w tk,
          tx_only k { tx := t, rx := rx, ch := reset_channel, ticks := ticks }
            = { tx := tx_armed t p 3 w, rx := rx,
                ch := { buf := frame_of p ++ frame_of p ++ frame_of p,
                        rd := (lone_reads (frame_of p)).length },
                ticks := tk }) := by
  have hfl := frame_of_length p hp hlen
  have hcs : CHANNEL_SIZE = 1024 := rfl
  -- first transmission and wait
  have hA1 := attempt_first t p hp hlen ht hd hl hf rx reset_channel ticks
    (by simp [reset_channel, hcs]; omega)
  have hb1 : reset_channel.buf ++ frame_of p = frame_of p := rfl
  rw [hb1] at hA1
  obtain ⟨k1, tk1, _, hk1, hx1, hW1⟩ := wait_phase_reads t p 1 t.wait_start_tick
    (Nat.iterate tick (p.length + 4) ticks) (iterate_tick_lt _ _ (by omega)) rx
    { reset_channel with buf := frame_of p }
  have hd1 : ({ reset_channel with buf := frame_of p } : Channel).buf.drop
      ({ reset_channel with buf := frame_of p } : Channel).rd = frame_of p := rfl
  have hr1 : ({ reset_channel with buf := frame_of p } : Channel).rd = 0 := rfl
  rw [hd1, hr1, Nat.zero_add] at hW1
  rw [hd1] at hx1
  have e1 := (tx_only_add (p.length + 4) k1 _).trans ((congrArg (tx_only k1) hA1).trans hW1)
  by_cases hc1 : ACK ∈ wait_reads (TIMEOUT_TICKS + 1) (frame_of p)
  · rw [if_pos hc1] at e1
    refine ⟨fun _ => ⟨p.length + 4 + k1, by omega, ?_, ?_⟩, fun h => absurd ?_ h⟩
    · rw [e1]; rfl
    · rw [e1]; rfl
    · rw [lone_reads_first _ hc1]; exact hc1
  rw [if_neg hc1] at e1
  -- second transmission and wait
  have hA2 := attempt_again t p hp hlen hf 1 (by decide)
    (Nat.iterate tick (p.length + 4) ticks) rx
    { buf := frame_of p, rd := (wait_reads (TIMEOUT_TICKS + 1) (frame_of p)).length } tk1
    (by simp only [hfl, hcs]; omega)
  obtain ⟨k2, tk2, _, hk2, hx2, hW2⟩ := wait_phase_reads t p (1 + 1)
    (Nat.iterate tick (p.length + 4) ticks)
    (Nat.iterate tick (p.length + 4) tk1) (iterate_tick_lt _ _ (by omega)) rx
    { buf := frame_of p ++ frame_of p,
      rd := (wait_reads (TIMEOUT_TICKS + 1) (frame_of p)).length }
  simp only [] at hx2 hW2
  have e2 := (tx_only_add _ (p.length + 4) _).trans
    ((congrArg (tx_only (p.length + 4)) e1).trans hA2)
  have e3 := (tx_only_add _ k2 _).trans ((congrArg (tx_only k2) e2).trans hW2)
  by_cases hc2 : ACK ∈ wait_reads (TIMEOUT_TICKS + 1)
      ((frame_of p ++ frame_of p).drop (wait_reads (TIMEOUT_TICKS + 1) (frame_of p)).length)
  · rw [if_pos hc2] at e3
    refine ⟨fun _ => ⟨p.length + 4 + k1 + (p.length + 4) + k2, by omega, ?_, ?_⟩,
      fun h => absurd ?_ h⟩
    · rw [e3]; rfl
    · rw [e3]; rfl
    · rw [lone_reads_second _ hc1 hc2]; exact List.mem_append_right _ hc2
  rw [if_neg hc2] at e3
  -- third transmission and wait
  have hA3 := attempt_again t p hp hlen hf (1 + 1) (by decide)
    (Nat.iterate tick (p.length + 4) tk1) rx
    { buf := frame_of p ++ frame_of p,
      rd := (wait_reads (TIMEOUT_TICKS + 1) (frame_of p)).length +
        (wait_reads (TIMEOUT_TICKS + 1) ((frame_of p ++ frame_of p).drop
          (wait_reads (TIMEOUT_TICKS + 1) (frame_of p)).length)).length } tk2
    (by simp only [List.length_append, hfl, hcs]; omega)
  obtain ⟨k3, tk3, _, hk3, hx3, hW3⟩ := wait_phase_reads t p (1 + 1 + 1)
    (Nat.iterate tick (p.length + 4) tk1)
    (Nat.iterate tick (p.length + 4) tk2) (iterate_tick_lt _ _ (by omega)) rx
    { buf := frame_of p ++ frame_of p ++ frame_of p,
      rd := (wait_reads (TIMEOUT_TICKS + 1) (frame_of p)).length +
        (wait_reads (TIMEOUT_TICKS + 1) ((frame_of p ++ frame_of p).drop
          (wait_reads (TIMEOUT_TICKS + 1) (frame_of p)).length)).length }
  simp only [] at hx3 hW3
  have e4 := (tx_only_add _ (p.length + 4) _).trans
    ((congrArg (tx_only (p.length + 4)) e3).trans hA3)
  have e5 := (tx_only_add _ k3 _).trans ((congrArg (tx_only k3) e4).trans hW3)
  by_cases hc3 : ACK ∈ wait_reads (TIMEOUT_TICKS + 1)
      ((frame_of p ++ frame_of p ++ frame_of p).drop
        ((wait_reads (TIMEOUT_TICKS + 1) (frame_of p)).length +
          (wait_reads (TIMEOUT_TICKS + 1) ((frame_of p ++ frame_of p).drop
            (wait_reads (TIMEOUT_TICKS + 1) (frame_of p)).length)).length))
  · rw [if_pos hc3] at e5
    refine ⟨fun _ => ⟨p.length + 4 + k1 + (p.length + 4) + k2 + (p.length + 4) + k3,
        by omega, ?_, ?_⟩, fun h => absurd ?_ h⟩
    · rw [e5]; rfl
    · rw [e5]; rfl
    · rw [lone_reads_third _ hc1 hc2]; exact List.mem_append_right _ hc3
  rw [if_neg hc3] at e5
  have hL := lone_reads_third _ hc1 hc2
  refine ⟨fun h => absurd h ?_, fun _ =>
    ⟨p.length + 4 + k1 + (p.length + 4) + k2 + (p.length + 4) + k3, by omega, fun hn => ?_,
      Nat.iterate tick (p.length + 4) tk2, tk3, ?_⟩⟩
  · rw [hL]
    intro h
    rcases List.mem_append.mp h with h | h
    · rcases List.mem_append.mp h with h | h
      · exact hc1 h
      · exact hc2 h
    · exact hc3 h
  · rw [hL] at hn
    have z1 := hx1 hc1 (fun h => hn (List.mem_append_left _ (List.mem_append_left _ h)))
    have z2 := hx2 hc2 (fun h => hn (List.mem_append_left _ (List.mem_append_right _ h)))
    have z3 := hx3 hc3 (fun h => hn (List.mem_append_right _ h))
    omega
  · rw [e5, hL]
    simp only [List.length_append]
    rfl

theorem wait_reads_take : ∀ (n : Nat) (l : List Nat),
    wait_reads n l = l.take (wait_reads n l).length ∧ (wait_reads n l).length ≤ n := by
  intro n
  induction n with
  | zero => intro l; exact ⟨by simp [wait_reads], by simp [wait_reads]⟩
  | succ n ih =>
    intro l
    cases l with
    | nil => exact ⟨by simp [wait_reads], by simp [wait_reads]⟩
    | cons b l =>
      by_cases h : b = ACK ∨ b = NACK
      · rw [wait_reads_stop _ _ _ h]
        exact ⟨by simp, by simp⟩
      · rw [wait_reads_go _ _ _ (fun e => h (Or.inl e)) (fun e => h (Or.inr e))]
        refine ⟨?_, by simp only [List.length_cons]; exact Nat.succ_le_succ (ih l).2⟩
        rw [List.length_cons, List.take_succ_cons, ← (ih l).1]

/-- The bytes read in a wait that starts at read index `k` extend the `k` bytes read
before to a longer initial segment of the channel contents. -/
theorem take_append_wait_reads (l : List Nat) (k n : Nat) (hk : k ≤ l.length) :
    l.take k ++ wait_reads n (l.drop k) = l.take (k + (wait_reads n (l.drop k)).length) ∧
    k + (wait_reads n (l.drop k)).length ≤ l.length := by
  have h := (wait_reads_take n (l.drop k)).1
  have hle : (wait_reads n (l.drop k)).length ≤ (l.drop k).length := by
    have := congrArg List.length h
    rw [List.length_take] at this
    omega
  rw [List.length_drop] at hle
  refine ⟨?_, by omega⟩
  rw [List.take_add]
  exact congrArg (fun x => l.take k ++ x) h

/-- What the lone transmitter reads back is an initial segment, of at most
`3 * (TIMEOUT_TICKS + 1) = 18` bytes, of three copies of its frame. -/
theorem lone_reads_take (f : List Nat) :
    lone_reads f = (f ++ f ++ f).take (lone_reads f).length ∧
    (lone_reads f).length ≤ 18 := by
  have hT : TIMEOUT_TICKS + 1 = 6 := rfl
  have a1 := take_append_wait_reads f 0 (TIMEOUT_TICKS + 1) (Nat.zero_le _)
  simp only [List.take_zero, List.nil_append, List.drop_zero, Nat.zero_add] at a1
  have n1 := (wait_reads_take (TIMEOUT_TICKS + 1) f).2
  have a2 := take_append_wait_reads (f ++ f) (wait_reads (TIMEOUT_TICKS + 1) f).length
    (TIMEOUT_TICKS + 1) (by rw [List.length_append]; omega)
  have n2 := (wait_reads_take (TIMEOUT_TICKS + 1)
    ((f ++ f).drop (wait_reads (TIMEOUT_TICKS + 1) f).length)).2
  have a3 := take_append_wait_reads (f ++ f ++ f)
    ((wait_reads (TIMEOUT_TICKS + 1) f).length +
      (wait_reads (TIMEOUT_TICKS + 1)
        ((f ++ f).drop (wait_reads (TIMEOUT_TICKS + 1) f).length)).length)
    (TIMEOUT_TICKS + 1) (by rw [List.length_append]; omega)
  have n3 := (wait_reads_take (TIMEOUT_TICKS + 1)
    ((f ++ f ++ f).drop ((wait_reads (TIMEOUT_TICKS + 1) f).length +
      (wait_reads (TIMEOUT_TICKS + 1)
        ((f ++ f).drop (wait_reads (TIMEOUT_TICKS + 1) f).length)).length))).2
  have b1 : (f ++ f ++ f).take (wait_reads (TIMEOUT_TICKS + 1) f).length
      = wait_reads (TIMEOUT_TICKS + 1) f := by
    rw [List.append_assoc, List.take_append_of_le_length a1.2]
    exact a1.1.symm
  have b2 : (f ++ f ++ f).take ((wait_reads (TIMEOUT_TICKS + 1) f).length +
        (wait_reads (TIMEOUT_TICKS + 1)
          ((f ++ f).drop (wait_reads (TIMEOUT_TICKS + 1) f).length)).length)
      = wait_reads (TIMEOUT_TICKS + 1) f ++ wait_reads (TIMEOUT_TICKS + 1)
          ((f ++ f).drop (wait_reads (TIMEOUT_TICKS + 1) f).length) := by
    rw [List.take_append_of_le_length a2.2, ← a2.1, List.take_append_of_le_length a1.2,
      ← a1.1]
  by_cases hc1 : ACK ∈ wait_reads (TIMEOUT_TICKS + 1) f
  · rw [lone_reads_first f hc1, b1]
    exact ⟨rfl, by omega⟩
  by_cases hc2 : ACK ∈ wait_reads (TIMEOUT_TICKS + 1)
      ((f ++ f).drop (wait_reads (TIMEOUT_TICKS + 1) f).length)
  · rw [lone_reads_second f hc1 hc2, List.length_append, b2]
    exact ⟨rfl, by omega⟩
  · rw [lone_reads_third f hc1 hc2]
    simp only [List.length_append]
    rw [← a3.1, b2]
    exact ⟨rfl, by omega⟩

/-- A byte the lone transmitter reads back is a byte of its frame. -/
theorem mem_frame_of_mem_lone_reads (f : List Nat) (b : Nat) (h : b ∈ lone_reads f) :
    b ∈ f := by
  rw [(lone_reads_take f).1] at h
  have h2 := List.mem_of_mem_take h
  simp only [List.mem_append, or_self] at h2
  exact h2

/-! ## Independence of the starting clock value -/

theorem elapsed_shift (d k w : Nat) (hw : w < ULONG_MOD) :
    ((k + d) % ULONG_MOD + ULONG_MOD - (w + d) % ULONG_MOD) % ULONG_MOD
      = (k + ULONG_MOD - w) % ULONG_MOD := by
  rw [ulong_mod_eq] at *
  omega

theorem tick_shift (d k : Nat) : tick ((k + d) % ULONG_MOD) = (tick k + d) % ULONG_MOD := by
  unfold tick
  rw [ulong_mod_eq]
  omega

/-- AWAIT_RESPONSE only looks at the elapsed time. -/
theorem case3_shift (t : transmitter_t) (w' : Nat) (c : Channel) (k k' : Nat)
    (hE : (k' + ULONG_MOD - w') % ULONG_MOD
      = (k + ULONG_MOD - t.wait_start_tick) % ULONG_MOD) :
    pt_transmitter_case3 { t with wait_start_tick := w' } c k'
      = ((pt_transmitter_case3 t c k).1,
          { (pt_transmitter_case3 t c k).2.1 with wait_start_tick := w' },
          (pt_transmitter_case3 t c k).2.2) ∧
    (pt_transmitter_case3 t c k).2.1.wait_start_tick = t.wait_start_tick := by
  unfold pt_transmitter_case3 consume_incoming_byte
  simp only [hE]
  rcases get_byte c with ⟨_ | b, c1⟩ <;> simp only [] <;> split_ifs <;> exact ⟨rfl, rfl⟩


theorem case2_shift (d : Nat) (t : transmitter_t) (w' : Nat) (c : Channel) (k : Nat)
    (hk : k < ULONG_MOD) (hs : t.pt_state = 2) :
    ∃ W, pt_transmitter_case2 { t with wait_start_tick := w' } c ((k + d) % ULONG_MOD)
        = ((pt_transmitter_case2 t c k).1,
            { (pt_transmitter_case2 t c k).2.1 with wait_start_tick := W },
            (pt_transmitter_case2 t c k).2.2) ∧
      ((pt_transmitter_case2 t c k).2.1.pt_state = 3 →
        (pt_transmitter_case2 t c k).2.1.wait_start_tick < ULONG_MOD ∧
        W = ((pt_transmitter_case2 t c k).2.1.wait_start_tick + d) % ULONG_MOD) := by
  by_cases h : t.send_index < t.frame_len
  · refine ⟨w', ?_, ?_⟩
    · rw [case2_send _ _ _ h, case2_send _ _ _ (by exact h)]
    · rw [case2_send _ _ _ h]
      intro h3
      rw [show ({ t with send_index := t.send_index + 1 } : transmitter_t).pt_state
        = t.pt_state from rfl, hs] at h3
      exact absurd h3 (by decide)
  · have h3 := case3_shift { t with wait_start_tick := k, pt_state := 3 }
      ((k + d) % ULONG_MOD) c k ((k + d) % ULONG_MOD) (by
        rw [ulong_mod_eq] at *
        simp only []
        omega)
    refine ⟨(k + d) % ULONG_MOD, ?_, ?_⟩
    · rw [case2_done _ _ _ h, case2_done _ _ _ (by exact h)]
      exact h3.1
    · rw [case2_done _ _ _ h, h3.2]
      intro _
      exact ⟨hk, rfl⟩

theorem case1_shift (d : Nat) (t : transmitter_t) (w' : Nat) (c : Channel) (k : Nat)
    (hk : k < ULONG_MOD) :
    ∃ W, pt_transmitter_case1 { t with wait_start_tick := w' } c ((k + d) % ULONG_MOD)
        = ((pt_transmitter_case1 t c k).1,
            { (pt_transmitter_case1 t c k).2.1 with wait_start_tick := W },
            (pt_transmitter_case1 t c k).2.2) ∧
      ((pt_transmitter_case1 t c k).2.1.pt_state = 3 →
        (pt_transmitter_case1 t c k).2.1.wait_start_tick < ULONG_MOD ∧
        W = ((pt_transmitter_case1 t c k).2.1.wait_start_tick + d) % ULONG_MOD) := by
  by_cases h : t.attempts ≥ MAX_RETRIES
  · refine ⟨w', ?_, ?_⟩
    · rw [case1_exhausted _ _ _ h, case1_exhausted _ _ _ (by exact h)]
    · rw [case1_exhausted _ _ _ h]
      intro h3
      exact absurd (show (99 : Int) = 3 from h3) (by decide)
  · obtain ⟨W, h1, h2⟩ := case2_shift d
      { t with attempts := t.attempts + 1, send_index := 0, pt_state := 2 } w' c k hk rfl
    refine ⟨W, ?_, ?_⟩
    · rw [case1_arm _ _ _ h, case1_arm _ _ _ (by exact h)]
      exact h1
    · rw [case1_arm _ _ _ h]
      exact h2

theorem case0_shift (d : Nat) (t : transmitter_t) (w' : Nat) (c : Channel) (k : Nat)
    (hk : k < ULONG_MOD) :
    ∃ W, pt_transmitter_case0 { t with wait_start_tick := w' } c ((k + d) % ULONG_MOD)
        = ((pt_transmitter_case0 t c k).1,
            { (pt_transmitter_case0 t c k).2.1 with wait_start_tick := W },
            (pt_transmitter_case0 t c k).2.2) ∧
      ((pt_transmitter_case0 t c k).2.1.pt_state = 3 →
        (pt_transmitter_case0 t c k).2.1.wait_start_tick < ULONG_MOD ∧
        W = ((pt_transmitter_case0 t c k).2.1.wait_start_tick + d) % ULONG_MOD) := by
  unfold pt_transmitter_case0
  exact case1_shift d
    { t with attempts := 0, finished := 0, frame := (build_frame t.frame t.data t.len).1,
             frame_len := (build_frame t.frame t.data t.len).2, pt_state := 1 } w' c k hk

/-- A step of the transmitter commutes with a shift of the clock. -/
theorem pt_transmitter_shift (d : Nat) (t : transmitter_t) (w' : Nat) (c : Channel) (k : Nat)
    (hk : k < ULONG_MOD)
    (h3 : t.pt_state = 3 →
      t.wait_start_tick < ULONG_MOD ∧ w' = (t.wait_start_tick + d) % ULONG_MOD) :
    ∃ W, pt_transmitter { t with wait_start_tick := w' } c ((k + d) % ULONG_MOD)
        = ((pt_transmitter t c k).1,
            { (pt_transmitter t c k).2.1 with wait_start_tick := W },
            (pt_transmitter t c k).2.2) ∧
      ((pt_transmitter t c k).2.1.pt_state = 3 →
        (pt_transmitter t c k).2.1.wait_start_tick < ULONG_MOD ∧
        W = ((pt_transmitter t c k).2.1.wait_start_tick + d) % ULONG_MOD) := by
  by_cases s0 : t.pt_state = 0
  · rw [pt_transmitter_of_state0 t c k s0, pt_transmitter_of_state0 _ c _ (by exact s0)]
    exact case0_shift d t w' c k hk
  by_cases s1 : t.pt_state = 1
  · rw [pt_transmitter_of_state1 t c k s1, pt_transmitter_of_state1 _ c _ (by exact s1)]
    exact case1_shift d t w' c k hk
  by_cases s2 : t.pt_state = 2
  · rw [pt_transmitter_of_state2 t c k s2, pt_transmitter_of_state2 _ c _ (by exact s2)]
    exact case2_shift d t w' c k hk s2
  by_cases s3 : t.pt_state = 3
  · rw [pt_transmitter_of_state3 t c k s3, pt_transmitter_of_state3 _ c _ (by exact s3)]
    obtain ⟨hw, hw'⟩ := h3 s3
    have h := case3_shift t w' c k ((k + d) % ULONG_MOD) (by
      rw [hw']; exact elapsed_shift d k _ hw)
    refine ⟨w', h.1, ?_⟩
    rw [h.2]
    intro _
    exact ⟨hw, hw'⟩
  · rw [pt_transmitter_of_other t c k s0 s1 s2 s3,
      pt_transmitter_of_other _ c _ (by exact s0) (by exact s1) (by exact s2) (by exact s3)]
    exact ⟨w', rfl, fun h => absurd h s3⟩


theorem tx_only_round_shift (d : Nat) (s u : Sys) (h : ClockShift d s u) :
    ClockShift d (tx_only_round s) (tx_only_round u) := by
  obtain ⟨W, rfl, hk, h3⟩ := h
  obtain ⟨W2, e, h3'⟩ := pt_transmitter_shift d s.tx W s.ch s.ticks hk h3
  refine ⟨W2, ?_, tick_lt _, h3'⟩
  unfold tx_only_round
  simp only [e, tick_shift]

theorem scheduler_round_shift (d : Nat) (s u : Sys) (h : ClockShift d s u) :
    ClockShift d (scheduler_round s) (scheduler_round u) := by
  obtain ⟨W, rfl, hk, h3⟩ := h
  obtain ⟨W2, e, h3'⟩ :=
    pt_transmitter_shift d s.tx W (pt_receiver s.rx s.ch).2.2 s.ticks hk h3
  refine ⟨W2, ?_, tick_lt _, h3'⟩
  unfold scheduler_round
  simp only [e, tick_shift]

theorem tx_only_shift (d : Nat) (n : Nat) :
    ∀ s u, ClockShift d s u → ClockShift d (tx_only n s) (tx_only n u) := by
  induction n with
  | zero => intro s u h; exact h
  | succ n ih =>
    intro s u h
    rw [tx_only_succ, tx_only_succ]
    exact ih _ _ (tx_only_round_shift d s u h)

theorem clockShift_tx (d : Nat) (s u : Sys) (h : ClockShift d s u) :
    u.tx.finished = s.tx.finished ∧ u.tx.attempts = s.tx.attempts ∧ u.rx = s.rx ∧
    u.ch = s.ch := by
  obtain ⟨W, rfl, _, _⟩ := h
  exact ⟨rfl, rfl, rfl, rfl⟩

theorem run_scheduler_shift (d : Nat) (n : Nat) :
    ∀ s u, ClockShift d s u → ClockShift d (run_scheduler n s) (run_scheduler n u) := by
  induction n with
  | zero => intro s u h; exact h
  | succ n ih =>
    intro s u h
    have hr := scheduler_round_shift d s u h
    have hf := (clockShift_tx d _ _ hr).1
    by_cases hfin : (scheduler_round s).tx.finished = 0
    · rw [run_scheduler_continue _ _ hfin, run_scheduler_continue _ _ (by rw [hf]; exact hfin)]
      exact ih _ _ hr
    · rw [run_scheduler_stop _ _ hfin, run_scheduler_stop _ _ (by rw [hf]; exact hfin)]
      exact hr

theorem sys_fresh_shift (data : List Nat) (len ticks0 : Nat) (h : ticks0 < ULONG_MOD) :
    ClockShift ticks0 (sys_fresh data len 0) (sys_fresh data len ticks0) := by
  refine ⟨0, ?_, (show (0 : Nat) < ULONG_MOD by decide),
    fun h3 => absurd (show (0 : Int) = 3 from h3) (by decide)⟩
  rw [show (sys_fresh data len 0).ticks = 0 from rfl, Nat.zero_add, Nat.mod_eq_of_lt h]
  rfl

/-- The outcome of the missing-acknowledgment scenario does not depend on the clock
value it starts from. -/
theorem teste_retransmit_shift (x ticks0 : Nat) (h : ticks0 < ULONG_MOD) :
    (teste_retransmit_on_missing_ack x ticks0).tx.finished
      = (teste_retransmit_on_missing_ack x 0).tx.finished ∧
    (teste_retransmit_on_missing_ack x ticks0).tx.attempts
      = (teste_retransmit_on_missing_ack x 0).tx.attempts := by
  unfold teste_retransmit_on_missing_ack
  have h0 := sys_fresh_shift [x] 1 ticks0 h
  have h1 := tx_only_shift ticks0 (TIMEOUT_TICKS + 2) _ _ h0
  have h2 := run_scheduler_shift ticks0 200 _ _ h1
  have h3 := clockShift_tx _ _ _ h2
  exact ⟨h3.1, h3.2.1⟩

/-- The missing-acknowledgment scenario started at clock value 0, for all 256 one-byte
messages. -/
theorem teste_retransmit_at_zero :
    ∀ x, x < 256 →
      (teste_retransmit_on_missing_ack x 0).tx.finished = 1 ∧
      (x ≠ 7 → 2 ≤ (teste_retransmit_on_missing_ack x 0).tx.attempts) := by
  decide!

/-! ## Single steps, in general -/

/-- A receiver step that is not the acceptance of an end marker sends nothing and
returns 0. -/
theorem pt_receiver_quiet (r : receiver_t) (c : Channel)
    (h : ¬ (r.state = 4 ∧ c.buf[c.rd]? = some ETX)) :
    (pt_receiver r c).1 = 0 ∧ (pt_receiver r c).2.2.buf = c.buf := by
  by_cases hlt : c.rd < c.buf.length
  · have hb : c.buf[c.rd]? = some (c.buf[c.rd]) := List.getElem?_eq_getElem hlt
    have h4 : r.state = 4 → ¬ c.buf[c.rd] = ETX := by
      intro hs he
      exact h ⟨hs, by rw [hb, he]⟩
    unfold pt_receiver
    rw [get_byte_some hb]
    simp only []
    split_ifs <;> first | exact ⟨rfl, rfl⟩ | (exfalso; exact h4 (by assumption) (by assumption))
  · rw [pt_receiver_none r (by omega)]
    exact ⟨rfl, rfl⟩

/-! ## The scheduler loop -/

theorem rounds_zero (s : Sys) : rounds 0 s = s := rfl

theorem rounds_succ (n : Nat) (s : Sys) : rounds (n + 1) s = rounds n (scheduler_round s) :=
  Function.iterate_succ_apply scheduler_round n s

theorem rounds_ticks (n : Nat) (s : Sys) : (rounds n s).ticks = Nat.iterate tick n s.ticks := by
  induction n generalizing s with
  | zero => rfl
  | succ n ih => rw [rounds_succ, ih, Function.iterate_succ_apply]; rfl

theorem iterate_tick_eq (n x : Nat) (hx : x < ULONG_MOD) :
    Nat.iterate tick n x = (x + n) % ULONG_MOD := by
  induction n generalizing x with
  | zero => exact (Nat.mod_eq_of_lt hx).symm
  | succ n ih =>
    rw [Function.iterate_succ_apply, ih _ (tick_lt x)]
    unfold tick
    rw [ulong_mod_eq]
    omega

/-- The scheduler does what `run_scheduler_rounds` rounds do, and that number is
determined by the stop condition. -/
theorem run_scheduler_eq_rounds (n : Nat) :
    ∀ s : Sys,
      run_scheduler_rounds n s ≤ n ∧
      run_scheduler n s = rounds (run_scheduler_rounds n s) s ∧
      (∀ j, 0 < j → j < run_scheduler_rounds n s → (rounds j s).tx.finished = 0) ∧
      ((run_scheduler n s).tx.finished ≠ 0 ∨ run_scheduler_rounds n s = n) := by
  induction n with
  | zero =>
    intro s
    exact ⟨le_refl _, rfl, fun j h1 h2 => absurd h2 (by simp [run_scheduler_rounds]),
      Or.inr rfl⟩
  | succ n ih =>
    intro s
    by_cases hfin : (scheduler_round s).tx.finished = 0
    · obtain ⟨h1, h2, h3, h4⟩ := ih (scheduler_round s)
      have hk : run_scheduler_rounds (n + 1) s
          = run_scheduler_rounds n (scheduler_round s) + 1 := by
        simp [run_scheduler_rounds, hfin]
      rw [hk, run_scheduler_continue _ _ hfin, rounds_succ]
      refine ⟨by omega, h2, ?_, ?_⟩
      · intro j hj0 hj
        obtain ⟨i, rfl⟩ : ∃ i, j = i + 1 := ⟨j - 1, by omega⟩
        rw [rounds_succ]
        rcases Nat.eq_zero_or_pos i with hi | hi
        · subst hi; exact hfin
        · exact h3 i hi (by omega)
      · rcases h4 with h | h
        · exact Or.inl h
        · exact Or.inr (by omega)
    · have hk : run_scheduler_rounds (n + 1) s = 1 := by
        simp [run_scheduler_rounds, hfin]
      rw [hk, run_scheduler_stop _ _ hfin]
      exact ⟨by omega, rfl, fun j h1 h2 => absurd h2 (by omega), Or.inl hfin⟩

/-! ## Stray bytes before a frame -/

/-- In parse state 0 the receiver consumes bytes other than STX without changing. -/
theorem recv_steps_stray (r : receiver_t) (hr : r.state = 0) (s : List Nat)
    (hs : ∀ b ∈ s, b ≠ STX) (c : Channel) :
    ∀ k, k ≤ s.length → (∀ j < k, c.buf[c.rd + j]? = s[j]?) →
      recv_steps k (r, c) = (r, { c with rd := c.rd + k }) := by
  intro k
  induction k with
  | zero => intro _ _; rfl
  | succ k ih =>
    intro hk hpend
    have hkl : k < s.length := hk
    have hb : c.buf[c.rd + k]? = some (s[k]) := by
      rw [hpend k (by omega), List.getElem?_eq_getElem hkl]
    rw [recv_steps_succ, ih (by omega) (fun j hj => hpend j (by omega)), recv_step,
      pt_receiver_stray r hr (c := { c with rd := c.rd + k }) hb
        (hs _ (List.getElem_mem _))]
    rfl


/-! ## Steps that report the end -/

theorem case3_done (t : transmitter_t) (c : Channel) (ticks : Nat)
    (h : (pt_transmitter_case3 t c ticks).1 = 1) :
    (pt_transmitter_case3 t c ticks).2.1.pt_state = 99 ∧
    ((pt_transmitter_case3 t c ticks).2.1.finished = 1 ∨
      (pt_transmitter_case3 t c ticks).2.1.finished = -1) := by
  by_cases hlt : c.rd < c.buf.length
  · have hb : c.buf[c.rd]? = some (c.buf[c.rd]) := List.getElem?_eq_getElem hlt
    by_cases ha : c.buf[c.rd] = ACK
    · rw [ha] at hb
      rw [case3_ack t ticks hb]
      exact ⟨rfl, Or.inl rfl⟩
    · by_cases hn : c.buf[c.rd] = NACK
      · rw [hn] at hb
        rw [case3_nack t ticks hb] at h
        exact absurd (show (0 : Int) = 1 from h) (by decide)
      · rw [case3_stray t ticks hb ha hn] at h
        exact absurd (show (0 : Int) = 1 from h) (by decide)
  · rw [case3_none t ticks (by omega)] at h
    exact absurd (show (0 : Int) = 1 from h) (by decide)

theorem case2_done_outcome (t : transmitter_t) (c : Channel) (ticks : Nat)
    (h : (pt_transmitter_case2 t c ticks).1 = 1) :
    (pt_transmitter_case2 t c ticks).2.1.pt_state = 99 ∧
    ((pt_transmitter_case2 t c ticks).2.1.finished = 1 ∨
      (pt_transmitter_case2 t c ticks).2.1.finished = -1) := by
  by_cases hs : t.send_index < t.frame_len
  · rw [case2_send _ _ _ hs] at h
    exact absurd (show (0 : Int) = 1 from h) (by decide)
  · rw [case2_done _ _ _ hs] at h ⊢
    exact case3_done _ _ _ h

theorem case1_done (t : transmitter_t) (c : Channel) (ticks : Nat)
    (h : (pt_transmitter_case1 t c ticks).1 = 1) :
    (pt_transmitter_case1 t c ticks).2.1.pt_state = 99 ∧
    ((pt_transmitter_case1 t c ticks).2.1.finished = 1 ∨
      (pt_transmitter_case1 t c ticks).2.1.finished = -1) := by
  by_cases ha : t.attempts ≥ MAX_RETRIES
  · rw [case1_exhausted _ _ _ ha]
    exact ⟨rfl, Or.inr rfl⟩
  · rw [case1_arm _ _ _ ha] at h ⊢
    exact case2_done_outcome _ _ _ h

/-- A step of a transmitter in one of the states 0, 1, 2, 3 that returns 1 has put it
in the terminal state 99 with `finished` 1 or -1. -/
theorem pt_transmitter_done (t : transmitter_t) (c : Channel) (ticks : Nat)
    (hs : t.pt_state = 0 ∨ t.pt_state = 1 ∨ t.pt_state = 2 ∨ t.pt_state = 3)
    (h : (pt_transmitter t c ticks).1 = 1) :
    (pt_transmitter t c ticks).2.1.pt_state = 99 ∧
    ((pt_transmitter t c ticks).2.1.finished = 1 ∨
      (pt_transmitter t c ticks).2.1.finished = -1) := by
  rcases hs with h0 | h1 | h2 | h3
  · rw [pt_transmitter_of_state0 _ _ _ h0] at h ⊢
    unfold pt_transmitter_case0 at h ⊢
    exact case1_done _ _ _ h
  · rw [pt_transmitter_of_state1 _ _ _ h1] at h ⊢
    exact case1_done _ _ _ h
  · rw [pt_transmitter_of_state2 _ _ _ h2] at h ⊢
    exact case2_done_outcome _ _ _ h
  · rw [pt_transmitter_of_state3 _ _ _ h3] at h ⊢
    exact case3_done _ _ _ h

theorem pt_transmitter_terminal (t : transmitter_t) (c : Channel) (ticks : Nat)
    (h : t.pt_state = 99) : pt_transmitter t c ticks = (1, t, c) :=
  pt_transmitter_of_other _ _ _ (by rw [h]; decide) (by rw [h]; decide) (by rw [h]; decide)
    (by rw [h]; decide)

theorem tx_run_terminal (envs : List (Channel × Nat)) :
    ∀ t : transmitter_t, t.pt_state = 99 → tx_run t envs = t := by
  induction envs with
  | nil => intro t _; rfl
  | cons e es ih =>
    intro t h
    show tx_run (pt_transmitter t e.1 e.2).2.1 es = t
    rw [pt_transmitter_terminal t e.1 e.2 h]
    exact ih t h

/-! ## Round trip through `build_frame` and `pt_receiver` -/

/-- C1 (round trip, protothreads variant): for a payload `p` of at most 255 bytes, if the
bytes written by `build_frame` are pending on the channel and the receiver is in parse
state 0, then after one `pt_receiver` step per frame byte the receiver has `result = 1`,
`out_len = len` and `out[0 .. len)` equal to the payload. -/
theorem roundtrip_build_frame_pt_receiver (p : List Nat) (hp : IsBytes p)
    (hlen : p.length ≤ 255) (r : receiver_t) (hr : r.state = 0)
    (hout : r.out.length = MAX_LEN) (c : Channel) (rest : List Nat)
    (hc : c.buf.drop c.rd = frame_of p ++ rest) :
    (recv_steps (frame_of p).length (r, c)).1.result = 1 ∧
    (recv_steps (frame_of p).length (r, c)).1.out_len = p.length ∧
    (recv_steps (frame_of p).length (r, c)).1.out.take p.length = p := by
  have hfl := frame_of_length p hp hlen
  rw [hfl, recv_steps_frame_all r hr hout p hp hlen c
    (fun j hj => pending_get hc j (by omega)), rx_after_done]
  refine ⟨rfl, rfl, ?_⟩
  simp

/-- The round trip for the payload of `teste_transmit_receive_simple`. -/
theorem roundtrip_build_frame_pt_receiver_witness :
    (recv_steps (frame_of [0x10, 0x20, 0x30]).length
        (rx_fresh, { buf := frame_of [0x10, 0x20, 0x30], rd := 0 })).1.result = 1 ∧
    (recv_steps (frame_of [0x10, 0x20, 0x30]).length
        (rx_fresh, { buf := frame_of [0x10, 0x20, 0x30], rd := 0 })).1.out_len = 3 ∧
    (recv_steps (frame_of [0x10, 0x20, 0x30]).length
        (rx_fresh, { buf := frame_of [0x10, 0x20, 0x30], rd := 0 })).1.out.take 3
      = [0x10, 0x20, 0x30] :=
  roundtrip_build_frame_pt_receiver [0x10, 0x20, 0x30] (by decide) (by decide) rx_fresh
    rx_fresh_state rx_fresh_out_length { buf := frame_of [0x10, 0x20, 0x30], rd := 0 } []
    (by simp)

/-! ## Wire format -/

/-- C3 (wire format): for a payload `p` of `len ≤ 255` bytes, `build_frame` writes exactly
`len + 4` bytes into the destination buffer — STX (0x02), the length byte, the payload in
order, the XOR of `len` and all payload bytes, ETX (0x03) — leaves the rest of the buffer
untouched and returns `len + 4`. -/
theorem build_frame_wire_format (dst p : List Nat) (hp : IsBytes p) (hlen : p.length ≤ 255)
    (hdst : p.length + 4 ≤ dst.length) :
    (build_frame dst p p.length).2 = p.length + 4 ∧
    (build_frame dst p p.length).1.take (p.length + 4)
      = [0x02, p.length] ++ p ++ [p.foldl (fun a b => a ^^^ b) p.length, 0x03] ∧
    (build_frame dst p p.length).1.drop (p.length + 4) = dst.drop (p.length + 4) ∧
    (build_frame dst p p.length).1.length = dst.length := by
  rw [build_frame_spec dst p hp hlen hdst]
  refine ⟨rfl, ?_, ?_, ?_⟩
  · rw [List.take_append_of_le_length (by simp), List.take_of_length_le (by simp)]
    rfl
  · rw [List.drop_append_of_le_length (by simp), List.drop_of_length_le (by simp)]
    rfl
  · simp; omega

/-- The wire format of the frame of `[0x10, 0x20, 0x30]` in a buffer of eight bytes. -/
theorem build_frame_wire_format_witness :
    (build_frame (List.replicate 8 0xEE) [0x10, 0x20, 0x30] 3).2 = 7 ∧
    (build_frame (List.replicate 8 0xEE) [0x10, 0x20, 0x30] 3).1.take 7
      = [0x02, 3, 0x10, 0x20, 0x30, 0x03, 0x03] ∧
    (build_frame (List.replicate 8 0xEE) [0x10, 0x20, 0x30] 3).1.drop 7 = [0xEE] ∧
    (build_frame (List.replicate 8 0xEE) [0x10, 0x20, 0x30] 3).1.length = 8 :=
  build_frame_wire_format (List.replicate 8 0xEE) [0x10, 0x20, 0x30] (by decide) (by decide)
    (by decide)

/-! ## Rejection of damaged frames -/

/-- C4 (checksum corruption is rejected): for a payload `p` of at most 255 bytes and a
non-zero 8-bit `mask` XORed into the checksum byte of its frame, a receiver in parse state
0 stepped `n` times over the corrupted frame never appends a byte (so no ACK) to the
channel, never sets `result` to 1 (it keeps its previous value until the checksum byte is
read and is -1 afterwards), and once the checksum byte has been read (`n ≥ len + 3`)
has `result = -1` and is back in parse state 0. -/
theorem checksum_corruption_rejected (p : List Nat) (hp : IsBytes p) (hlen : p.length ≤ 255)
    (mask : Nat) (hmask : mask < 256) (hm0 : mask ≠ 0) (r : receiver_t) (hr : r.state = 0)
    (hout : r.out.length = MAX_LEN) (c : Channel)
    (hc : c.buf.drop c.rd = corrupt_chk (frame_of p) mask) (n : Nat) :
    (recv_steps n (r, c)).2.buf = c.buf ∧
    ((recv_steps n (r, c)).1.result = r.result ∨ (recv_steps n (r, c)).1.result = -1) ∧
    (r.result ≠ 1 → (recv_steps n (r, c)).1.result ≠ 1) ∧
    (p.length + 3 ≤ n →
      (recv_steps n (r, c)).1.result = -1 ∧ (recv_steps n (r, c)).1.state = 0) := by
  have hce := corrupt_chk_eq p hp hlen mask hmask
  rw [hce] at hc
  have hfe := frame_of_eq p hp hlen
  have hlenb := pending_length hc (by simp)
  have hcl : ([STX, p.length] ++ p ++ [xor_fold p.length p ^^^ mask, ETX]).length
      = p.length + 4 := by simp
  rw [hcl] at hlenb
  -- the bytes before the checksum are those of the frame
  have hpend : ∀ j < p.length + 2, c.buf[c.rd + j]? = (frame_of p)[j]? := by
    intro j hj
    have hj2 : j < ([STX, p.length] ++ p).length := by simp; omega
    rw [← List.getElem?_drop, hc, hfe, List.getElem?_append_left hj2,
      List.getElem?_append_left hj2]
  have hchk : c.buf[c.rd + (p.length + 2)]? = some (xor_fold p.length p ^^^ mask) := by
    rw [← List.getElem?_drop, hc, List.getElem?_append_right (by simp)]
    simp
  have hetx : c.buf[c.rd + (p.length + 2) + 1]? = some ETX := by
    rw [Nat.add_assoc, ← List.getElem?_drop, hc, List.getElem?_append_right (by simp)]
    simp
  have hA := recv_steps_frame r hr hout p hp hlen c
  -- the three kinds of run length
  rcases Nat.lt_or_ge n (p.length + 3) with h1 | h1
  · have hn := hA n (by omega) (fun j hj => hpend j (by omega))
    have hres := (rx_after_result r p n (by omega)).1
    rw [hn]
    exact ⟨rfl, Or.inl hres, fun h => by rw [hres]; exact h, fun h => by omega⟩
  · have h2 := hA (p.length + 2) (by omega) hpend
    have h3 : recv_steps (p.length + 3) (r, c)
        = ({ rx_after r p (p.length + 2) with result := -1, state := 0 },
            { c with rd := c.rd + (p.length + 2) + 1 }) := by
      rw [show p.length + 3 = (p.length + 2) + 1 from rfl, recv_steps_succ, h2, recv_step,
        pt_receiver_chk_bad (b := xor_fold p.length p ^^^ mask) _
          (by rw [rx_after_data r p p.length le_rfl]; simp) hchk
          (by rw [rx_after_data r p p.length le_rfl, List.take_length]
              exact xor_mask_ne _ _ hm0)]
    have h4 : recv_steps (p.length + 4) (r, c)
        = ({ rx_after r p (p.length + 2) with result := -1, state := 0 },
            { c with rd := c.rd + (p.length + 2) + 1 + 1 }) := by
      rw [show p.length + 4 = (p.length + 3) + 1 from rfl, recv_steps_succ, h3, recv_step,
        pt_receiver_stray (b := ETX) _ rfl hetx (by decide)]
    rcases Nat.lt_or_ge n (p.length + 4) with h5 | h5
    · have hn : n = p.length + 3 := by omega
      subst hn
      rw [h3]
      exact ⟨rfl, Or.inr rfl, fun _ => (by show (-1 : Int) ≠ 1; decide), fun _ => ⟨rfl, rfl⟩⟩
    · obtain ⟨d, rfl⟩ : ∃ d, n = (p.length + 4) + d := ⟨n - (p.length + 4), by omega⟩
      rw [recv_steps_add, h4, recv_steps_idle _ _ (by simp only []; omega)]
      exact ⟨rfl, Or.inr rfl, fun _ => (by show (-1 : Int) ≠ 1; decide), fun _ => ⟨rfl, rfl⟩⟩

/-- The run of `teste_checksum_error`: payload `[0xAA, 0xBB]`, mask `0xFF`, 50 steps. -/
theorem checksum_corruption_rejected_witness :
    (recv_steps 50 (rx_fresh, { buf := corrupt_chk (frame_of [0xAA, 0xBB]) 0xFF, rd := 0 })).2.buf
      = corrupt_chk (frame_of [0xAA, 0xBB]) 0xFF ∧
    ((recv_steps 50
        (rx_fresh, { buf := corrupt_chk (frame_of [0xAA, 0xBB]) 0xFF, rd := 0 })).1.result
        = rx_fresh.result ∨
      (recv_steps 50
        (rx_fresh, { buf := corrupt_chk (frame_of [0xAA, 0xBB]) 0xFF, rd := 0 })).1.result
        = -1) ∧
    (rx_fresh.result ≠ 1 →
      (recv_steps 50
        (rx_fresh, { buf := corrupt_chk (frame_of [0xAA, 0xBB]) 0xFF, rd := 0 })).1.result
        ≠ 1) ∧
    ([0xAA, 0xBB].length + 3 ≤ 50 →
      (recv_steps 50
        (rx_fresh, { buf := corrupt_chk (frame_of [0xAA, 0xBB]) 0xFF, rd := 0 })).1.result
        = -1 ∧
      (recv_steps 50
        (rx_fresh, { buf := corrupt_chk (frame_of [0xAA, 0xBB]) 0xFF, rd := 0 })).1.state
        = 0) :=
  checksum_corruption_rejected [0xAA, 0xBB] (by decide) (by decide) 0xFF (by decide)
    (by decide) rx_fresh rx_fresh_state rx_fresh_out_length
    { buf := corrupt_chk (frame_of [0xAA, 0xBB]) 0xFF, rd := 0 } (by simp) 50

/-- C5 (truncation is never accepted): for a payload `p` of at most 255 bytes and a strict
initial segment of its frame (`k < len + 4` bytes, in particular the frame without its
ETX) pending on the channel, a receiver in parse state 0 stepped `n` times never appends a
byte (so no ACK) to the channel and never touches `result` or `out_len`: no payload is
delivered. -/
theorem truncated_frame_never_accepted (p : List Nat) (hp : IsBytes p)
    (hlen : p.length ≤ 255) (k : Nat) (hk : k < p.length + 4) (r : receiver_t)
    (hr : r.state = 0) (hout : r.out.length = MAX_LEN) (c : Channel)
    (hc : c.buf.drop c.rd = (frame_of p).take k) (n : Nat) :
    (recv_steps n (r, c)).2.buf = c.buf ∧
    (recv_steps n (r, c)).1.result = r.result ∧
    (recv_steps n (r, c)).1.out_len = r.out_len ∧
    (r.result ≠ 1 → (recv_steps n (r, c)).1.result ≠ 1) := by
  have hfl := frame_of_length p hp hlen
  have htl : ((frame_of p).take k).length = k := by
    rw [List.length_take, hfl]; omega
  have hpend : ∀ j < k, c.buf[c.rd + j]? = (frame_of p)[j]? := by
    intro j hj
    rw [← List.getElem?_drop, hc, List.getElem?_take, if_pos hj]
  have hend : c.buf.length ≤ c.rd + k := by
    have h := pending_length_le hc
    omega
  have hrun := recv_steps_truncated r hr hout p hp hlen c k (by omega) hpend hend n
  have hres := rx_after_result r p (min n k) (by omega)
  rw [hrun]
  exact ⟨rfl, hres.1, hres.2, fun h => by rw [hres.1]; exact h⟩


/-- The run of `teste_etx_missing`: payload `[0x11]` without its ETX, 50 steps. -/
theorem truncated_frame_never_accepted_witness :
    (recv_steps 50 (rx_fresh, { buf := (frame_of [0x11]).take 4, rd := 0 })).2.buf
      = (frame_of [0x11]).take 4 ∧
    (recv_steps 50 (rx_fresh, { buf := (frame_of [0x11]).take 4, rd := 0 })).1.result
      = rx_fresh.result ∧
    (recv_steps 50 (rx_fresh, { buf := (frame_of [0x11]).take 4, rd := 0 })).1.out_len
      = rx_fresh.out_len ∧
    (rx_fresh.result ≠ 1 →
      (recv_steps 50 (rx_fresh, { buf := (frame_of [0x11]).take 4, rd := 0 })).1.result ≠ 1) :=
  truncated_frame_never_accepted [0x11] (by decide) (by decide) 4 (by decide) rx_fresh
    rx_fresh_state rx_fresh_out_length { buf := (frame_of [0x11]).take 4, rd := 0 } (by simp)
    50

/-! ## End-to-end delivery under the scheduler -/

/-- C2 (end-to-end delivery): for a payload `p` of at most 255 bytes, from an empty
channel, a transmitter in `pt_state` 0 holding `p` and a receiver in parse state 0,
`run_scheduler` with `max_iterations ≥ len + 5` ends with the transmitter successful
(`finished = 1`) on its first attempt (`attempts = 1`), the receiver having delivered
exactly the payload (`result = 1`, `out_len = len`, `out[0 .. len) = p`), and the channel
holding exactly the frame followed by one ACK byte. -/
theorem scheduler_delivers_payload (p : List Nat) (hp : IsBytes p) (hlen : p.length ≤ 255)
    (t : transmitter_t) (ht : t.pt_state = 0) (hd : t.data = p) (hl : t.len = p.length)
    (hf : t.frame.length = FRAME_SIZE) (r : receiver_t) (hr : r.state = 0)
    (hout : r.out.length = MAX_LEN) (ticks max_iterations : Nat)
    (hmax : p.length + 5 ≤ max_iterations) :
    (run_scheduler max_iterations
      { tx := t, rx := r, ch := reset_channel, ticks := ticks }).tx.finished = 1 ∧
    (run_scheduler max_iterations
      { tx := t, rx := r, ch := reset_channel, ticks := ticks }).tx.attempts = 1 ∧
    (run_scheduler max_iterations
      { tx := t, rx := r, ch := reset_channel, ticks := ticks }).rx.result = 1 ∧
    (run_scheduler max_iterations
      { tx := t, rx := r, ch := reset_channel, ticks := ticks }).rx.out_len = p.length ∧
    (run_scheduler max_iterations
      { tx := t, rx := r, ch := reset_channel, ticks := ticks }).rx.out.take p.length = p ∧
    (run_scheduler max_iterations
      { tx := t, rx := r, ch := reset_channel, ticks := ticks }).ch.buf
        = frame_of p ++ [ACK] := by
  obtain ⟨w, tk, h⟩ :=
    run_scheduler_fresh t r p hp hlen ht hd hl hf hr hout ticks max_iterations hmax
  rw [h]
  simp [sched_done, rx_after_done, tx_sending]

/-- The run of `teste_transmit_receive_simple`: payload `[0x10, 0x20, 0x30]`, 1000 iterations. -/
theorem scheduler_delivers_payload_witness :
    (run_scheduler 1000 (sys_fresh [0x10, 0x20, 0x30] 3 0)).tx.finished = 1 ∧
    (run_scheduler 1000 (sys_fresh [0x10, 0x20, 0x30] 3 0)).tx.attempts = 1 ∧
    (run_scheduler 1000 (sys_fresh [0x10, 0x20, 0x30] 3 0)).rx.result = 1 ∧
    (run_scheduler 1000 (sys_fresh [0x10, 0x20, 0x30] 3 0)).rx.out_len = 3 ∧
    (run_scheduler 1000 (sys_fresh [0x10, 0x20, 0x30] 3 0)).rx.out.take 3
      = [0x10, 0x20, 0x30] ∧
    (run_scheduler 1000 (sys_fresh [0x10, 0x20, 0x30] 3 0)).ch.buf
      = frame_of [0x10, 0x20, 0x30] ++ [ACK] :=
  scheduler_delivers_payload [0x10, 0x20, 0x30] (by decide) (by decide)
    (tx_fresh [0x10, 0x20, 0x30] 3) rfl rfl rfl (tx_fresh_frame_length _ _) rx_fresh
    rx_fresh_state rx_fresh_out_length 0 1000 (by decide)

/-! ## Invariants -/

/-- C8 (retry bound): in every state reached from a fresh transmitter (`pt_state` 0,
attempt counter zeroed) by any sequence of `pt_transmitter` steps, each step seeing an
arbitrary channel and an arbitrary clock value, `attempts ≤ MAX_RETRIES` (and
`attempts ≥ 0`). -/
theorem attempts_never_exceed_max_retries (t : transmitter_t) (ht : t.pt_state = 0)
    (ha : t.attempts = 0) (envs : List (Channel × Nat)) :
    0 ≤ (tx_run t envs).attempts ∧ (tx_run t envs).attempts ≤ MAX_RETRIES := by
  cases envs with
  | nil =>
    -- no step yet: the counter of the fresh context
    show 0 ≤ t.attempts ∧ t.attempts ≤ MAX_RETRIES
    rw [ha]
    decide
  | cons e es =>
    -- the first step leaves INIT and resets the counter; later steps keep the bound
    exact tx_run_attempts es _ (pt_transmitter_init_attempts t e.1 e.2 ht)

/-- The retry bound after two steps of a fresh transmitter on two unrelated channels. -/
theorem attempts_never_exceed_max_retries_witness :
    0 ≤ (tx_run (tx_fresh [0x55] 1)
          [(reset_channel, 0), ({ buf := [ACK], rd := 0 }, 7)]).attempts ∧
    (tx_run (tx_fresh [0x55] 1)
          [(reset_channel, 0), ({ buf := [ACK], rd := 0 }, 7)]).attempts ≤ MAX_RETRIES :=
  attempts_never_exceed_max_retries (tx_fresh [0x55] 1) rfl rfl
    [(reset_channel, 0), ({ buf := [ACK], rd := 0 }, 7)]

/-- C9 (resynchronisation on error): for every receiver context and every input byte
`b`, a `pt_receiver` step that finds a checksum mismatch (parse state 3, `b ≠ chk`) or a
wrong end marker (parse state 4, `b ≠ ETX`) leaves the receiver in parse state 0 with
`result = -1`, returns 0, and writes nothing to the channel. -/
theorem receiver_resyncs_on_error (r : receiver_t) (c : Channel) (b : Nat)
    (hb : c.buf[c.rd]? = some b)
    (herr : (r.state = 3 ∧ b ≠ r.chk) ∨ (r.state = 4 ∧ b ≠ ETX)) :
    (pt_receiver r c).1 = 0 ∧ (pt_receiver r c).2.1.state = 0 ∧
    (pt_receiver r c).2.1.result = -1 ∧ (pt_receiver r c).2.2.buf = c.buf := by
  rcases herr with ⟨hs, hne⟩ | ⟨hs, hne⟩
  · rw [pt_receiver_chk_bad r hs hb hne]
    exact ⟨rfl, rfl, rfl, rfl⟩
  · rw [pt_receiver_etx_bad r hs hb hne]
    exact ⟨rfl, rfl, rfl, rfl⟩

/-- A checksum mismatch: running checksum `0x11`, received byte `0xEE`. -/
theorem receiver_resyncs_on_error_witness :
    (pt_receiver { rx_fresh with state := 3, chk := 0x11 } { buf := [0xEE], rd := 0 }).1 = 0 ∧
    (pt_receiver { rx_fresh with state := 3, chk := 0x11 }
      { buf := [0xEE], rd := 0 }).2.1.state = 0 ∧
    (pt_receiver { rx_fresh with state := 3, chk := 0x11 }
      { buf := [0xEE], rd := 0 }).2.1.result = -1 ∧
    (pt_receiver { rx_fresh with state := 3, chk := 0x11 }
      { buf := [0xEE], rd := 0 }).2.2.buf = [0xEE] :=
  receiver_resyncs_on_error { rx_fresh with state := 3, chk := 0x11 }
    { buf := [0xEE], rd := 0 } 0xEE rfl (Or.inl ⟨rfl, by decide⟩)

/-! ## Negative acknowledgment -/

/-- C7, as stated, fails on a full channel: the transmitter `tx_waiting_example` is in
AWAIT_RESPONSE with `attempts = 1 < MAX_RETRIES`, holds the cached frame it has sent, and
the next unread byte of `full_channel_nack` is a NACK.  The first step returns it to
BUILD_AND_ARM and the second increments `attempts`, but `send_byte` drops the start
marker because `CHANNEL_SIZE` bytes were already written: nothing is appended. -/
theorem nack_retransmission_full_channel_counterexample :
    tx_waiting_example.pt_state = 3 ∧ tx_waiting_example.attempts < MAX_RETRIES ∧
    full_channel_nack.buf.length = CHANNEL_SIZE ∧
    full_channel_nack.buf[full_channel_nack.rd]? = some NACK ∧
    tx_waiting_example.frame.take tx_waiting_example.frame_len = frame_of [] ∧
    (pt_transmitter tx_waiting_example full_channel_nack 5).2.1.pt_state = 1 ∧
    (pt_transmitter (pt_transmitter tx_waiting_example full_channel_nack 5).2.1
        (pt_transmitter tx_waiting_example full_channel_nack 5).2.2 6).2.1.attempts
      = tx_waiting_example.attempts + 1 ∧
    (pt_transmitter (pt_transmitter tx_waiting_example full_channel_nack 5).2.1
        (pt_transmitter tx_waiting_example full_channel_nack 5).2.2 6).2.2.buf
      = full_channel_nack.buf ∧
    ¬ (pt_transmitter (pt_transmitter tx_waiting_example full_channel_nack 5).2.1
        (pt_transmitter tx_waiting_example full_channel_nack 5).2.2 6).2.2.buf
      = full_channel_nack.buf ++ [STX] := by
  decide!

/-- C7 (amended: NACK forces immediate retransmission when the channel has room): for
every transmitter in AWAIT_RESPONSE (`pt_state` 3) that holds the frame cached by
`build_frame`, with `attempts < MAX_RETRIES`, whose next unread channel byte is NACK, on
a channel with fewer than `CHANNEL_SIZE` bytes written, and for every clock value and
every `wait_start_tick`: the step consumes the NACK and returns the transmitter to
BUILD_AND_ARM (`pt_state` 1), and the next step increments `attempts` by one and appends
the first byte of the cached frame, STX, to the channel. -/
theorem nack_forces_retransmission (t : transmitter_t) (c : Channel) (ticks ticks2 : Nat)
    (hs : t.pt_state = 3) (ha : t.attempts < MAX_RETRIES)
    (hb : c.buf[c.rd]? = some NACK) (hcap : c.buf.length < CHANNEL_SIZE)
    (hp : IsBytes t.data) (hl : t.len = t.data.length) (hlen : t.len ≤ 255)
    (dst : List Nat) (hdst : dst.length = FRAME_SIZE)
    (hfr : build_frame dst t.data t.len = (t.frame, t.frame_len)) :
    pt_transmitter t c ticks = (0, { t with pt_state := 1 }, { c with rd := c.rd + 1 }) ∧
    pt_transmitter { t with pt_state := 1 } { c with rd := c.rd + 1 } ticks2
      = (0, { t with attempts := t.attempts + 1, send_index := 1, pt_state := 2 },
          { buf := c.buf ++ [STX], rd := c.rd + 1 }) := by
  rw [hl] at hfr hlen
  have hd4 : t.data.length + 4 ≤ dst.length := by rw [hdst, frame_size_eq]; omega
  have hbt := build_frame_take dst t.data hp hlen hd4
  have h0 := cached_frame_getD dst t.data hp hlen hd4 0 (by omega)
  rw [frame_get_stx t.data hp hlen, hfr] at h0
  rw [hfr] at hbt
  have h0' : t.frame.getD 0 0 = STX := Option.some.inj h0
  have hfl : 0 < t.frame_len := by
    have := hbt.1
    simp only [] at this
    omega
  constructor
  · rw [pt_transmitter_of_state3 t c ticks hs, case3_nack t ticks hb]
  · rw [pt_transmitter_of_state1 _ _ _ rfl, case1_arm _ _ _ (by simpa using ha),
      case2_send _ _ _ hfl, send_byte_free (c := { c with rd := c.rd + 1 }) _ hcap]
    simp only [h0']

/-- A NACK read from a channel with room: the start marker is appended. -/
theorem nack_forces_retransmission_witness :
    pt_transmitter tx_waiting_example { buf := [NACK], rd := 0 } 0
      = (0, { tx_waiting_example with pt_state := 1 }, { buf := [NACK], rd := 0 + 1 }) ∧
    pt_transmitter { tx_waiting_example with pt_state := 1 } { buf := [NACK], rd := 0 + 1 } 1
      = (0, { tx_waiting_example with
                attempts := tx_waiting_example.attempts + 1, send_index := 1, pt_state := 2 },
          { buf := [NACK] ++ [STX], rd := 0 + 1 }) :=
  nack_forces_retransmission tx_waiting_example { buf := [NACK], rd := 0 } 0 1 rfl
    (by decide) rfl (by decide) (by decide) rfl (by decide) (List.replicate FRAME_SIZE 0)
    (List.length_replicate _ _) rfl

/-! ## Retransmission -/

/-- C6, as stated, fails for the payload of six zero bytes: its length byte is 0x06,
the value of ACK.  The transmitter running alone reads its own frame back from the shared
channel, takes the length byte for an acknowledgment and reports success after a single
transmission (12 steps).  It stays in that outcome (for instance after
`3 * 6 + 31 = 49` steps), with one copy of the frame on the channel, and never reports
retry-exhausted, however long it is stepped. -/
theorem retry_exhaustion_length_six_counterexample :
    (tx_only 12 (sys_fresh [0, 0, 0, 0, 0, 0] 6 0)).tx.finished = 1 ∧
    (tx_only 49 (sys_fresh [0, 0, 0, 0, 0, 0] 6 0)).tx.finished = 1 ∧
    (tx_only 49 (sys_fresh [0, 0, 0, 0, 0, 0] 6 0)).tx.attempts = 1 ∧
    (tx_only 49 (sys_fresh [0, 0, 0, 0, 0, 0] 6 0)).ch.buf = frame_of [0, 0, 0, 0, 0, 0] ∧
    ¬ ((tx_only 49 (sys_fresh [0, 0, 0, 0, 0, 0] 6 0)).tx.finished = -1 ∧
        (tx_only 49 (sys_fresh [0, 0, 0, 0, 0, 0] 6 0)).ch.buf
          = frame_of [0, 0, 0, 0, 0, 0] ++ frame_of [0, 0, 0, 0, 0, 0]
              ++ frame_of [0, 0, 0, 0, 0, 0]) ∧
    ¬ ∃ n, (tx_only n (sys_fresh [0, 0, 0, 0, 0, 0] 6 0)).tx.finished = -1 := by
  refine ⟨by decide!, by decide!, by decide!, by decide!, by decide!, ?_⟩
  rintro ⟨n, hn⟩
  rcases Nat.lt_or_ge n 12 with h | h
  · have hsmall : ∀ m, m < 12 →
        (tx_only m (sys_fresh [0, 0, 0, 0, 0, 0] 6 0)).tx.finished ≠ -1 := by decide!
    exact hsmall n h hn
  · obtain ⟨d, rfl⟩ : ∃ d, n = 12 + d := ⟨n - 12, by omega⟩
    rw [tx_only_add,
      (tx_only_finished d (tx_only 12 (sys_fresh [0, 0, 0, 0, 0, 0] 6 0)) (by decide!)).1] at hn
    exact absurd hn (by decide!)

/-- C6 (amended: retry exhaustion without a response, when no ACK is read back): a
transmitter running alone reads its own frame back while it waits; the bytes it consumes,
`lone_reads`, are an initial segment of at most 18 bytes of three copies of the frame
(six polls per wait, a wait being cut short by a NACK).  For a payload `p` of at most 255
bytes, from an empty channel and a transmitter in `pt_state` 0 holding `p`, when only
`pt_transmitter` is stepped (each step followed by one tick), after `3 * len + 31` steps
or more the transmitter reports retry-exhausted (`finished = -1`) if and only if none of
the bytes read back is ACK (0x06); the channel then holds exactly `MAX_RETRIES = 3`
consecutive copies of the frame and `attempts = 3`.  When one of them is ACK the
transmitter reports success instead.  When none of them is ACK or NACK (0x15), every
retransmission follows a timeout: one step earlier the third wait has just timed out,
the three copies are on the channel and the transmitter, in BUILD_AND_ARM, has not
reported anything yet. -/
theorem retry_exhaustion_without_response (p : List Nat) (hp : IsBytes p)
    (hlen : p.length ≤ 255) (t : transmitter_t)
    (ht : t.pt_state = 0) (hd : t.data = p) (hl : t.len = p.length)
    (hf : t.frame.length = FRAME_SIZE) (rx : receiver_t) (ticks n : Nat)
    (hn : 3 * p.length + 31 ≤ n) :
    (lone_reads (frame_of p)
        = (frame_of p ++ frame_of p ++ frame_of p).take (lone_reads (frame_of p)).length ∧
      (lone_reads (frame_of p)).length ≤ 18) ∧
    ((tx_only n { tx := t, rx := rx, ch := reset_channel, ticks := ticks }).tx.finished = -1
      ↔ ACK ∉ lone_reads (frame_of p)) ∧
    (ACK ∉ lone_reads (frame_of p) →
      (tx_only n { tx := t, rx := rx, ch := reset_channel, ticks := ticks }).tx.attempts
        = MAX_RETRIES ∧
      (tx_only n { tx := t, rx := rx, ch := reset_channel, ticks := ticks }).ch
        = { buf := frame_of p ++ frame_of p ++ frame_of p,
            rd := (lone_reads (frame_of p)).length }) ∧
    (ACK ∈ lone_reads (frame_of p) →
      (tx_only n { tx := t, rx := rx, ch := reset_channel, ticks := ticks }).tx.finished
        = 1) ∧
    (ACK ∉ lone_reads (frame_of p) → NACK ∉ lone_reads (frame_of p) →
      (tx_only (3 * p.length + 30)
        { tx := t, rx := rx, ch := reset_channel, ticks := ticks }).tx.finished = 0 ∧
      (tx_only (3 * p.length + 30)
        { tx := t, rx := rx, ch := reset_channel, ticks := ticks }).tx.pt_state = 1 ∧
      (tx_only (3 * p.length + 30)
        { tx := t, rx := rx, ch := reset_channel, ticks := ticks }).ch.buf
          = frame_of p ++ frame_of p ++ frame_of p) := by
  obtain ⟨hS, hE⟩ := tx_alone_outcome t p hp hlen ht hd hl hf rx ticks
  have hyes : ACK ∈ lone_reads (frame_of p) →
      (tx_only n { tx := t, rx := rx, ch := reset_channel, ticks := ticks }).tx.finished
        = 1 := by
    intro hc
    obtain ⟨k, hk, h99, hfin⟩ := hS hc
    obtain ⟨d, rfl⟩ : ∃ d, n = k + d := ⟨n - k, by omega⟩
    rw [tx_only_add, (tx_only_finished d _ h99).1]
    exact hfin
  have hno : ACK ∉ lone_reads (frame_of p) → ∃ w,
      (tx_only n { tx := t, rx := rx, ch := reset_channel, ticks := ticks }).tx
        = tx_failed t p w ∧
      (tx_only n { tx := t, rx := rx, ch := reset_channel, ticks := ticks }).ch
        = { buf := frame_of p ++ frame_of p ++ frame_of p,
            rd := (lone_reads (frame_of p)).length } := by
    intro hc
    obtain ⟨k, hk, _, w, tk, hrun⟩ := hE hc
    have hX := tx_only_round_eq
      { tx := tx_armed t p 3 w, rx := rx,
        ch := { buf := frame_of p ++ frame_of p ++ frame_of p,
                rd := (lone_reads (frame_of p)).length }, ticks := tk }
      _ _ _ (tx_step_exhausted t p w
        { buf := frame_of p ++ frame_of p ++ frame_of p,
          rd := (lone_reads (frame_of p)).length } tk)
    have e := (tx_only_add k 1 _).trans ((congrArg (tx_only 1) hrun).trans hX)
    obtain ⟨d, rfl⟩ : ∃ d, n = (k + 1) + d := ⟨n - (k + 1), by omega⟩
    refine ⟨w, ?_, ?_⟩
    · rw [tx_only_add, e, (tx_only_finished d _ rfl).1]
    · rw [tx_only_add, e, (tx_only_finished d _ rfl).2]
  refine ⟨lone_reads_take (frame_of p), ⟨fun h => ?_, fun hc => ?_⟩, fun hc => ?_, hyes,
    fun hc hn2 => ?_⟩
  · intro hc
    rw [hyes hc] at h
    exact absurd h (by decide)
  · obtain ⟨w, h1, _⟩ := hno hc
    rw [h1]
    rfl
  · obtain ⟨w, h1, h2⟩ := hno hc
    rw [h1]
    exact ⟨rfl, h2⟩
  · obtain ⟨k, _, hex, w, tk, hrun⟩ := hE hc
    rw [hex hn2] at hrun
    rw [hrun]
    exact ⟨rfl, rfl, rfl⟩

/-- Retry exhaustion for the payload of nineteen zero bytes followed by 0x06: the ACK
value is the 22nd byte of the frame, beyond the 18 bytes the transmitter reads back. -/
theorem retry_exhaustion_without_response_witness :
    IsBytes (List.replicate 19 0 ++ [6]) ∧
    ACK ∈ frame_of (List.replicate 19 0 ++ [6]) ∧
    ACK ∉ lone_reads (frame_of (List.replicate 19 0 ++ [6])) ∧
    (tx_only 91 { tx := tx_fresh (List.replicate 19 0 ++ [6]) 20, rx := rx_fresh,
                  ch := reset_channel, ticks := 0 }).tx.finished = -1 ∧
    ((tx_only 91 { tx := tx_fresh (List.replicate 19 0 ++ [6]) 20, rx := rx_fresh,
                   ch := reset_channel, ticks := 0 }).tx.attempts = MAX_RETRIES ∧
      (tx_only 91 { tx := tx_fresh (List.replicate 19 0 ++ [6]) 20, rx := rx_fresh,
                    ch := reset_channel, ticks := 0 }).ch
        = { buf := frame_of (List.replicate 19 0 ++ [6])
                    ++ frame_of (List.replicate 19 0 ++ [6])
                    ++ frame_of (List.replicate 19 0 ++ [6]),
            rd := (lone_reads (frame_of (List.replicate 19 0 ++ [6]))).length }) ∧
    ((tx_only (3 * (List.replicate 19 0 ++ [6]).length + 30)
        { tx := tx_fresh (List.replicate 19 0 ++ [6]) 20, rx := rx_fresh,
          ch := reset_channel, ticks := 0 }).tx.finished = 0 ∧
      (tx_only (3 * (List.replicate 19 0 ++ [6]).length + 30)
        { tx := tx_fresh (List.replicate 19 0 ++ [6]) 20, rx := rx_fresh,
          ch := reset_channel, ticks := 0 }).tx.pt_state = 1 ∧
      (tx_only (3 * (List.replicate 19 0 ++ [6]).length + 30)
        { tx := tx_fresh (List.replicate 19 0 ++ [6]) 20, rx := rx_fresh,
          ch := reset_channel, ticks := 0 }).ch.buf
          = frame_of (List.replicate 19 0 ++ [6]) ++ frame_of (List.replicate 19 0 ++ [6])
              ++ frame_of (List.replicate 19 0 ++ [6])) :=
  ⟨by decide, by decide!, by decide!,
    (retry_exhaustion_without_response (List.replicate 19 0 ++ [6]) (by decide) (by decide)
      (tx_fresh (List.replicate 19 0 ++ [6]) 20) rfl rfl (by decide) (tx_fresh_frame_length _ _)
      rx_fresh 0 91 (by decide)).2.1.mpr (by decide!),
    (retry_exhaustion_without_response (List.replicate 19 0 ++ [6]) (by decide) (by decide)
      (tx_fresh (List.replicate 19 0 ++ [6]) 20) rfl rfl (by decide) (tx_fresh_frame_length _ _)
      rx_fresh 0 91 (by decide)).2.2.1 (by decide!),
    (retry_exhaustion_without_response (List.replicate 19 0 ++ [6]) (by decide) (by decide)
      (tx_fresh (List.replicate 19 0 ++ [6]) 20) rfl rfl (by decide) (tx_fresh_frame_length _ _)
      rx_fresh 0 91 (by decide)).2.2.2.2 (by decide!) (by decide!)⟩

/-- C10, as stated, fails for the one-byte message 0x07: its checksum byte is
`0x01 ^ 0x07 = 0x06`, the value of ACK.  After its seven ticks alone the transmitter is
waiting and has read back the first two bytes of its own frame; in the first common round
the receiver discards the payload byte and the transmitter reads the checksum byte as an
acknowledgment.  It reports success with `attempts = 1`, without any retransmission, and
the receiver has delivered nothing. -/
theorem retransmit_scenario_payload_seven_counterexample :
    (teste_retransmit_on_missing_ack 0x07 0).tx.finished = 1 ∧
    (teste_retransmit_on_missing_ack 0x07 0).tx.attempts = 1 ∧
    ¬ (2 ≤ (teste_retransmit_on_missing_ack 0x07 0).tx.attempts) ∧
    (teste_retransmit_on_missing_ack 0x07 0).ch.buf = frame_of [0x07] ∧
    (teste_retransmit_on_missing_ack 0x07 0).rx.result = 0 := by
  decide!

/-- C10 (amended: recovery by retransmission after a missing acknowledgment): for every
one-byte message `[x]`, from an empty channel, a fresh transmitter and a fresh receiver
and any clock value, if the transmitter alone is stepped for `TIMEOUT_TICKS + 2 = 7`
ticks and then receiver-then-transmitter rounds are run for up to 200 ticks, the
transmitter finishes with outcome success (`finished = 1`); for every message byte other
than 0x07 it does so after at least one retransmission (`attempts ≥ 2`). -/
theorem retransmission_after_missing_ack (x : Nat) (hx : x < 256) (ticks0 : Nat)
    (ht : ticks0 < ULONG_MOD) :
    (teste_retransmit_on_missing_ack x ticks0).tx.finished = 1 ∧
    (x ≠ 7 → 2 ≤ (teste_retransmit_on_missing_ack x ticks0).tx.attempts) := by
  have h0 := teste_retransmit_at_zero x hx
  have hs := teste_retransmit_shift x ticks0 ht
  rw [hs.1, hs.2]
  exact h0

/-- The run of `teste_retransmit_on_missing_ack`: payload `[0x55]`, started at tick 8. -/
theorem retransmission_after_missing_ack_witness :
    (teste_retransmit_on_missing_ack 0x55 8).tx.finished = 1 ∧
    (0x55 ≠ 7 → 2 ≤ (teste_retransmit_on_missing_ack 0x55 8).tx.attempts) :=
  retransmission_after_missing_ack 0x55 (by decide) 8 (by decide)


/-! ## Single-step behaviour -/

/-- C13 (acknowledgment emission): for every receiver context and every channel with
free capacity, a single `pt_receiver` step changes the written part of the channel if
and only if the receiver is in READ_END (parse state 4) and the byte it consumes is ETX;
in that case it appends exactly one byte, ACK, sets `result = 1` and
`out_len = expected_len`, goes back to parse state 0 and returns 1; in every other case
it appends nothing and returns 0. -/
theorem ack_emitted_iff_end_marker_accepted (r : receiver_t) (c : Channel)
    (hcap : c.buf.length < CHANNEL_SIZE) :
    ((pt_receiver r c).2.2.buf ≠ c.buf ↔ (r.state = 4 ∧ c.buf[c.rd]? = some ETX)) ∧
    ((r.state = 4 ∧ c.buf[c.rd]? = some ETX) →
      pt_receiver r c
        = (1, { r with out_len := r.expected_len, result := 1, state := 0 },
            { buf := c.buf ++ [0x06], rd := c.rd + 1 })) ∧
    (¬ (r.state = 4 ∧ c.buf[c.rd]? = some ETX) →
      (pt_receiver r c).1 = 0 ∧ (pt_receiver r c).2.2.buf = c.buf) := by
  have hyes : (r.state = 4 ∧ c.buf[c.rd]? = some ETX) →
      pt_receiver r c
        = (1, { r with out_len := r.expected_len, result := 1, state := 0 },
            { buf := c.buf ++ [0x06], rd := c.rd + 1 }) := by
    rintro ⟨hs, hb⟩
    rw [pt_receiver_etx_ok r hs hb, send_byte_free (c := { c with rd := c.rd + 1 }) _ hcap]
    rfl
  refine ⟨⟨?_, ?_⟩, hyes, pt_receiver_quiet r c⟩
  · intro hne
    by_contra hcond
    exact hne (pt_receiver_quiet r c hcond).2
  · intro hcond heq
    rw [hyes hcond] at heq
    have := congrArg List.length heq
    simp at this

/-- A receiver waiting for the end marker reads ETX from a channel holding one frame. -/
theorem ack_emitted_iff_end_marker_accepted_witness :
    ((pt_receiver { rx_fresh with state := 4 } { buf := frame_of [], rd := 3 }).2.2.buf
        ≠ frame_of [] ↔
      (({ rx_fresh with state := 4 } : receiver_t).state = 4 ∧
        (frame_of [])[3]? = some ETX)) ∧
    ((({ rx_fresh with state := 4 } : receiver_t).state = 4 ∧
        (frame_of [])[3]? = some ETX) →
      pt_receiver { rx_fresh with state := 4 } { buf := frame_of [], rd := 3 }
        = (1, { ({ rx_fresh with state := 4 } : receiver_t) with
                  out_len := ({ rx_fresh with state := 4 } : receiver_t).expected_len,
                  result := 1, state := 0 },
            { buf := frame_of [] ++ [0x06], rd := 3 + 1 })) ∧
    (¬ (({ rx_fresh with state := 4 } : receiver_t).state = 4 ∧
        (frame_of [])[3]? = some ETX) →
      (pt_receiver { rx_fresh with state := 4 } { buf := frame_of [], rd := 3 }).1 = 0 ∧
      (pt_receiver { rx_fresh with state := 4 } { buf := frame_of [], rd := 3 }).2.2.buf
        = frame_of []) :=
  ack_emitted_iff_end_marker_accepted { rx_fresh with state := 4 }
    { buf := frame_of [], rd := 3 } (by decide!)

/-- C14 (acknowledgment beats timeout): for every transmitter in AWAIT_RESPONSE
(`pt_state` 3) whose next unread channel byte is ACK, and for every clock value and
every `wait_start_tick` (also when `TIMEOUT_TICKS` or more ticks have elapsed), the step
consumes the byte, ends with outcome success (`finished = 1`, terminal state 99) and
returns 1; `attempts` and all other fields are unchanged. -/
theorem ack_beats_timeout (t : transmitter_t) (c : Channel) (ticks : Nat)
    (hs : t.pt_state = 3) (hb : c.buf[c.rd]? = some ACK) :
    pt_transmitter t c ticks
      = (1, { t with finished := 1, pt_state := 99 }, { c with rd := c.rd + 1 }) ∧
    (pt_transmitter t c ticks).2.1.attempts = t.attempts := by
  rw [pt_transmitter_of_state3 t c ticks hs, case3_ack t ticks hb]
  exact ⟨rfl, rfl⟩

/-- An ACK read 96 ticks after the wait started. -/
theorem ack_beats_timeout_witness :
    pt_transmitter tx_waiting_example { buf := [ACK], rd := 0 } 100
      = (1, { tx_waiting_example with finished := 1, pt_state := 99 },
          { buf := [ACK], rd := 0 + 1 }) ∧
    (pt_transmitter tx_waiting_example { buf := [ACK], rd := 0 } 100).2.1.attempts
      = tx_waiting_example.attempts :=
  ack_beats_timeout tx_waiting_example { buf := [ACK], rd := 0 } 100 rfl rfl

/-- C16 (timeout threshold): for every transmitter in AWAIT_RESPONSE (`pt_state` 3) when
no byte is available on the channel, the step returns the transmitter to BUILD_AND_ARM
(`pt_state` 1, nothing else changed) if and only if the elapsed tick count
`ticks - wait_start_tick`, computed in `unsigned long` arithmetic, is at least
`TIMEOUT_TICKS` (5); otherwise the context is left unchanged; in both cases the channel
is unchanged and the step returns 0. -/
theorem timeout_threshold (t : transmitter_t) (c : Channel) (ticks : Nat)
    (hs : t.pt_state = 3) (hnone : c.buf.length ≤ c.rd) :
    (pt_transmitter t c ticks).1 = 0 ∧
    (pt_transmitter t c ticks).2.2 = c ∧
    ((pt_transmitter t c ticks).2.1.pt_state = 1
      ↔ 5 ≤ (ticks + ULONG_MOD - t.wait_start_tick) % ULONG_MOD) ∧
    (5 ≤ (ticks + ULONG_MOD - t.wait_start_tick) % ULONG_MOD →
      (pt_transmitter t c ticks).2.1 = { t with pt_state := 1 }) ∧
    (¬ 5 ≤ (ticks + ULONG_MOD - t.wait_start_tick) % ULONG_MOD →
      (pt_transmitter t c ticks).2.1 = t) := by
  rw [pt_transmitter_of_state3 t c ticks hs, case3_none t ticks hnone]
  have hT : TIMEOUT_TICKS = 5 := rfl
  rw [hT]
  by_cases he : (ticks + ULONG_MOD - t.wait_start_tick) % ULONG_MOD ≥ 5
  · rw [if_pos he]
    exact ⟨rfl, rfl, ⟨fun _ => he, fun _ => rfl⟩, fun _ => rfl, fun h => absurd he h⟩
  · rw [if_neg he]
    refine ⟨rfl, rfl, ⟨fun h => ?_, fun h => absurd h he⟩, fun h => absurd h he, fun _ => rfl⟩
    rw [hs] at h
    exact absurd h (by decide)

/-- A wait started at tick 4, polled at tick 9 on an empty channel: the timeout. -/
theorem timeout_threshold_witness :
    (pt_transmitter tx_waiting_example reset_channel 9).1 = 0 ∧
    (pt_transmitter tx_waiting_example reset_channel 9).2.2 = reset_channel ∧
    ((pt_transmitter tx_waiting_example reset_channel 9).2.1.pt_state = 1
      ↔ 5 ≤ (9 + ULONG_MOD - tx_waiting_example.wait_start_tick) % ULONG_MOD) ∧
    (5 ≤ (9 + ULONG_MOD - tx_waiting_example.wait_start_tick) % ULONG_MOD →
      (pt_transmitter tx_waiting_example reset_channel 9).2.1
        = { tx_waiting_example with pt_state := 1 }) ∧
    (¬ 5 ≤ (9 + ULONG_MOD - tx_waiting_example.wait_start_tick) % ULONG_MOD →
      (pt_transmitter tx_waiting_example reset_channel 9).2.1 = tx_waiting_example) :=
  timeout_threshold tx_waiting_example reset_channel 9 rfl (by decide)

/-- C17 (one byte per SENDING step): for every transmitter in SENDING (`pt_state` 2)
with `send_index < frame_len` and a channel with free capacity, a single
`pt_transmitter` step appends exactly the one byte `frame[send_index]` to the channel,
advances `send_index` by one, consumes no channel byte (the read index is unchanged),
leaves every other field of the context (cached frame, `frame_len`, `attempts`, ...)
unchanged, and returns 0. -/
theorem one_byte_per_sending_step (t : transmitter_t) (c : Channel) (ticks : Nat)
    (hs : t.pt_state = 2) (hi : t.send_index < t.frame_len)
    (hcap : c.buf.length < CHANNEL_SIZE) :
    pt_transmitter t c ticks
      = (0, { t with send_index := t.send_index + 1 },
          { buf := c.buf ++ [t.frame.getD t.send_index 0], rd := c.rd }) := by
  rw [pt_transmitter_of_state2 t c ticks hs, case2_send t c ticks hi, send_byte_free _ hcap]

/-- The second byte of the frame of the empty payload goes out. -/
theorem one_byte_per_sending_step_witness :
    pt_transmitter (tx_sending (tx_fresh [] 0) [] 1 1 0) { buf := [STX], rd := 0 } 1
      = (0, { tx_sending (tx_fresh [] 0) [] 1 1 0 with
                send_index := (tx_sending (tx_fresh [] 0) [] 1 1 0).send_index + 1 },
          { buf := [STX] ++ [(tx_sending (tx_fresh [] 0) [] 1 1 0).frame.getD
                      (tx_sending (tx_fresh [] 0) [] 1 1 0).send_index 0],
            rd := 0 }) :=
  one_byte_per_sending_step (tx_sending (tx_fresh [] 0) [] 1 1 0) { buf := [STX], rd := 0 } 1
    rfl (by decide) (by decide)


/-- C15, as stated, fails when the timeout has expired: `tx_late_wait_example` is the
lone transmitter of the message `[0x55, 0x55]` after eleven steps, in AWAIT_RESPONSE
since tick 6, at tick 11.  Its next unread byte is the ETX of its own frame, neither ACK
nor NACK.  The step reads that byte and, having ignored it, goes on to the timeout
check: five ticks have elapsed, so the transmitter returns to BUILD_AND_ARM instead of
staying in AWAIT_RESPONSE. -/
theorem stray_byte_timeout_counterexample :
    tx_late_wait_example.tx.pt_state = 3 ∧
    tx_late_wait_example.tx.wait_start_tick = 6 ∧ tx_late_wait_example.ticks = 11 ∧
    tx_late_wait_example.ch.buf[tx_late_wait_example.ch.rd]? = some ETX ∧
    ETX ≠ ACK ∧ ETX ≠ NACK ∧
    (pt_transmitter tx_late_wait_example.tx tx_late_wait_example.ch
        tx_late_wait_example.ticks).2.2.rd = tx_late_wait_example.ch.rd + 1 ∧
    (pt_transmitter tx_late_wait_example.tx tx_late_wait_example.ch
        tx_late_wait_example.ticks).2.1.pt_state = 1 ∧
    ¬ (pt_transmitter tx_late_wait_example.tx tx_late_wait_example.ch
        tx_late_wait_example.ticks).2.1.pt_state = 3 := by
  decide!

/-- C15 (amended: a stray byte is ignored, then the timeout is checked): for every
transmitter in AWAIT_RESPONSE (`pt_state` 3) and every clock value and
`wait_start_tick`, a step that reads a byte that is neither ACK nor NACK consumes it and
otherwise behaves as if nothing had been read: the transmitter stays in AWAIT_RESPONSE,
unchanged, exactly when fewer than `TIMEOUT_TICKS` ticks have elapsed, and returns to
BUILD_AND_ARM (`pt_state` 1) when `TIMEOUT_TICKS` or more have elapsed; the step
returns 0 and nothing is written to the channel. -/
theorem stray_byte_ignored_then_timeout_check (t : transmitter_t) (c : Channel)
    (ticks b : Nat) (hs : t.pt_state = 3) (hb : c.buf[c.rd]? = some b) (hack : b ≠ ACK)
    (hnack : b ≠ NACK) :
    (pt_transmitter t c ticks).1 = 0 ∧
    (pt_transmitter t c ticks).2.2 = { c with rd := c.rd + 1 } ∧
    ((pt_transmitter t c ticks).2.1.pt_state = 3
      ↔ (ticks + ULONG_MOD - t.wait_start_tick) % ULONG_MOD < 5) ∧
    ((ticks + ULONG_MOD - t.wait_start_tick) % ULONG_MOD < 5 →
      (pt_transmitter t c ticks).2.1 = t) ∧
    (5 ≤ (ticks + ULONG_MOD - t.wait_start_tick) % ULONG_MOD →
      (pt_transmitter t c ticks).2.1 = { t with pt_state := 1 }) := by
  rw [pt_transmitter_of_state3 t c ticks hs, case3_stray t ticks hb hack hnack]
  have hT : TIMEOUT_TICKS = 5 := rfl
  rw [hT]
  by_cases he : (ticks + ULONG_MOD - t.wait_start_tick) % ULONG_MOD ≥ 5
  · rw [if_pos he]
    refine ⟨rfl, rfl, ⟨fun h => ?_, fun h => ?_⟩, fun h => ?_, fun _ => rfl⟩
    · exact absurd (show (1 : Int) = 3 from h) (by decide)
    · omega
    · omega
  · rw [if_neg he]
    exact ⟨rfl, rfl, ⟨fun _ => by omega, fun _ => hs⟩, fun _ => rfl, fun h => absurd h he⟩

/-- A stray byte read one tick after the wait started: the transmitter keeps waiting. -/
theorem stray_byte_ignored_then_timeout_check_witness :
    (pt_transmitter tx_waiting_example { buf := [STX], rd := 0 } 5).1 = 0 ∧
    (pt_transmitter tx_waiting_example { buf := [STX], rd := 0 } 5).2.2
      = { buf := [STX], rd := 0 + 1 } ∧
    ((pt_transmitter tx_waiting_example { buf := [STX], rd := 0 } 5).2.1.pt_state = 3
      ↔ (5 + ULONG_MOD - tx_waiting_example.wait_start_tick) % ULONG_MOD < 5) ∧
    ((5 + ULONG_MOD - tx_waiting_example.wait_start_tick) % ULONG_MOD < 5 →
      (pt_transmitter tx_waiting_example { buf := [STX], rd := 0 } 5).2.1
        = tx_waiting_example) ∧
    (5 ≤ (5 + ULONG_MOD - tx_waiting_example.wait_start_tick) % ULONG_MOD →
      (pt_transmitter tx_waiting_example { buf := [STX], rd := 0 } 5).2.1
        = { tx_waiting_example with pt_state := 1 }) :=
  stray_byte_ignored_then_timeout_check tx_waiting_example { buf := [STX], rd := 0 } 5 STX
    rfl rfl (by decide) (by decide)

/-! ## Stray bytes and resynchronisation -/

/-- C18, as stated, fails when the frame fills the channel: `full_channel_stray_frame`
holds `CHANNEL_SIZE` bytes, of which the first 1017 have been read; the unread ones are
three stray bytes and the four bytes of the frame of the empty payload.  A fresh receiver
stepped over these seven bytes ignores the stray bytes and delivers the (empty) payload,
but `send_byte` drops the ACK: the channel is unchanged and no ACK is emitted. -/
theorem stray_bytes_full_channel_counterexample :
    full_channel_stray_frame.buf.length = CHANNEL_SIZE ∧
    full_channel_stray_frame.buf.drop full_channel_stray_frame.rd
      = [0x00, 0x03, 0x06] ++ frame_of [] ∧
    (∀ b ∈ [0x00, 0x03, 0x06], b ≠ STX) ∧
    (recv_steps 7 (rx_fresh, full_channel_stray_frame)).1.result = 1 ∧
    (recv_steps 7 (rx_fresh, full_channel_stray_frame)).1.out_len = 0 ∧
    (recv_steps 7 (rx_fresh, full_channel_stray_frame)).2.rd = 1024 ∧
    (recv_steps 7 (rx_fresh, full_channel_stray_frame)).2.buf
      = full_channel_stray_frame.buf ∧
    ¬ (recv_steps 7 (rx_fresh, full_channel_stray_frame)).2.buf
      = full_channel_stray_frame.buf ++ [ACK] := by
  decide!

/-- C18 (amended: stray-byte tolerance and self-resynchronisation when the channel has
room for the ACK): for every receiver context in parse state 0, whatever checksum,
cursor, buffer contents and result it retains, for every sequence `stray` of bytes not
containing STX followed by the frame of a payload `p` of at most 255 bytes, on a channel
with fewer than `CHANNEL_SIZE` bytes written: stepping `pt_receiver` over the stray
bytes leaves the context unchanged; stepping it over the frame as well delivers exactly
the payload (`result = 1`, `out_len = len`, `out[0 .. len) = p`, parse state 0 again)
and appends exactly one byte, ACK, to the channel. -/
theorem stray_bytes_then_frame_delivered (p : List Nat) (hp : IsBytes p)
    (hlen : p.length ≤ 255) (r : receiver_t) (hr : r.state = 0)
    (hout : r.out.length = MAX_LEN) (stray : List Nat) (hstray : ∀ b ∈ stray, b ≠ STX)
    (c : Channel) (rest : List Nat)
    (hc : c.buf.drop c.rd = stray ++ frame_of p ++ rest)
    (hcap : c.buf.length < CHANNEL_SIZE) :
    recv_steps stray.length (r, c) = (r, { c with rd := c.rd + stray.length }) ∧
    (recv_steps (stray.length + (frame_of p).length) (r, c)).1.result = 1 ∧
    (recv_steps (stray.length + (frame_of p).length) (r, c)).1.out_len = p.length ∧
    (recv_steps (stray.length + (frame_of p).length) (r, c)).1.out.take p.length = p ∧
    (recv_steps (stray.length + (frame_of p).length) (r, c)).1.state = 0 ∧
    (recv_steps (stray.length + (frame_of p).length) (r, c)).2.buf = c.buf ++ [ACK] := by
  have hfl := frame_of_length p hp hlen
  have hc' : c.buf.drop c.rd = stray ++ (frame_of p ++ rest) := by
    rw [hc, List.append_assoc]
  have h1 := recv_steps_stray r hr stray hstray c stray.length le_rfl
    (fun j hj => pending_get hc' j hj)
  have hc2 : ({ c with rd := c.rd + stray.length } : Channel).buf.drop
      ({ c with rd := c.rd + stray.length } : Channel).rd = frame_of p ++ rest := by
    show c.buf.drop (c.rd + stray.length) = frame_of p ++ rest
    rw [← List.drop_drop, hc', List.drop_left]
  have h2 := recv_steps_frame_all r hr hout p hp hlen { c with rd := c.rd + stray.length }
    (fun j hj => pending_get hc2 j (by omega))
  rw [recv_steps_add, h1, hfl, h2, rx_after_done,
    send_byte_free (c := { c with rd := c.rd + stray.length + (p.length + 4) }) _ hcap]
  refine ⟨rfl, rfl, rfl, ?_, rfl, rfl⟩
  simp

/-- Three stray bytes, then the frame of `[0x10, 0x20, 0x30]`, for a receiver that
retains garbage from an earlier error. -/
theorem stray_bytes_then_frame_delivered_witness :
    recv_steps [0x00, 0x03, 0x06].length
        ({ rx_fresh with chk := 0x77, i := 9, result := -1 },
          { buf := [0x00, 0x03, 0x06] ++ frame_of [0x10, 0x20, 0x30] ++ [], rd := 0 })
      = ({ rx_fresh with chk := 0x77, i := 9, result := -1 },
          { buf := [0x00, 0x03, 0x06] ++ frame_of [0x10, 0x20, 0x30] ++ [],
            rd := 0 + [0x00, 0x03, 0x06].length }) ∧
    (recv_steps ([0x00, 0x03, 0x06].length + (frame_of [0x10, 0x20, 0x30]).length)
        ({ rx_fresh with chk := 0x77, i := 9, result := -1 },
          { buf := [0x00, 0x03, 0x06] ++ frame_of [0x10, 0x20, 0x30] ++ [],
            rd := 0 })).1.result = 1 ∧
    (recv_steps ([0x00, 0x03, 0x06].length + (frame_of [0x10, 0x20, 0x30]).length)
        ({ rx_fresh with chk := 0x77, i := 9, result := -1 },
          { buf := [0x00, 0x03, 0x06] ++ frame_of [0x10, 0x20, 0x30] ++ [],
            rd := 0 })).1.out_len = [0x10, 0x20, 0x30].length ∧
    (recv_steps ([0x00, 0x03, 0x06].length + (frame_of [0x10, 0x20, 0x30]).length)
        ({ rx_fresh with chk := 0x77, i := 9, result := -1 },
          { buf := [0x00, 0x03, 0x06] ++ frame_of [0x10, 0x20, 0x30] ++ [],
            rd := 0 })).1.out.take [0x10, 0x20, 0x30].length = [0x10, 0x20, 0x30] ∧
    (recv_steps ([0x00, 0x03, 0x06].length + (frame_of [0x10, 0x20, 0x30]).length)
        ({ rx_fresh with chk := 0x77, i := 9, result := -1 },
          { buf := [0x00, 0x03, 0x06] ++ frame_of [0x10, 0x20, 0x30] ++ [],
            rd := 0 })).1.state = 0 ∧
    (recv_steps ([0x00, 0x03, 0x06].length + (frame_of [0x10, 0x20, 0x30]).length)
        ({ rx_fresh with chk := 0x77, i := 9, result := -1 },
          { buf := [0x00, 0x03, 0x06] ++ frame_of [0x10, 0x20, 0x30] ++ [],
            rd := 0 })).2.buf
      = ([0x00, 0x03, 0x06] ++ frame_of [0x10, 0x20, 0x30] ++ []) ++ [ACK] :=
  stray_bytes_then_frame_delivered [0x10, 0x20, 0x30] (by decide) (by decide)
    { rx_fresh with chk := 0x77, i := 9, result := -1 } rfl rx_fresh_out_length
    [0x00, 0x03, 0x06] (by decide)
    { buf := [0x00, 0x03, 0x06] ++ frame_of [0x10, 0x20, 0x30] ++ [], rd := 0 } [] rfl
    (by decide!)


/-! ## Scheduler bound and terminal outcomes -/

/-- C19 (scheduler bound and stop condition): for every system state and every
`max_iterations`, `run_scheduler` executes `k = run_scheduler_rounds max_iterations s`
rounds with `k ≤ max_iterations`; each round steps the receiver once, then the
transmitter once on the channel the receiver left, then advances the clock by one tick;
no earlier round ended with a terminal transmitter outcome, and on return either
`finished ≠ 0` or exactly `max_iterations` rounds were executed; `ticks` has advanced by
exactly `k` (in `unsigned long` arithmetic). -/
theorem scheduler_bound_and_stop (s : Sys) (max_iterations : Nat)
    (hticks : s.ticks < ULONG_MOD) :
    run_scheduler_rounds max_iterations s ≤ max_iterations ∧
    run_scheduler max_iterations s = rounds (run_scheduler_rounds max_iterations s) s ∧
    (∀ u : Sys, scheduler_round u
      = { rx := (pt_receiver u.rx u.ch).2.1,
          tx := (pt_transmitter u.tx (pt_receiver u.rx u.ch).2.2 u.ticks).2.1,
          ch := (pt_transmitter u.tx (pt_receiver u.rx u.ch).2.2 u.ticks).2.2,
          ticks := (u.ticks + 1) % ULONG_MOD }) ∧
    (∀ j, 0 < j → j < run_scheduler_rounds max_iterations s →
      (rounds j s).tx.finished = 0) ∧
    ((run_scheduler max_iterations s).tx.finished ≠ 0 ∨
      run_scheduler_rounds max_iterations s = max_iterations) ∧
    (run_scheduler max_iterations s).ticks
      = (s.ticks + run_scheduler_rounds max_iterations s) % ULONG_MOD := by
  obtain ⟨h1, h2, h3, h4⟩ := run_scheduler_eq_rounds max_iterations s
  refine ⟨h1, h2, fun u => rfl, h3, h4, ?_⟩
  rw [h2, rounds_ticks, iterate_tick_eq _ _ hticks]

/-- The scheduler on the message of `teste_transmit_receive_simple`, 1000 iterations
allowed. -/
theorem scheduler_bound_and_stop_witness :
    run_scheduler_rounds 1000 (sys_fresh [0x10, 0x20, 0x30] 3 0) ≤ 1000 ∧
    run_scheduler 1000 (sys_fresh [0x10, 0x20, 0x30] 3 0)
      = rounds (run_scheduler_rounds 1000 (sys_fresh [0x10, 0x20, 0x30] 3 0))
          (sys_fresh [0x10, 0x20, 0x30] 3 0) ∧
    (∀ u : Sys, scheduler_round u
      = { rx := (pt_receiver u.rx u.ch).2.1,
          tx := (pt_transmitter u.tx (pt_receiver u.rx u.ch).2.2 u.ticks).2.1,
          ch := (pt_transmitter u.tx (pt_receiver u.rx u.ch).2.2 u.ticks).2.2,
          ticks := (u.ticks + 1) % ULONG_MOD }) ∧
    (∀ j, 0 < j → j < run_scheduler_rounds 1000 (sys_fresh [0x10, 0x20, 0x30] 3 0) →
      (rounds j (sys_fresh [0x10, 0x20, 0x30] 3 0)).tx.finished = 0) ∧
    ((run_scheduler 1000 (sys_fresh [0x10, 0x20, 0x30] 3 0)).tx.finished ≠ 0 ∨
      run_scheduler_rounds 1000 (sys_fresh [0x10, 0x20, 0x30] 3 0) = 1000) ∧
    (run_scheduler 1000 (sys_fresh [0x10, 0x20, 0x30] 3 0)).ticks
      = ((sys_fresh [0x10, 0x20, 0x30] 3 0).ticks
          + run_scheduler_rounds 1000 (sys_fresh [0x10, 0x20, 0x30] 3 0)) % ULONG_MOD :=
  scheduler_bound_and_stop (sys_fresh [0x10, 0x20, 0x30] 3 0) 1000 (by decide)

/-- C20 (terminal outcomes are absorbing): whenever a `pt_transmitter` step of a
transmitter in one of the states 0 to 3 returns 1, the transmitter is in the terminal
state 99 with `finished = 1` or `finished = -1`; and for a transmitter in state 99 every
later step, whatever the channel holds and whatever the clock value, returns 1 and
leaves the whole context and the channel unchanged, so that any further run leaves the
context as it is. -/
theorem terminal_outcome_absorbing (t : transmitter_t) (h : t.pt_state = 99) :
    (∀ (c : Channel) (ticks : Nat), pt_transmitter t c ticks = (1, t, c)) ∧
    (∀ envs : List (Channel × Nat), tx_run t envs = t) ∧
    (∀ (u : transmitter_t) (c : Channel) (ticks : Nat),
      (u.pt_state = 0 ∨ u.pt_state = 1 ∨ u.pt_state = 2 ∨ u.pt_state = 3) →
      (pt_transmitter u c ticks).1 = 1 →
      (pt_transmitter u c ticks).2.1.pt_state = 99 ∧
      ((pt_transmitter u c ticks).2.1.finished = 1 ∨
        (pt_transmitter u c ticks).2.1.finished = -1)) :=
  ⟨fun c ticks => pt_transmitter_terminal t c ticks h,
    fun envs => tx_run_terminal envs t h,
    fun u c ticks hs hret => pt_transmitter_done u c ticks hs hret⟩

/-- The transmitter that gave up on `[0x55]` stays as it is. -/
theorem terminal_outcome_absorbing_witness :
    (∀ (c : Channel) (ticks : Nat),
      pt_transmitter (tx_failed (tx_fresh [0x55] 1) [0x55] 28) c ticks
        = (1, tx_failed (tx_fresh [0x55] 1) [0x55] 28, c)) ∧
    (∀ envs : List (Channel × Nat),
      tx_run (tx_failed (tx_fresh [0x55] 1) [0x55] 28) envs
        = tx_failed (tx_fresh [0x55] 1) [0x55] 28) ∧
    (∀ (u : transmitter_t) (c : Channel) (ticks : Nat),
      (u.pt_state = 0 ∨ u.pt_state = 1 ∨ u.pt_state = 2 ∨ u.pt_state = 3) →
      (pt_transmitter u c ticks).1 = 1 →
      (pt_transmitter u c ticks).2.1.pt_state = 99 ∧
      ((pt_transmitter u c ticks).2.1.finished = 1 ∨
        (pt_transmitter u c ticks).2.1.finished = -1)) :=
  terminal_outcome_absorbing (tx_failed (tx_fresh [0x55] 1) [0x55] 28) rfl

end Protothreads

namespace FSM

open Protothreads

/-! ## The table-driven transmitter -/

theorem transmitter_fsm_loop_done (fuel : Nat) (s : TxContext × Channel)
    (h : s.1.state = TxState.TX_DONE) : transmitter_fsm_loop fuel s = some s := by
  cases fuel <;> simp [transmitter_fsm_loop, h]

theorem transmitter_fsm_loop_step (fuel : Nat) (s : TxContext × Channel)
    (h : s.1.state ≠ TxState.TX_DONE) :
    transmitter_fsm_loop (fuel + 1) s
      = transmitter_fsm_loop fuel (tx_table s.1.state s.1 s.2) := by
  simp [transmitter_fsm_loop, h]

/-- From any point of the payload the loop sends the rest of the payload, the checksum
and the end marker, and stops in `TX_DONE`. -/
theorem transmitter_fsm_loop_rest (p : List Nat) (hp : IsBytes p) (hlen : p.length ≤ 255) :
    ∀ k i (c : Channel) fuel, i + k = p.length → k + 2 ≤ fuel →
      c.buf.length + (k + 2) ≤ CHANNEL_SIZE →
      transmitter_fsm_loop fuel (tx_ctx_at p i, c)
        = some ({ state := TxState.TX_DONE, data := p, len := p.length, i := p.length,
                  chk := xor_fold p.length p },
                { c with buf := c.buf ++ (p.drop i ++ [xor_fold p.length p, ETX]) }) := by
  intro k
  induction k with
  | zero =>
    intro i c fuel hi hfuel hcap
    have hi' : i = p.length := by omega
    subst hi'
    obtain ⟨f, rfl⟩ : ∃ f, fuel = f + 2 := ⟨fuel - 2, by omega⟩
    have hst : (tx_ctx_at p p.length).state = TxState.TX_SEND_CHK := by
      simp [tx_ctx_at]
    rw [transmitter_fsm_loop_step _ _ (by rw [hst]; decide)]
    simp only [hst, tx_table, tx_send_chk]
    rw [transmitter_fsm_loop_step _ _ (by simp)]
    simp only [tx_table, tx_send_etx]
    have e1 : send_byte c (tx_ctx_at p p.length).chk
        = { c with buf := c.buf ++ [(tx_ctx_at p p.length).chk] } :=
      send_byte_free _ (by omega)
    rw [transmitter_fsm_loop_done _ _ rfl, e1, send_byte_free _ (by simp; omega)]
    simp [tx_ctx_at]
  | succ k ih =>
    intro i c fuel hi hfuel hcap
    have hil : i < p.length := by omega
    obtain ⟨f, rfl⟩ : ∃ f, fuel = f + 1 := ⟨fuel - 1, by omega⟩
    have hst : (tx_ctx_at p i).state = TxState.TX_SEND_DATA := by
      simp [tx_ctx_at, hil]
    have hb : p.getD i 0 = p[i] := by simp [List.getD_eq_getElem?_getD, hil]
    have hx : xor_fold p.length (p.take i) < 256 :=
      xor_fold_lt (isBytes_take hp i) (by omega)
    have hpi : p[i] < 256 := hp _ (List.getElem_mem _)
    have hstep : tx_table (tx_ctx_at p i).state (tx_ctx_at p i) c
        = (tx_ctx_at p (i + 1), { c with buf := c.buf ++ [p[i]] }) := by
      rw [hst]
      simp only [tx_table, tx_send_data]
      rw [send_byte_free _ (by omega)]
      have h1 : (tx_ctx_at p i).i = i := rfl
      have h2 : (tx_ctx_at p i).data = p := rfl
      have h3 : (tx_ctx_at p i).chk = xor_fold p.length (p.take i) := rfl
      have h4 : (tx_ctx_at p i).len = p.length := rfl
      have h5 : (i + 1) % 256 = i + 1 := Nat.mod_eq_of_lt (by omega)
      simp only [h1, h2, h3, h4, h5, hb, xor_byte_mod hx hpi]
      have h6 : xor_fold p.length (p.take i) ^^^ p[i] = xor_fold p.length (p.take (i + 1)) := by
        rw [take_succ_getElem p i hil, xor_fold_snoc]
      rw [h6]
      by_cases hl : i + 1 < p.length
      · have : ¬ i + 1 ≥ p.length := by omega
        simp [tx_ctx_at, hl, this, hil]
      · have : i + 1 ≥ p.length := by omega
        simp [tx_ctx_at, hl, this]
    rw [transmitter_fsm_loop_step _ _ (by rw [hst]; decide), hstep,
      ih (i + 1) _ f (by omega) (by omega) (by simp; omega)]
    simp only [List.append_assoc, List.singleton_append]
    rw [List.drop_eq_getElem_cons hil]
    rfl

/-- `transmitter_fsm` appends the frame of the payload to the channel and terminates
within `len + 4` handler calls. -/
theorem transmitter_fsm_eq (p : List Nat) (hp : IsBytes p) (hlen : p.length ≤ 255)
    (c : Channel) (fuel : Nat) (hfuel : p.length + 4 ≤ fuel)
    (hcap : c.buf.length + (p.length + 4) ≤ CHANNEL_SIZE) :
    transmitter_fsm fuel p p.length c = some { c with buf := c.buf ++ frame_of p } := by
  obtain ⟨f, rfl⟩ : ∃ f, fuel = f + 2 := ⟨fuel - 2, by omega⟩
  unfold transmitter_fsm
  rw [transmitter_fsm_loop_step _ _ (by simp)]
  simp only [tx_table, tx_send_stx]
  rw [transmitter_fsm_loop_step _ _ (by simp)]
  simp only [tx_table, tx_send_len]
  have e1 : send_byte c STX = { c with buf := c.buf ++ [STX] } :=
    send_byte_free _ (by omega)
  rw [e1, send_byte_free _ (by simp; omega)]
  have hx : (0 ^^^ p.length) % 256 = p.length := by
    rw [Nat.zero_xor]; exact Nat.mod_eq_of_lt (by omega)
  have hctx : ({ state := if p.length > 0 then TxState.TX_SEND_DATA else TxState.TX_SEND_CHK,
                 data := p, len := p.length, i := 0, chk := (0 ^^^ p.length) % 256 }
                : TxContext) = tx_ctx_at p 0 := by
    rw [hx]
    simp [tx_ctx_at, xor_fold]
  rw [hctx, transmitter_fsm_loop_rest p hp hlen p.length 0 _ f (by omega) (by omega)
    (by simp; omega), frame_of_eq p hp hlen]
  simp



/-! ## The table-driven receiver, one byte at a time -/

theorem rx_on_byte_wait_stx (ctx : RxContext) (hs : ctx.state = RxState.RX_WAIT_STX) :
    rx_on_byte ctx STX
      = { ctx with b := STX, chk := 0, i := 0, state := RxState.RX_READ_LEN } := by
  simp [rx_on_byte, hs, rx_table, rx_wait_stx, get_byte]

theorem rx_on_byte_wait_other (ctx : RxContext) (b : Nat)
    (hs : ctx.state = RxState.RX_WAIT_STX) (hb : b ≠ STX) :
    rx_on_byte ctx b = { ctx with b := b } := by
  simp [rx_on_byte, hs, rx_table, rx_wait_stx, get_byte, hb]

theorem rx_on_byte_len (ctx : RxContext) (b : Nat) (hs : ctx.state = RxState.RX_READ_LEN)
    (hb : b ≤ 255) :
    rx_on_byte ctx b
      = { ctx with b := b, len := b, chk := (ctx.chk ^^^ b) % 256,
                   state := if b = 0 then RxState.RX_READ_CHK else RxState.RX_READ_DATA } := by
  have hgt : ¬ 255 < b := by omega
  by_cases h0 : b = 0 <;> simp [rx_on_byte, hs, rx_table, rx_read_len, get_byte, MAX_LEN, h0, hgt]

theorem rx_on_byte_data (ctx : RxContext) (b : Nat) (hs : ctx.state = RxState.RX_READ_DATA) :
    rx_on_byte ctx b
      = { ctx with b := b, out := ctx.out.set ctx.i b, i := (ctx.i + 1) % 256,
                   chk := (ctx.chk ^^^ b) % 256,
                   state := if (ctx.i + 1) % 256 ≥ ctx.len then RxState.RX_READ_CHK
                            else RxState.RX_READ_DATA } := by
  by_cases h0 : (ctx.i + 1) % 256 ≥ ctx.len <;>
    simp [rx_on_byte, hs, rx_table, rx_read_data, get_byte, h0]

theorem rx_on_byte_chk_ok (ctx : RxContext) (hs : ctx.state = RxState.RX_READ_CHK) :
    rx_on_byte ctx ctx.chk
      = { ctx with b := ctx.chk, recv_chk := ctx.chk, state := RxState.RX_READ_ETX } := by
  simp [rx_on_byte, hs, rx_table, rx_read_chk, get_byte]

theorem rx_on_byte_chk_bad (ctx : RxContext) (b : Nat) (hs : ctx.state = RxState.RX_READ_CHK)
    (hb : b ≠ ctx.chk) :
    rx_on_byte ctx b
      = { ctx with b := b, recv_chk := b, state := RxState.RX_ERROR, result := -1 } := by
  simp [rx_on_byte, hs, rx_table, rx_read_chk, get_byte, hb]

theorem rx_on_byte_etx_ok (ctx : RxContext) (hs : ctx.state = RxState.RX_READ_ETX) :
    rx_on_byte ctx ETX
      = { ctx with b := ETX, out_len := ctx.len, state := RxState.RX_DONE, result := 1 } := by
  simp [rx_on_byte, hs, rx_table, rx_read_etx, get_byte]

theorem rx_on_byte_etx_bad (ctx : RxContext) (b : Nat) (hs : ctx.state = RxState.RX_READ_ETX)
    (hb : b ≠ ETX) :
    rx_on_byte ctx b = { ctx with b := b, state := RxState.RX_ERROR, result := -1 } := by
  simp [rx_on_byte, hs, rx_table, rx_read_etx, get_byte, hb]

/-- A handler called on a channel whose next unread byte is `b` consumes that byte and
does to the context what `rx_on_byte` says. -/
theorem rx_table_on_byte (ctx : RxContext) (c : Channel) (b : Nat)
    (hb : c.buf[c.rd]? = some b)
    (hrun : ¬ (ctx.state = RxState.RX_DONE ∨ ctx.state = RxState.RX_ERROR)) :
    rx_table ctx.state ctx c = (rx_on_byte ctx b, { c with rd := c.rd + 1 }) := by
  have hg := get_byte_some hb
  have hg1 : get_byte { buf := [b], rd := 0 } = (some b, { buf := [b], rd := 0 + 1 }) :=
    get_byte_some (c := { buf := [b], rd := 0 }) rfl
  unfold rx_on_byte
  cases hs : ctx.state with
  | RX_WAIT_STX => simp only [rx_table, rx_wait_stx, hg, hg1]; split_ifs <;> rfl
  | RX_READ_LEN => simp only [rx_table, rx_read_len, hg, hg1]; split_ifs <;> rfl
  | RX_READ_DATA => simp only [rx_table, rx_read_data, hg, hg1]; split_ifs <;> rfl
  | RX_READ_CHK => simp only [rx_table, rx_read_chk, hg, hg1]; split_ifs <;> rfl
  | RX_READ_ETX => simp only [rx_table, rx_read_etx, hg, hg1]; split_ifs <;> rfl
  | RX_DONE => exact absurd (Or.inl hs) hrun
  | RX_ERROR => exact absurd (Or.inr hs) hrun

theorem rx_feed_terminal (ctx : RxContext) (l : List Nat)
    (h : ctx.state = RxState.RX_DONE ∨ ctx.state = RxState.RX_ERROR) : rx_feed ctx l = ctx := by
  cases l <;> simp [rx_feed, h]

theorem rx_feed_nil (ctx : RxContext)
    (h : ¬ (ctx.state = RxState.RX_DONE ∨ ctx.state = RxState.RX_ERROR)) :
    rx_feed ctx [] = { ctx with state := RxState.RX_ERROR, result := -1 } := by
  simp [rx_feed, h]

theorem rx_feed_cons (ctx : RxContext) (b : Nat) (l : List Nat)
    (h : ¬ (ctx.state = RxState.RX_DONE ∨ ctx.state = RxState.RX_ERROR)) :
    rx_feed ctx (b :: l) = rx_feed (rx_on_byte ctx b) l := by
  simp [rx_feed, h]

/-- With more fuel than unread bytes the loop of `receiver_fsm` terminates, in the
context `rx_feed` computes from the unread bytes. -/
theorem receiver_fsm_loop_eq_feed (fuel : Nat) :
    ∀ (ctx : RxContext) (c : Channel), c.buf.length - c.rd < fuel →
      ∃ c', receiver_fsm_loop fuel (ctx, c) = some (rx_feed ctx (c.buf.drop c.rd), c') := by
  induction fuel with
  | zero => intro ctx c h; omega
  | succ fuel ih =>
    intro ctx c h
    by_cases hterm : ctx.state = RxState.RX_DONE ∨ ctx.state = RxState.RX_ERROR
    · exact ⟨c, by simp [receiver_fsm_loop, hterm, rx_feed_terminal ctx _ hterm]⟩
    · by_cases hemp : c.rd ≥ c.buf.length
      · refine ⟨c, ?_⟩
        rw [List.drop_of_length_le hemp, rx_feed_nil ctx hterm]
        simp [receiver_fsm_loop, hterm, hemp]
      · have hlt : c.rd < c.buf.length := by omega
        have hb : c.buf[c.rd]? = some (c.buf[c.rd]) := List.getElem?_eq_getElem hlt
        obtain ⟨c', hc'⟩ := ih (rx_on_byte ctx (c.buf[c.rd])) { c with rd := c.rd + 1 }
          (by simp only []; omega)
        refine ⟨c', ?_⟩
        rw [List.drop_eq_getElem_cons hlt, rx_feed_cons ctx _ _ hterm, ← hc']
        simp only [receiver_fsm_loop, hterm, hemp, if_false]
        rw [rx_table_on_byte ctx c _ hb hterm]



/-! ## The table-driven receiver, phase by phase -/

/-- READ_ETX: success exactly when the next byte is the end marker. -/
theorem rx_feed_etx (ctx : RxContext) (hs : ctx.state = RxState.RX_READ_ETX) (l : List Nat) :
    ((rx_feed ctx l).result = 1 ∨ (rx_feed ctx l).result = -1) ∧
    ((rx_feed ctx l).result = 1 ↔ ∃ tail, l = ETX :: tail) ∧
    ((rx_feed ctx l).result = 1 →
      (rx_feed ctx l).out_len = ctx.len ∧ (rx_feed ctx l).out = ctx.out) := by
  have hrun : ¬ (ctx.state = RxState.RX_DONE ∨ ctx.state = RxState.RX_ERROR) := by
    rw [hs]; decide
  cases l with
  | nil =>
    rw [rx_feed_nil ctx hrun]
    refine ⟨Or.inr rfl, ⟨fun h => ?_, fun ⟨_, h⟩ => List.noConfusion h⟩, fun h => ?_⟩ <;>
      exact absurd (show (-1 : Int) = 1 from h) (by decide)
  | cons b tail =>
    rw [rx_feed_cons ctx b tail hrun]
    by_cases hb : b = ETX
    · subst hb
      rw [rx_on_byte_etx_ok ctx hs, rx_feed_terminal _ _ (Or.inl rfl)]
      exact ⟨Or.inl rfl, ⟨fun _ => ⟨tail, rfl⟩, fun _ => rfl⟩, fun _ => ⟨rfl, rfl⟩⟩
    · rw [rx_on_byte_etx_bad ctx b hs hb, rx_feed_terminal _ _ (Or.inr rfl)]
      refine ⟨Or.inr rfl, ⟨fun h => ?_, fun ⟨_, h⟩ => ?_⟩, fun h => ?_⟩
      · exact absurd (show (-1 : Int) = 1 from h) (by decide)
      · exact absurd (List.cons.inj h).1 hb
      · exact absurd (show (-1 : Int) = 1 from h) (by decide)

/-- READ_CHK: success exactly when the next two bytes are the running checksum and the
end marker. -/
theorem rx_feed_chk (ctx : RxContext) (hs : ctx.state = RxState.RX_READ_CHK) (l : List Nat) :
    ((rx_feed ctx l).result = 1 ∨ (rx_feed ctx l).result = -1) ∧
    ((rx_feed ctx l).result = 1 ↔ ∃ tail, l = ctx.chk :: ETX :: tail) ∧
    ((rx_feed ctx l).result = 1 →
      (rx_feed ctx l).out_len = ctx.len ∧ (rx_feed ctx l).out = ctx.out) := by
  have hrun : ¬ (ctx.state = RxState.RX_DONE ∨ ctx.state = RxState.RX_ERROR) := by
    rw [hs]; decide
  cases l with
  | nil =>
    rw [rx_feed_nil ctx hrun]
    refine ⟨Or.inr rfl, ⟨fun h => ?_, fun ⟨_, h⟩ => List.noConfusion h⟩, fun h => ?_⟩ <;>
      exact absurd (show (-1 : Int) = 1 from h) (by decide)
  | cons b rest =>
    rw [rx_feed_cons ctx b rest hrun]
    by_cases hb : b = ctx.chk
    · subst hb
      rw [rx_on_byte_chk_ok ctx hs]
      obtain ⟨h1, h2, h3⟩ := rx_feed_etx
        { ctx with b := ctx.chk, recv_chk := ctx.chk, state := RxState.RX_READ_ETX } rfl rest
      refine ⟨h1, ⟨fun h => ?_, fun ⟨tail, h⟩ => ?_⟩, h3⟩
      · obtain ⟨tail, ht⟩ := h2.mp h
        exact ⟨tail, by rw [ht]⟩
      · exact h2.mpr ⟨tail, (List.cons.inj h).2⟩
    · rw [rx_on_byte_chk_bad ctx b hs hb, rx_feed_terminal _ _ (Or.inr rfl)]
      refine ⟨Or.inr rfl, ⟨fun h => ?_, fun ⟨_, h⟩ => ?_⟩, fun h => ?_⟩
      · exact absurd (show (-1 : Int) = 1 from h) (by decide)
      · exact absurd (List.cons.inj h).1 hb
      · exact absurd (show (-1 : Int) = 1 from h) (by decide)

theorem take_set_succ (out : List Nat) (i b : Nat) (h : i < out.length) :
    (out.set i b).take (i + 1) = out.take i ++ [b] := by
  have h1 := set_append_drop (out.take i) out b i (by simp; omega) h
  rw [List.take_append_drop] at h1
  rw [h1, List.take_append_of_le_length (by simp; omega), List.take_of_length_le (by simp)]

/-- READ_DATA: success exactly when the unread bytes are the missing data bytes, the
checksum they lead to and the end marker; the data bytes are then in `out`. -/
theorem rx_feed_data :
    ∀ (l : List Nat) (ctx : RxContext), ctx.state = RxState.RX_READ_DATA →
      ctx.i < ctx.len → ctx.len ≤ 255 → ctx.chk < 256 → IsBytes l →
      ((rx_feed ctx l).result = 1 ∨ (rx_feed ctx l).result = -1) ∧
      ((rx_feed ctx l).result = 1 ↔
        ∃ data tail, data.length = ctx.len - ctx.i ∧
          l = data ++ xor_fold ctx.chk data :: ETX :: tail) ∧
      ((rx_feed ctx l).result = 1 →
        (rx_feed ctx l).out_len = ctx.len ∧
        (ctx.len ≤ ctx.out.length →
          (rx_feed ctx l).out.take ctx.len
            = ctx.out.take ctx.i ++ l.take (ctx.len - ctx.i))) := by
  intro l
  induction l with
  | nil =>
    intro ctx hs hi hlen hchk _
    have hrun : ¬ (ctx.state = RxState.RX_DONE ∨ ctx.state = RxState.RX_ERROR) := by
      rw [hs]; decide
    rw [rx_feed_nil ctx hrun]
    refine ⟨Or.inr rfl, ⟨fun h => ?_, fun ⟨data, tail, hd, h⟩ => ?_⟩, fun h => ?_⟩
    · exact absurd (show (-1 : Int) = 1 from h) (by decide)
    · have := congrArg List.length h
      simp at this
      omega
    · exact absurd (show (-1 : Int) = 1 from h) (by decide)
  | cons b rest ih =>
    intro ctx hs hi hlen hchk hl
    have hrun : ¬ (ctx.state = RxState.RX_DONE ∨ ctx.state = RxState.RX_ERROR) := by
      rw [hs]; decide
    have hb : b < 256 := hl b (by simp)
    have hrest : IsBytes rest := fun x hx => hl x (by simp [hx])
    have hmod : (ctx.i + 1) % 256 = ctx.i + 1 := Nat.mod_eq_of_lt (by omega)
    have hxor : (ctx.chk ^^^ b) % 256 = ctx.chk ^^^ b := xor_byte_mod hchk hb
    rw [rx_feed_cons ctx b rest hrun, rx_on_byte_data ctx b hs, hmod, hxor]
    by_cases hlast : ctx.i + 1 ≥ ctx.len
    · -- the last data byte
      have hk : ctx.len - ctx.i = 1 := by omega
      rw [if_pos hlast]
      obtain ⟨h1, h2, h3⟩ := rx_feed_chk
        { ctx with b := b, out := ctx.out.set ctx.i b, i := ctx.i + 1, chk := ctx.chk ^^^ b,
                   state := RxState.RX_READ_CHK } rfl rest
      refine ⟨h1, ⟨fun h => ?_, fun ⟨data, tail, hd, h⟩ => ?_⟩, fun h => ⟨(h3 h).1, fun ho => ?_⟩⟩
      · obtain ⟨tail, ht⟩ := h2.mp h
        exact ⟨[b], tail, by rw [hk]; rfl, by rw [ht]; rfl⟩
      · rw [hk] at hd
        obtain ⟨x, rfl⟩ := List.length_eq_one.mp hd
        have hx := (List.cons.inj h).1
        subst hx
        exact h2.mpr ⟨tail, (List.cons.inj h).2⟩
      · rw [(h3 h).2, hk]
        have hil : ctx.len = ctx.i + 1 := by omega
        show (ctx.out.set ctx.i b).take ctx.len = ctx.out.take ctx.i ++ (b :: rest).take 1
        rw [hil, take_set_succ _ _ _ (by omega)]
        rfl
    · -- more data bytes to come
      rw [if_neg hlast]
      obtain ⟨h1, h2, h3⟩ := ih
        { ctx with b := b, out := ctx.out.set ctx.i b, i := ctx.i + 1, chk := ctx.chk ^^^ b,
                   state := RxState.RX_READ_DATA } rfl (by simp only []; omega) hlen
          (xor_byte_lt hchk hb) hrest
      have hk : ctx.len - ctx.i = (ctx.len - (ctx.i + 1)) + 1 := by omega
      refine ⟨h1, ⟨fun h => ?_, fun ⟨data, tail, hd, h⟩ => ?_⟩, fun h => ⟨(h3 h).1, fun ho => ?_⟩⟩
      · obtain ⟨data, tail, hd, ht⟩ := h2.mp h
        refine ⟨b :: data, tail, ?_, ?_⟩
        · simp only [List.length_cons, hd]; omega
        · rw [ht]; rfl
      · cases data with
        | nil => simp at hd; omega
        | cons x data =>
          have hx := (List.cons.inj h).1
          subst hx
          refine h2.mpr ⟨data, tail, ?_, (List.cons.inj h).2⟩
          simp only [List.length_cons] at hd
          show data.length = ctx.len - (ctx.i + 1)
          omega
      · have h4 := (h3 h).2 (by simp only [List.length_set]; exact ho)
        rw [h4, hk, List.take_succ_cons]
        show (ctx.out.set ctx.i b).take (ctx.i + 1) ++ rest.take (ctx.len - (ctx.i + 1))
          = ctx.out.take ctx.i ++ b :: rest.take (ctx.len - (ctx.i + 1))
        rw [take_set_succ _ _ _ (by omega)]
        simp


/-- READ_LEN, entered with a cleared checksum and index: success exactly when the unread
bytes are a length byte, that many data bytes, their checksum and the end marker. -/
theorem rx_feed_len (ctx : RxContext) (hs : ctx.state = RxState.RX_READ_LEN)
    (hchk : ctx.chk = 0) (hi : ctx.i = 0) (l : List Nat) (hl : IsBytes l) :
    ((rx_feed ctx l).result = 1 ∨ (rx_feed ctx l).result = -1) ∧
    ((rx_feed ctx l).result = 1 ↔
      ∃ len data tail, l = len :: (data ++ xor_fold len data :: ETX :: tail) ∧
        data.length = len) ∧
    ((rx_feed ctx l).result = 1 →
      (rx_feed ctx l).out_len = l.headD 0 ∧
      (l.headD 0 ≤ ctx.out.length →
        (rx_feed ctx l).out.take (l.headD 0) = l.tail.take (l.headD 0))) := by
  have hrun : ¬ (ctx.state = RxState.RX_DONE ∨ ctx.state = RxState.RX_ERROR) := by
    rw [hs]; decide
  cases l with
  | nil =>
    rw [rx_feed_nil ctx hrun]
    refine ⟨Or.inr rfl, ⟨fun h => ?_, fun ⟨_, _, _, h, _⟩ => List.noConfusion h⟩, fun h => ?_⟩ <;>
      exact absurd (show (-1 : Int) = 1 from h) (by decide)
  | cons b rest =>
    have hb : b < 256 := hl b (by simp)
    have hrest : IsBytes rest := fun x hx => hl x (by simp [hx])
    have hx : (ctx.chk ^^^ b) % 256 = b := by
      rw [hchk, Nat.zero_xor]; exact Nat.mod_eq_of_lt hb
    rw [rx_feed_cons ctx b rest hrun, rx_on_byte_len ctx b hs (by omega), hx]
    by_cases h0 : b = 0
    · subst h0
      rw [if_pos rfl]
      obtain ⟨h1, h2, h3⟩ := rx_feed_chk
        { ctx with b := 0, len := 0, chk := 0, state := RxState.RX_READ_CHK } rfl rest
      refine ⟨h1, ⟨fun h => ?_, fun ⟨len, data, tail, h, hd⟩ => ?_⟩,
        fun h => ⟨(h3 h).1, fun _ => ?_⟩⟩
      · obtain ⟨tail, ht⟩ := h2.mp h
        exact ⟨0, [], tail, by rw [ht]; rfl, rfl⟩
      · have hlen := (List.cons.inj h).1
        subst hlen
        have hnil : data = [] := List.length_eq_zero.mp hd
        subst hnil
        exact h2.mpr ⟨tail, (List.cons.inj h).2⟩
      · simp
    · rw [if_neg h0]
      obtain ⟨h1, h2, h3⟩ := rx_feed_data rest
        { ctx with b := b, len := b, chk := b, state := RxState.RX_READ_DATA } rfl
        (by simp only [hi]; omega) (by simp only []; omega) hb hrest
      refine ⟨h1, ⟨fun h => ?_, fun ⟨len, data, tail, h, hd⟩ => ?_⟩,
        fun h => ⟨(h3 h).1, fun ho => ?_⟩⟩
      · obtain ⟨data, tail, hd, ht⟩ := h2.mp h
        refine ⟨b, data, tail, by rw [ht], ?_⟩
        simp only [hi] at hd
        exact hd
      · have hlen := (List.cons.inj h).1
        subst hlen
        refine h2.mpr ⟨data, tail, ?_, (List.cons.inj h).2⟩
        simp only [hi]
        exact hd
      · have h4 := (h3 h).2 ho
        simp only [hi, List.take_zero, List.nil_append, Nat.sub_zero] at h4
        simp only [hi, List.headD_cons, List.tail_cons]
        exact h4

theorem skip_to_stx_stx (l : List Nat) : skip_to_stx (STX :: l) = STX :: l := by
  simp [skip_to_stx, List.dropWhile]

theorem skip_to_stx_other (b : Nat) (l : List Nat) (hb : b ≠ STX) :
    skip_to_stx (b :: l) = skip_to_stx l := by
  have h : (b != STX) = true := by simp [hb]
  simp only [skip_to_stx, List.dropWhile, h]

theorem skip_to_stx_append (pre l : List Nat) (hpre : STX ∉ pre) :
    skip_to_stx (pre ++ STX :: l) = STX :: l := by
  induction pre with
  | nil => exact skip_to_stx_stx l
  | cons b pre ih =>
    have hb : b ≠ STX := fun h => hpre (by simp [h])
    rw [List.cons_append, skip_to_stx_other _ _ hb]
    exact ih (fun h => hpre (by simp [h]))

/-- WAIT_STX: success exactly when the unread bytes, the ones before the first STX
skipped, begin with a complete well-formed frame. -/
theorem rx_feed_wait :
    ∀ (l : List Nat) (ctx : RxContext), ctx.state = RxState.RX_WAIT_STX → IsBytes l →
      ((rx_feed ctx l).result = 1 ∨ (rx_feed ctx l).result = -1) ∧
      ((rx_feed ctx l).result = 1 ↔ BeginsWithFrame (skip_to_stx l)) ∧
      ((rx_feed ctx l).result = 1 →
        (rx_feed ctx l).out_len = (skip_to_stx l).getD 1 0 ∧
        ((skip_to_stx l).getD 1 0 ≤ ctx.out.length →
          (rx_feed ctx l).out.take ((skip_to_stx l).getD 1 0)
            = ((skip_to_stx l).drop 2).take ((skip_to_stx l).getD 1 0))) := by
  intro l
  induction l with
  | nil =>
    intro ctx hs _
    have hrun : ¬ (ctx.state = RxState.RX_DONE ∨ ctx.state = RxState.RX_ERROR) := by
      rw [hs]; decide
    rw [rx_feed_nil ctx hrun]
    refine ⟨Or.inr rfl, ⟨fun h => ?_, fun ⟨_, _, _, h, _⟩ => ?_⟩, fun h => ?_⟩
    · exact absurd (show (-1 : Int) = 1 from h) (by decide)
    · exact List.noConfusion (show ([] : List Nat) = _ :: _ from h)
    · exact absurd (show (-1 : Int) = 1 from h) (by decide)
  | cons b rest ih =>
    intro ctx hs hl
    have hrun : ¬ (ctx.state = RxState.RX_DONE ∨ ctx.state = RxState.RX_ERROR) := by
      rw [hs]; decide
    have hrest : IsBytes rest := fun x hx => hl x (by simp [hx])
    rw [rx_feed_cons ctx b rest hrun]
    by_cases hb : b = STX
    · subst hb
      rw [rx_on_byte_wait_stx ctx hs, skip_to_stx_stx]
      obtain ⟨h1, h2, h3⟩ := rx_feed_len
        { ctx with b := STX, chk := 0, i := 0, state := RxState.RX_READ_LEN } rfl rfl rfl
        rest hrest
      refine ⟨h1, ⟨fun h => ?_, fun ⟨len, data, tail, h, hd⟩ => ?_⟩, fun h => ?_⟩
      · obtain ⟨len, data, tail, ht, hd⟩ := h2.mp h
        exact ⟨len, data, tail, by rw [ht], hd⟩
      · exact h2.mpr ⟨len, data, tail, (List.cons.inj h).2, hd⟩
      · have h4 := h3 h
        cases rest with
        | nil => exact h4
        | cons x xs => exact h4
    · rw [rx_on_byte_wait_other ctx b hs hb, skip_to_stx_other b rest hb]
      exact ih { ctx with b := b } hs hrest

/-- With more fuel than unread bytes `receiver_fsm` returns, and what it returns is read
off the context `rx_feed` computes from the unread bytes. -/
theorem receiver_fsm_eq_feed (fuel : Nat) (out : List Nat) (out_len : Nat) (c : Channel)
    (hfuel : c.buf.length - c.rd < fuel) :
    ∃ c', receiver_fsm fuel out out_len c
      = some ((rx_feed (rx_initial out out_len) (c.buf.drop c.rd)).result,
              (rx_feed (rx_initial out out_len) (c.buf.drop c.rd)).out,
              (rx_feed (rx_initial out out_len) (c.buf.drop c.rd)).out_len, c') := by
  obtain ⟨c', h⟩ := receiver_fsm_loop_eq_feed fuel (rx_initial out out_len) c hfuel
  exact ⟨c', by rw [receiver_fsm, h]; rfl⟩

theorem isBytes_drop {l : List Nat} (hl : IsBytes l) (k : Nat) : IsBytes (l.drop k) :=
  fun b hb => hl b (List.mem_of_mem_drop hb)

/-- A frame whose checksum byte is not the XOR of the length and the data is not
well formed. -/
theorem not_begins_bad_chk (len chk : Nat) (data tail : List Nat) (hd : data.length = len)
    (hchk : chk ≠ xor_fold len data) :
    ¬ BeginsWithFrame (STX :: len :: (data ++ chk :: ETX :: tail)) := by
  rintro ⟨len1, data1, tail1, h, hd1⟩
  have h1 := (List.cons.inj (List.cons.inj h).2).1
  subst h1
  have h2 := (List.cons.inj (List.cons.inj h).2).2
  have h3 := List.append_inj h2 (by rw [hd, hd1])
  have h4 := (List.cons.inj h3.2).1
  rw [← h3.1] at h4
  exact hchk h4

/-- A frame that stops before its end marker is not complete. -/
theorem not_begins_short (len chk : Nat) (data : List Nat) (hd : data.length = len) :
    ¬ BeginsWithFrame (STX :: len :: (data ++ [chk])) := by
  rintro ⟨len1, data1, tail1, h, hd1⟩
  have h1 := (List.cons.inj (List.cons.inj h).2).1
  subst h1
  have h2 := congrArg List.length (List.cons.inj (List.cons.inj h).2).2
  simp only [List.length_append, List.length_cons, List.length_nil, hd, hd1] at h2
  omega


/-! ## Counting the handler invocations of the transmitter -/

theorem transmitter_fsm_loop_calls_done (fuel : Nat) (s : TxContext × Channel)
    (h : s.1.state = TxState.TX_DONE) : transmitter_fsm_loop_calls fuel s = some (0, s) := by
  cases fuel <;> simp [transmitter_fsm_loop_calls, h]

theorem transmitter_fsm_loop_calls_step (fuel : Nat) (s : TxContext × Channel)
    (h : s.1.state ≠ TxState.TX_DONE) :
    transmitter_fsm_loop_calls (fuel + 1) s
      = (transmitter_fsm_loop_calls fuel (tx_table s.1.state s.1 s.2)).map
          (fun r => (r.1 + 1, r.2)) := by
  simp [transmitter_fsm_loop_calls, h]

/-- The counting loop is the loop of `transmitter_fsm`: it ends in the same context and
channel, and runs out of fuel on the same inputs. -/
theorem transmitter_fsm_loop_calls_snd (fuel : Nat) :
    ∀ s : TxContext × Channel,
      (transmitter_fsm_loop_calls fuel s).map (fun r => r.2) = transmitter_fsm_loop fuel s := by
  induction fuel with
  | zero =>
    intro s
    by_cases h : s.1.state = TxState.TX_DONE <;>
      simp [transmitter_fsm_loop_calls, transmitter_fsm_loop, h]
  | succ fuel ih =>
    intro s
    by_cases h : s.1.state = TxState.TX_DONE
    · simp [transmitter_fsm_loop_calls, transmitter_fsm_loop, h]
    · rw [transmitter_fsm_loop_calls_step _ _ h, transmitter_fsm_loop_step _ _ h, ← ih,
        Option.map_map]
      rfl

/-- A loop that makes `n` handler invocations does not return when allowed fewer. -/
theorem transmitter_fsm_loop_short (fuel : Nat) :
    ∀ (s : TxContext × Channel) (n : Nat) (r : TxContext × Channel),
      transmitter_fsm_loop_calls fuel s = some (n, r) →
      ∀ f, f < n → transmitter_fsm_loop f s = none := by
  induction fuel with
  | zero =>
    intro s n r h f hf
    by_cases hd : s.1.state = TxState.TX_DONE
    · rw [transmitter_fsm_loop_calls_done _ _ hd] at h
      have hn : 0 = n := congrArg Prod.fst (Option.some.inj h)
      omega
    · simp [transmitter_fsm_loop_calls, hd] at h
  | succ fuel ih =>
    intro s n r h f hf
    by_cases hd : s.1.state = TxState.TX_DONE
    · rw [transmitter_fsm_loop_calls_done _ _ hd] at h
      have hn : 0 = n := congrArg Prod.fst (Option.some.inj h)
      omega
    · rw [transmitter_fsm_loop_calls_step _ _ hd] at h
      cases hq : transmitter_fsm_loop_calls fuel (tx_table s.1.state s.1 s.2) with
      | none => rw [hq] at h; exact absurd h (by simp)
      | some q =>
        rw [hq, Option.map_some'] at h
        have hn : q.1 + 1 = n := congrArg Prod.fst (Option.some.inj h)
        cases f with
        | zero => simp [transmitter_fsm_loop, hd]
        | succ f =>
          rw [transmitter_fsm_loop_step _ _ hd]
          exact ih _ q.1 q.2 hq f (by omega)

/-- One `tx_send_data` call at index `i` of the payload. -/
theorem tx_table_data_at (p : List Nat) (hp : IsBytes p) (hlen : p.length ≤ 255) (i : Nat)
    (hil : i < p.length) (c : Channel) (hcap : c.buf.length < CHANNEL_SIZE) :
    tx_table (tx_ctx_at p i).state (tx_ctx_at p i) c
      = (tx_ctx_at p (i + 1), { c with buf := c.buf ++ [p.getD i 0] }) := by
  have hst : (tx_ctx_at p i).state = TxState.TX_SEND_DATA := by
    simp [tx_ctx_at, hil]
  have hb : p.getD i 0 = p[i] := by simp [List.getD_eq_getElem?_getD, hil]
  have hx : xor_fold p.length (p.take i) < 256 :=
    xor_fold_lt (isBytes_take hp i) (by omega)
  have hpi : p[i] < 256 := hp _ (List.getElem_mem _)
  rw [hst]
  simp only [tx_table, tx_send_data]
  rw [send_byte_free _ hcap]
  have h1 : (tx_ctx_at p i).i = i := rfl
  have h2 : (tx_ctx_at p i).data = p := rfl
  have h3 : (tx_ctx_at p i).chk = xor_fold p.length (p.take i) := rfl
  have h4 : (tx_ctx_at p i).len = p.length := rfl
  have h5 : (i + 1) % 256 = i + 1 := Nat.mod_eq_of_lt (by omega)
  simp only [h1, h2, h3, h4, h5, hb, xor_byte_mod hx hpi]
  have h6 : xor_fold p.length (p.take i) ^^^ p[i] = xor_fold p.length (p.take (i + 1)) := by
    rw [take_succ_getElem p i hil, xor_fold_snoc]
  rw [h6]
  by_cases hl : i + 1 < p.length
  · have : ¬ i + 1 ≥ p.length := by omega
    simp [tx_ctx_at, hl, this, hil]
  · have : i + 1 ≥ p.length := by omega
    simp [tx_ctx_at, hl, this]

/-- From index `i` of the payload the loop makes one handler invocation for each of the
`k` data bytes left, one for the checksum and one for the end marker. -/
theorem transmitter_fsm_loop_calls_rest (p : List Nat) (hp : IsBytes p)
    (hlen : p.length ≤ 255) :
    ∀ k i (c : Channel) fuel, i + k = p.length → k + 2 ≤ fuel →
      c.buf.length + (k + 2) ≤ CHANNEL_SIZE →
      transmitter_fsm_loop_calls fuel (tx_ctx_at p i, c)
        = some (k + 2,
                { state := TxState.TX_DONE, data := p, len := p.length, i := p.length,
                  chk := xor_fold p.length p },
                { c with buf := c.buf ++ (p.drop i ++ [xor_fold p.length p, ETX]) }) := by
  intro k
  induction k with
  | zero =>
    intro i c fuel hi hfuel hcap
    have hi' : i = p.length := by omega
    subst hi'
    obtain ⟨f, rfl⟩ : ∃ f, fuel = f + 2 := ⟨fuel - 2, by omega⟩
    have hst : (tx_ctx_at p p.length).state = TxState.TX_SEND_CHK := by
      simp [tx_ctx_at]
    rw [transmitter_fsm_loop_calls_step _ _ (by rw [hst]; decide)]
    simp only [hst, tx_table, tx_send_chk]
    rw [transmitter_fsm_loop_calls_step _ _ (by simp)]
    simp only [tx_table, tx_send_etx]
    have e1 : send_byte c (tx_ctx_at p p.length).chk
        = { c with buf := c.buf ++ [(tx_ctx_at p p.length).chk] } :=
      send_byte_free _ (by omega)
    rw [transmitter_fsm_loop_calls_done _ _ rfl, e1, send_byte_free _ (by simp; omega)]
    simp [tx_ctx_at]
  | succ k ih =>
    intro i c fuel hi hfuel hcap
    have hil : i < p.length := by omega
    obtain ⟨f, rfl⟩ : ∃ f, fuel = f + 1 := ⟨fuel - 1, by omega⟩
    have hst : (tx_ctx_at p i).state = TxState.TX_SEND_DATA := by
      simp [tx_ctx_at, hil]
    have hb : p.getD i 0 = p[i] := by simp [List.getD_eq_getElem?_getD, hil]
    rw [transmitter_fsm_loop_calls_step _ _ (by rw [hst]; decide),
      tx_table_data_at p hp hlen i hil c (by omega),
      ih (i + 1) _ f (by omega) (by omega) (by simp; omega), hb]
    simp only [Option.map_some', List.append_assoc, List.singleton_append]
    rw [List.drop_eq_getElem_cons hil]
    rfl

/-- The handler invocations of `transmitter_fsm`: `len + 4` of them, ending in `TX_DONE`
with the frame of the payload appended to the channel. -/
theorem transmitter_fsm_calls_eq (p : List Nat) (hp : IsBytes p) (hlen : p.length ≤ 255)
    (c : Channel) (fuel : Nat) (hfuel : p.length + 4 ≤ fuel)
    (hcap : c.buf.length + (p.length + 4) ≤ CHANNEL_SIZE) :
    transmitter_fsm_loop_calls fuel
        ({ state := TxState.TX_SEND_STX, data := p, len := p.length, i := 0, chk := 0 }, c)
      = some (p.length + 4,
              { state := TxState.TX_DONE, data := p, len := p.length, i := p.length,
                chk := xor_fold p.length p },
              { c with buf := c.buf ++ frame_of p }) := by
  obtain ⟨f, rfl⟩ : ∃ f, fuel = f + 2 := ⟨fuel - 2, by omega⟩
  rw [transmitter_fsm_loop_calls_step _ _ (by simp)]
  simp only [tx_table, tx_send_stx]
  rw [transmitter_fsm_loop_calls_step _ _ (by simp)]
  simp only [tx_table, tx_send_len]
  have e1 : send_byte c STX = { c with buf := c.buf ++ [STX] } :=
    send_byte_free _ (by omega)
  rw [e1, send_byte_free _ (by simp; omega)]
  have hx : (0 ^^^ p.length) % 256 = p.length := by
    rw [Nat.zero_xor]; exact Nat.mod_eq_of_lt (by omega)
  have hctx : ({ state := if p.length > 0 then TxState.TX_SEND_DATA else TxState.TX_SEND_CHK,
                 data := p, len := p.length, i := 0, chk := (0 ^^^ p.length) % 256 }
                : TxContext) = tx_ctx_at p 0 := by
    rw [hx]
    simp [tx_ctx_at, xor_fold]
  rw [hctx, transmitter_fsm_loop_calls_rest p hp hlen p.length 0 _ f (by omega) (by omega)
    (by simp; omega), frame_of_eq p hp hlen]
  simp
/-! ## The claims about the table-driven variant -/

/-- C11. Round trip of the table-driven variant: for every payload of 0..255 bytes, after
`reset_channel` the call `transmitter_fsm(payload, len)` returns, and on the channel it
leaves `receiver_fsm` returns 1, sets `*out_len = len` and leaves the payload in
`out[0..len)`; `out` is any buffer of at least `len` bytes, and both loops are given at
least as many iterations as they need (`len + 4` handler calls each). -/
theorem fsm_roundtrip (p : List Nat) (hp : IsBytes p) (hlen : p.length ≤ 255)
    (out : List Nat) (hout : p.length ≤ out.length) (out_len fuel1 fuel2 : Nat)
    (h1 : p.length + 4 ≤ fuel1) (h2 : p.length + 4 < fuel2) :
    ∃ c1 out1 c2,
      transmitter_fsm fuel1 p p.length reset_channel = some c1 ∧
      receiver_fsm fuel2 out out_len c1 = some (1, out1, p.length, c2) ∧
      out1.take p.length = p := by
  have htx := transmitter_fsm_eq p hp hlen reset_channel fuel1 h1
    (by simp only [reset_channel, List.length_nil, CHANNEL_SIZE]; omega)
  have hf := frame_of_eq p hp hlen
  have hfl := frame_of_length p hp hlen
  have hbytes : IsBytes (frame_of p) := by
    rw [hf]
    intro b hb
    simp only [List.mem_append, List.mem_cons, List.mem_singleton, List.not_mem_nil,
      or_false] at hb
    rcases hb with ((rfl | rfl) | hb) | (rfl | rfl)
    · decide
    · omega
    · exact hp b hb
    · exact xor_fold_lt hp (by omega)
    · decide
  obtain ⟨c2, hrx⟩ := receiver_fsm_eq_feed fuel2 out out_len
    { reset_channel with buf := reset_channel.buf ++ frame_of p }
    (by simp only [reset_channel, List.nil_append, hfl]; omega)
  have hdrop : ({ reset_channel with buf := reset_channel.buf ++ frame_of p } : Channel).buf.drop
      ({ reset_channel with buf := reset_channel.buf ++ frame_of p } : Channel).rd
      = frame_of p := rfl
  rw [hdrop] at hrx
  obtain ⟨_, g2, g3⟩ := rx_feed_wait (frame_of p) (rx_initial out out_len) rfl hbytes
  have hshape : frame_of p = STX :: p.length :: (p ++ xor_fold p.length p :: ETX :: []) := by
    rw [hf]; simp
  have hskip : skip_to_stx (frame_of p) = STX :: p.length :: (p ++ [xor_fold p.length p, ETX]) := by
    rw [hshape, skip_to_stx_stx]
  have hres : (rx_feed (rx_initial out out_len) (frame_of p)).result = 1 :=
    g2.mpr (by rw [hskip]; exact ⟨p.length, p, [], rfl, rfl⟩)
  have g4 := g3 hres
  rw [hskip] at g4
  have hlen1 : (rx_feed (rx_initial out out_len) (frame_of p)).out_len = p.length := g4.1
  have hout1 := g4.2 hout
  refine ⟨{ reset_channel with buf := reset_channel.buf ++ frame_of p },
    (rx_feed (rx_initial out out_len) (frame_of p)).out, c2, htx, ?_, ?_⟩
  · rw [hrx, hres, hlen1]
  · rw [show (STX :: p.length :: (p ++ [xor_fold p.length p, ETX])).getD 1 0 = p.length from rfl]
      at hout1
    rw [hout1]
    show (p ++ [xor_fold p.length p, ETX]).take p.length = p
    rw [List.take_append_of_le_length (Nat.le_refl _), List.take_length]

/-- C11 at the payload of `teste_transmit_receive_simple`, with the test's ten-byte `out`. -/
theorem fsm_roundtrip_witness :
    IsBytes [0x10, 0x20, 0x30] ∧
    ∃ c1 out1 c2,
      transmitter_fsm 7 [0x10, 0x20, 0x30] [0x10, 0x20, 0x30].length reset_channel = some c1 ∧
      receiver_fsm 8 (List.replicate 10 0) 0 c1
        = some (1, out1, [0x10, 0x20, 0x30].length, c2) ∧
      out1.take [0x10, 0x20, 0x30].length = [0x10, 0x20, 0x30] :=
  ⟨by decide, fsm_roundtrip [0x10, 0x20, 0x30] (by decide) (by decide) (List.replicate 10 0)
    (by decide) 0 7 8 (by decide) (by decide)⟩

/-- C12. Acceptance condition of `receiver_fsm`: on every channel of bytes, given more
iterations than there are unread bytes, it returns, the result is 1 or -1, and it is 1
exactly when the unread bytes, the ones before the first STX skipped, begin with a
complete well-formed frame. In particular the result is -1 when the checksum byte of
the frame differs from the XOR of the length and the data, and when the channel runs out
before the frame's ETX. -/
theorem receiver_fsm_acceptance (c : Channel) (hc : IsBytes c.buf) (out : List Nat)
    (out_len fuel : Nat) (hfuel : c.buf.length - c.rd < fuel) :
    ∃ res, receiver_fsm fuel out out_len c = some res ∧
      (res.1 = 1 ∨ res.1 = -1) ∧
      (res.1 = 1 ↔ BeginsWithFrame (skip_to_stx (c.buf.drop c.rd))) ∧
      (∀ pre len data chk tail, STX ∉ pre → data.length = len → chk ≠ xor_fold len data →
        c.buf.drop c.rd = pre ++ STX :: len :: (data ++ chk :: ETX :: tail) → res.1 = -1) ∧
      (∀ pre len data chk, STX ∉ pre → data.length = len →
        c.buf.drop c.rd = pre ++ STX :: len :: (data ++ [chk]) → res.1 = -1) := by
  obtain ⟨c2, hrx⟩ := receiver_fsm_eq_feed fuel out out_len c hfuel
  obtain ⟨g1, g2, _⟩ := rx_feed_wait (c.buf.drop c.rd) (rx_initial out out_len) rfl
    (isBytes_drop hc c.rd)
  refine ⟨_, hrx, g1, g2, ?_, ?_⟩
  · intro pre len data chk tail hpre hd hchk hshape
    rcases g1 with h | h
    · have hb := g2.mp h
      rw [hshape, skip_to_stx_append pre _ hpre] at hb
      exact absurd hb (not_begins_bad_chk len chk data tail hd hchk)
    · exact h
  · intro pre len data chk hpre hd hshape
    rcases g1 with h | h
    · have hb := g2.mp h
      rw [hshape, skip_to_stx_append pre _ hpre] at hb
      exact absurd hb (not_begins_short len chk data hd)
    · exact h

/-- C12 at the channel of `teste_checksum_error`: the frame of `0xAA, 0xBB` with its
checksum byte XORed with `0xFF`. -/
theorem receiver_fsm_acceptance_witness :
    IsBytes (corrupt_chk (frame_of [0xAA, 0xBB]) 0xFF) ∧
    ∃ res, receiver_fsm 7 (List.replicate 10 0) 0
        { buf := corrupt_chk (frame_of [0xAA, 0xBB]) 0xFF, rd := 0 } = some res ∧
      (res.1 = 1 ∨ res.1 = -1) ∧
      (res.1 = 1 ↔ BeginsWithFrame (skip_to_stx
        ((corrupt_chk (frame_of [0xAA, 0xBB]) 0xFF).drop 0))) ∧
      (∀ pre len data chk tail, STX ∉ pre → data.length = len → chk ≠ xor_fold len data →
        (corrupt_chk (frame_of [0xAA, 0xBB]) 0xFF).drop 0
          = pre ++ STX :: len :: (data ++ chk :: ETX :: tail) → res.1 = -1) ∧
      (∀ pre len data chk, STX ∉ pre → data.length = len →
        (corrupt_chk (frame_of [0xAA, 0xBB]) 0xFF).drop 0
          = pre ++ STX :: len :: (data ++ [chk]) → res.1 = -1) :=
  ⟨by decide, receiver_fsm_acceptance
    { buf := corrupt_chk (frame_of [0xAA, 0xBB]) 0xFF, rd := 0 } (by decide)
    (List.replicate 10 0) 0 7 (by decide)⟩

/-- C21. The two encoders agree: for every payload `p` of 0..255 bytes, every channel with
at least `len + 4` free slots and every frame buffer `dst` of at least `len + 4` bytes,
`transmitter_fsm` appends to the channel exactly the bytes `build_frame` writes into
`dst` for the same payload, which are STX, `len`, the data, the XOR checksum and ETX; its
loop ends in `TX_DONE` after exactly `len + 4` handler invocations, so that it returns
when allowed `len + 4` iterations or more and does not when allowed fewer. -/
theorem transmitter_fsm_agrees_with_build_frame (p : List Nat) (hp : IsBytes p)
    (hlen : p.length ≤ 255) (c : Channel)
    (hcap : c.buf.length + (p.length + 4) ≤ CHANNEL_SIZE)
    (dst : List Nat) (hdst : p.length + 4 ≤ dst.length) (fuel : Nat) :
    (p.length + 4 ≤ fuel →
      transmitter_fsm fuel p p.length c
        = some { c with buf := c.buf ++ (build_frame dst p p.length).1.take
                                          (build_frame dst p p.length).2 } ∧
      transmitter_fsm_loop_calls fuel
          ({ state := TxState.TX_SEND_STX, data := p, len := p.length, i := 0, chk := 0 }, c)
        = some (p.length + 4,
                { state := TxState.TX_DONE, data := p, len := p.length, i := p.length,
                  chk := xor_fold p.length p },
                { c with buf := c.buf ++ (build_frame dst p p.length).1.take
                                           (build_frame dst p p.length).2 })) ∧
    (fuel < p.length + 4 → transmitter_fsm fuel p p.length c = none) ∧
    (build_frame dst p p.length).1.take (build_frame dst p p.length).2
      = [STX, p.length] ++ p ++ [xor_fold p.length p, ETX] := by
  obtain ⟨b1, b2, _⟩ := build_frame_take dst p hp hlen hdst
  rw [b1, b2]
  refine ⟨fun hfuel => ⟨transmitter_fsm_eq p hp hlen c fuel hfuel hcap,
      transmitter_fsm_calls_eq p hp hlen c fuel hfuel hcap⟩, fun hfuel => ?_,
    frame_of_eq p hp hlen⟩
  have hcalls := transmitter_fsm_calls_eq p hp hlen c (p.length + 4) (Nat.le_refl _) hcap
  unfold transmitter_fsm
  rw [transmitter_fsm_loop_short _ _ _ _ hcalls fuel hfuel]
  rfl

/-- C21 at the payload of `teste_transmit_receive_simple`, on the empty channel, with a
zeroed frame buffer of `FRAME_SIZE` bytes: seven iterations suffice, six do not. -/
theorem transmitter_fsm_agrees_with_build_frame_witness :
    IsBytes [0x10, 0x20, 0x30] ∧
    (transmitter_fsm 7 [0x10, 0x20, 0x30] ([0x10, 0x20, 0x30] : List Nat).length
          reset_channel
        = some { reset_channel with
            buf := reset_channel.buf ++
              (build_frame (List.replicate FRAME_SIZE 0) [0x10, 0x20, 0x30]
                ([0x10, 0x20, 0x30] : List Nat).length).1.take
              (build_frame (List.replicate FRAME_SIZE 0) [0x10, 0x20, 0x30]
                ([0x10, 0x20, 0x30] : List Nat).length).2 } ∧
      transmitter_fsm_loop_calls 7
          ({ state := TxState.TX_SEND_STX, data := [0x10, 0x20, 0x30],
             len := ([0x10, 0x20, 0x30] : List Nat).length, i := 0, chk := 0 }, reset_channel)
        = some (([0x10, 0x20, 0x30] : List Nat).length + 4,
                { state := TxState.TX_DONE, data := [0x10, 0x20, 0x30],
                  len := ([0x10, 0x20, 0x30] : List Nat).length,
                  i := ([0x10, 0x20, 0x30] : List Nat).length,
                  chk := xor_fold ([0x10, 0x20, 0x30] : List Nat).length [0x10, 0x20, 0x30] },
                { reset_channel with
                  buf := reset_channel.buf ++
                    (build_frame (List.replicate FRAME_SIZE 0) [0x10, 0x20, 0x30]
                      ([0x10, 0x20, 0x30] : List Nat).length).1.take
                    (build_frame (List.replicate FRAME_SIZE 0) [0x10, 0x20, 0x30]
                      ([0x10, 0x20, 0x30] : List Nat).length).2 })) ∧
    transmitter_fsm 6 [0x10, 0x20, 0x30] ([0x10, 0x20, 0x30] : List Nat).length
      reset_channel = none ∧
    (build_frame (List.replicate FRAME_SIZE 0) [0x10, 0x20, 0x30]
        ([0x10, 0x20, 0x30] : List Nat).length).1.take
      (build_frame (List.replicate FRAME_SIZE 0) [0x10, 0x20, 0x30]
        ([0x10, 0x20, 0x30] : List Nat).length).2
      = [STX, ([0x10, 0x20, 0x30] : List Nat).length] ++ [0x10, 0x20, 0x30]
          ++ [xor_fold ([0x10, 0x20, 0x30] : List Nat).length [0x10, 0x20, 0x30], ETX] :=
  ⟨by decide,
    (transmitter_fsm_agrees_with_build_frame [0x10, 0x20, 0x30] (by decide) (by decide)
      reset_channel (by decide) (List.replicate FRAME_SIZE 0) (by decide!) 7).1 (by decide),
    (transmitter_fsm_agrees_with_build_frame [0x10, 0x20, 0x30] (by decide) (by decide)
      reset_channel (by decide) (List.replicate FRAME_SIZE 0) (by decide!) 6).2.1 (by decide),
    (transmitter_fsm_agrees_with_build_frame [0x10, 0x20, 0x30] (by decide) (by decide)
      reset_channel (by decide) (List.replicate FRAME_SIZE 0) (by decide!) 7).2.2⟩

end FSM
